import Mathlib

/-!
# Resampling a raster between two sky-coordinate mappings

A shallow embedding of `util/wcs-resample.c` (`find_overlap_grid`,
`resample_wcs`, `resample_wcs_rgba`, `resample_wcs_files`) and theorems
about it.

Modelling conventions.

* A C pointer to a buffer is a total map from offsets to values (`Buf`);
  a store `p[k] = v` is `Buf.write`.  Which offsets a function touches is
  stated explicitly in the theorems.
* `int` values that count pixels or blocks are `Nat` (image sizes are
  non-negative; for a non-positive size the C loops do not run); `int`
  values that can be negative (rounded source coordinates, the
  interpolation order, the `overlap_grid` flag) are `Int`.  Sizes are
  assumed small enough that no `int` expression overflows.
* `double` and `float` values are rationals: every finite floating-point
  number is a rational number.  An operation whose result the machine rounds
  is followed by `float_round` (nearest, ties to even; 53 significant bits
  for `double`, 24 for `float`): the subtraction `inx -= 1.0` and the
  single-precision quotient in `(int)ceil(outW / (float)B)`.  Where a value
  is only rounded to the nearest integer and compared with the image size
  (nearest-neighbour branch) the subtraction is written exactly: for a
  double the rounded and the exact difference have the same nearest integer
  or both fall outside the image.  Exponent range (overflow, subnormal
  numbers), infinities and NaN are not modelled.
* The coordinate mapping `anwcs_t` is an external capability; it is a
  record of the four operations the code calls.  A C status return of
  zero/non-zero with out-parameters is an `Option`.
* `lanczos_resample_unw_sep_f` is external and is a parameter.
* The file services used by `resample_wcs_files` (opening a mapping, loading
  and writing a raster) are external; they are a record of functions
  (`fits_services`).  `float` samples are rationals there, and the `double`
  bounds `HUGE_VAL` / `-HUGE_VAL` are the top and bottom elements added to
  the rationals.  Logging (`ERROR`, `logmsg`, `logverb`) has no effect on
  results and is left out.
-/

namespace WcsResample

/-- Memory behind a C pointer: the value stored at each offset. -/
abbrev Buf (α : Type) := Int → α

/-- The store `b[k] = v`. -/
def Buf.write {α : Type} (b : Buf α) (k : Int) (v : α) : Buf α :=
  fun n => if n = k then v else b n

/-- A buffer returned by `calloc`: every element is zero. -/
def calloc_bool : Buf Bool := fun _ => false

/-- The C array `double xyz[3]`. -/
abbrev xyz_t := ℚ × ℚ × ℚ

/-- The operations of `anwcs.h` used by the resampler.  `none` stands for a
non-zero (failure) return code. -/
structure anwcs_t where
  /-- Mirrors `anwcs_pixelxy2xyz(wcs, px, py, xyz)`. -/
  pixelxy2xyz : ℚ → ℚ → Option xyz_t
  /-- Mirrors `anwcs_xyz2pixelxy(wcs, xyz, &px, &py)`. -/
  xyz2pixelxy : xyz_t → Option (ℚ × ℚ)
  /-- Mirrors `anwcs_pixelxy2radec(wcs, px, py, &ra, &dec)`. -/
  pixelxy2radec : ℚ → ℚ → Option (ℚ × ℚ)
  /-- Mirrors `anwcs_radec_is_inside_image(wcs, ra, dec)`. -/
  radec_is_inside_image : ℚ → ℚ → Bool

/-- The C library function `round` followed by the conversion to `int`:
nearest integer, halfway cases away from zero. -/
def c_round (q : ℚ) : Int :=
  if 0 ≤ q then ⌊q + 1 / 2⌋ else -⌊-q + 1 / 2⌋

/-- Helper of `ilog2`: halves `n` until it is below 2, at most `fuel` times. -/
def ilog2_steps : Nat → Nat → Nat
  | 0, _ => 0
  | fuel + 1, n => if n < 2 then 0 else ilog2_steps fuel (n / 2) + 1

/-- The integer part of the binary logarithm of a positive number. -/
def ilog2 (n : Nat) : Nat := ilog2_steps n n

/-- The integer nearest to `N / D`, halfway cases to the even integer. -/
def round_div (N D : Nat) : Nat :=
  if 2 * (N % D) < D then N / D
  else if D < 2 * (N % D) then N / D + 1
  else N / D + N / D % 2

/-- Rounding of the positive rational `a / b` to `p` significant bits, as a
pair (`v`, `s`) standing for `v / 2^s`: the scale `s` makes
`a / b * 2^s >= 2^(p+1)`, `e` is the binary exponent of `a / b * 2^s`, `u` is
one unit in the last place times `2^s`, and the significand is rounded to
the nearest integer, ties to even. -/
def float_round_scaled (p a b : Nat) : Nat × Nat :=
  let s := p + 2 + ilog2 b
  let e := ilog2 (a * 2 ^ s / b)
  let u := 2 ^ (e + 1 - p)
  (round_div (a * 2 ^ s) (b * u) * u, s)

/-- Rounding of a rational to the nearest binary floating-point number with
`p` significant bits, ties to the even significand (the IEEE 754 default);
the exponent range is unbounded. -/
def float_round (p : Nat) (q : ℚ) : ℚ :=
  if q = 0 then 0
  else
    (if q < 0 then -1 else 1)
      * ((float_round_scaled p q.num.natAbs q.den).1 : ℚ)
      / ((2 ^ (float_round_scaled p q.num.natAbs q.den).2 : Nat) : ℚ)

/-- The statement `inx -= 1.0` on a `double`. -/
def sub_one_double (inx : ℚ) : ℚ := float_round 53 (inx - 1)

/-- The expression `(int)ceil(n / (float)B)`: both operands are converted to
`float`, the quotient is rounded to `float`, and `ceil` and the conversion to
`int` are exact. -/
def ceil_div (n B : Nat) : Nat :=
  ⌈float_round 24 (float_round 24 (n : ℚ) / float_round 24 (B : ℚ))⌉.toNat

/-- Runs `body k` for `k = start, start+1, ...`, `n` times. -/
def for_steps {σ : Type} (body : Nat → σ → σ) : Nat → Nat → σ → σ
  | 0, _, s => s
  | n + 1, k, s => for_steps body n (k + 1) (body k s)

/-- The loop `for (k = lo; k < hi; k++) body`. -/
def for_range {σ : Type} (lo hi : Nat) (body : Nat → σ → σ) (s : σ) : σ :=
  for_steps body (hi - lo) lo s

/-! ## `find_overlap_grid` -/

/-- Body of the first double loop of `find_overlap_grid` (lines 173-179):
classifies block (row `i`, column `j`). -/
def classify_block (B outW outH : Nat) (outwcs inwcs : anwcs_t) (BW : Nat)
    (i j : Nat) (bib : Buf Bool) : Buf Bool :=
  let y : Int := min ((outH : Int) - 1) ((B : Int) * i)
  let x : Int := min ((outW : Int) - 1) ((B : Int) * j)
  match outwcs.pixelxy2radec ((x + 1 : Int) : ℚ) ((y + 1 : Int) : ℚ) with
  | none => bib
  | some (ra, dec) =>
    bib.write ((i : Int) * BW + j) (inwcs.radec_is_inside_image ra dec)

/-- The mask before dilation (lines 170-181). -/
def overlap_undilated (B outW outH : Nat) (outwcs inwcs : anwcs_t)
    (BW BH : Nat) : Buf Bool :=
  for_range 0 BH (fun i bib =>
    for_range 0 BW (fun j bib =>
      classify_block B outW outH outwcs inwcs BW i j bib) bib) calloc_bool

/-- Body of the dilation double loop (lines 194-199) for cell (`i`, `j`). -/
def dilate_cell (BW BH : Nat) (bib : Buf Bool) (i j : Nat)
    (bib2 : Buf Bool) : Buf Bool :=
  if !bib ((i : Int) * BW + j) then bib2
  else
    ([-1, 0, 1] : List Int).foldl (fun b2 di =>
      ([-1, 0, 1] : List Int).foldl (fun b2 dj =>
        b2.write
          (min (max ((i : Int) + di) 0) ((BH : Int) - 1) * BW
            + min (max ((j : Int) + dj) 0) ((BW : Int) - 1))
          true) b2) bib2

/-- The dilation pass "Grow the in-bounds area" (lines 191-200). -/
def dilate (BW BH : Nat) (bib : Buf Bool) : Buf Bool :=
  for_range 0 BH (fun i bib2 =>
    for_range 0 BW (fun j bib2 => dilate_cell BW BH bib i j bib2) bib2)
    calloc_bool

/-- The function `find_overlap_grid`: returns the mask together with the
values stored through `pBW` and `pBH`. -/
def find_overlap_grid (B outW outH : Nat) (outwcs inwcs : anwcs_t) :
    Buf Bool × Nat × Nat :=
  let BW := ceil_div outW B
  let BH := ceil_div outH B
  let bib := overlap_undilated B outW outH outwcs inwcs BW BH
  let bib2 := dilate BW BH bib
  (bib2, BW, BH)

/-! ## `resample_wcs` -/

/-- What the body of the pixel loop of `resample_wcs` asks of the source
raster for one destination pixel. -/
inductive Fetch where
  /-- One of the `continue` statements is taken. -/
  | skip : Fetch
  /-- The read `pix = inimg[y * inW + x]`. -/
  | nearest (x y : Int) : Fetch
  /-- The call `pix = lanczos_resample_unw_sep_f(inx, iny, ...)`. -/
  | lanczos (inx iny : ℚ) : Fetch
  deriving DecidableEq

/-- Lines 263-296 of `resample_wcs`: the conversions and bounds tests for
destination pixel (`i`, `j`).  The subtraction `inx -= 1.0` is rounded to
`double` where its result is compared with the window and passed to the
interpolation routine; in the nearest-neighbour branch, where it is only
rounded to an integer, it is exact. -/
def resample_fetch (inwcs : anwcs_t) (inW inH : Nat) (outwcs : anwcs_t)
    (lorder : Int) (i j : Nat) : Fetch :=
  match outwcs.pixelxy2xyz (((i : Int) + 1 : Int) : ℚ) (((j : Int) + 1 : Int) : ℚ) with
  | none => Fetch.skip
  | some xyz =>
    match inwcs.xyz2pixelxy xyz with
    | none => Fetch.skip
    | some (inx, iny) =>
      if lorder = 0 then
        let x := c_round (inx - 1)
        let y := c_round (iny - 1)
        if x < 0 ∨ x ≥ inW ∨ y < 0 ∨ y ≥ inH then Fetch.skip
        else Fetch.nearest x y
      else
        let inx := sub_one_double inx
        let iny := sub_one_double iny
        if inx < ((-lorder : Int) : ℚ) ∨ inx ≥ (((inW : Int) + lorder : Int) : ℚ) ∨
            iny < ((-lorder : Int) : ℚ) ∨ iny ≥ (((inH : Int) + lorder : Int) : ℚ) then
          Fetch.skip
        else Fetch.lanczos inx iny

/-- Body of the pixel loop of `resample_wcs` (lines 263-297). -/
def resample_pixel {α : Type}
    (lanczos_resample_unw_sep_f : ℚ → ℚ → Buf α → Nat → Nat → Int → α)
    (inwcs : anwcs_t) (inimg : Buf α) (inW inH : Nat) (outwcs : anwcs_t)
    (outW : Nat) (lorder : Int) (i j : Nat) (outimg : Buf α) : Buf α :=
  match resample_fetch inwcs inW inH outwcs lorder i j with
  | Fetch.skip => outimg
  | Fetch.nearest x y =>
    outimg.write ((j : Int) * outW + i) (inimg (y * inW + x))
  | Fetch.lanczos inx iny =>
    outimg.write ((j : Int) * outW + i)
      (lanczos_resample_unw_sep_f inx iny inimg inW inH lorder)

/-- The block loops of `resample_wcs` (lines 250-301).  `pruned bj bi` is the
test `overlap_grid && !bib[bj*BW + bi]`. -/
def resample_blocks {α : Type}
    (lanczos_resample_unw_sep_f : ℚ → ℚ → Buf α → Nat → Nat → Int → α)
    (inwcs : anwcs_t) (inimg : Buf α) (inW inH : Nat) (outwcs : anwcs_t)
    (outW outH : Nat) (lorder : Int) (pruned : Nat → Nat → Bool)
    (B BW BH : Nat) (outimg : Buf α) : Buf α :=
  for_range 0 BH (fun bj outimg =>
    for_range 0 BW (fun bi outimg =>
      if pruned bj bi then outimg
      else
        let jlo := min outH (bj * B)
        let jhi := min outH ((bj + 1) * B)
        let ilo := min outW (bi * B)
        let ihi := min outW ((bi + 1) * B)
        for_range jlo jhi (fun j outimg =>
          for_range ilo ihi (fun i outimg =>
            resample_pixel lanczos_resample_unw_sep_f inwcs inimg inW inH
              outwcs outW lorder i j outimg) outimg) outimg) outimg) outimg

/-- The function `resample_wcs`: the return code and the final contents of
`outimg`. -/
def resample_wcs {α : Type}
    (lanczos_resample_unw_sep_f : ℚ → ℚ → Buf α → Nat → Nat → Int → α)
    (inwcs : anwcs_t) (inimg : Buf α) (inW inH : Nat) (outwcs : anwcs_t)
    (outimg : Buf α) (outW outH : Nat) (overlap_grid lorder : Int) :
    Int × Buf α :=
  if overlap_grid ≠ 0 then
    let (bib, BW, BH) := find_overlap_grid 20 outW outH outwcs inwcs
    (0, resample_blocks lanczos_resample_unw_sep_f inwcs inimg inW inH outwcs
          outW outH lorder (fun bj bi => !bib ((bj : Int) * BW + bi)) 20 BW BH outimg)
  else
    (0, resample_blocks lanczos_resample_unw_sep_f inwcs inimg inW inH outwcs
          outW outH lorder (fun _ _ => false) 1 outW outH outimg)

/-! ## `resample_wcs_rgba` -/

/-- Lines 341-353 of `resample_wcs_rgba`: the conversions, rounding and
bounds test; `some (x, y)` when the four copies are reached. -/
def rgba_fetch (inwcs : anwcs_t) (inW inH : Nat) (outwcs : anwcs_t)
    (i j : Nat) : Option (Int × Int) :=
  match outwcs.pixelxy2xyz (((i : Int) + 1 : Int) : ℚ) (((j : Int) + 1 : Int) : ℚ) with
  | none => none
  | some xyz =>
    match inwcs.xyz2pixelxy xyz with
    | none => none
    | some (inx, iny) =>
      let x := c_round (inx - 1)
      let y := c_round (iny - 1)
      if x < 0 ∨ x ≥ inW ∨ y < 0 ∨ y ≥ inH then none
      else some (x, y)

/-- Body of the pixel loop of `resample_wcs_rgba` (lines 341-358). -/
def rgba_pixel {α : Type} (inwcs : anwcs_t) (inimg : Buf α) (inW inH : Nat)
    (outwcs : anwcs_t) (outW : Nat) (i j : Nat) (outimg : Buf α) : Buf α :=
  match rgba_fetch inwcs inW inH outwcs i j with
  | none => outimg
  | some (x, y) =>
    let o0 := outimg.write (4 * ((j : Int) * outW + i) + 0) (inimg (4 * (y * inW + x) + 0))
    let o1 := o0.write (4 * ((j : Int) * outW + i) + 1) (inimg (4 * (y * inW + x) + 1))
    let o2 := o1.write (4 * ((j : Int) * outW + i) + 2) (inimg (4 * (y * inW + x) + 2))
    o2.write (4 * ((j : Int) * outW + i) + 3) (inimg (4 * (y * inW + x) + 3))

/-- The function `resample_wcs_rgba`: the return code and the final contents
of `outimg`. -/
def resample_wcs_rgba {α : Type} (inwcs : anwcs_t) (inimg : Buf α)
    (inW inH : Nat) (outwcs : anwcs_t) (outimg : Buf α) (outW outH : Nat) :
    Int × Buf α :=
  let B := 20
  let (bib, BW, BH) := find_overlap_grid B outW outH outwcs inwcs
  (0,
    for_range 0 BH (fun bj outimg =>
      for_range 0 BW (fun bi outimg =>
        if !bib ((bj : Int) * BW + bi) then outimg
        else
          let jlo := min outH (bj * B)
          let jhi := min outH ((bj + 1) * B)
          let ilo := min outW (bi * B)
          let ihi := min outW ((bi + 1) * B)
          for_range jlo jhi (fun j outimg =>
            for_range ilo ihi (fun i outimg =>
              rgba_pixel inwcs inimg inW inH outwcs outW i j outimg) outimg)
            outimg) outimg) outimg)

/-! ## `resample_wcs_files` -/

/-- The call `fits_write_header_and_image(hdr, &qoutimg, 0)`: the fields of
`qoutimg` (file name, number of pixels, pixel buffer) and what the header
`hdr` was built from (the image width passed to `fits_get_header_for_image`,
the mapping passed to `anwcs_add_to_header`, and the `DATAMIN` and `DATAMAX`
cards). -/
structure write_request where
  /-- The field `qoutimg.filename`. -/
  filename : String
  /-- The field `qoutimg.npix`. -/
  npix : Nat
  /-- The field `qoutimg.fbuf`. -/
  fbuf : Buf ℚ
  /-- The width passed to `fits_get_header_for_image`. -/
  width : Nat
  /-- The mapping added to the header. -/
  wcs : anwcs_t
  /-- The header card `DATAMIN`. -/
  datamin : WithTop ℚ
  /-- The header card `DATAMAX`. -/
  datamax : WithBot ℚ

/-- The external services called by `resample_wcs_files`.  `none` stands for a
`NULL` pointer or a non-zero (failure) return code. -/
structure fits_services where
  /-- Mirrors `anwcs_open(filename, ext)`. -/
  anwcs_open : String → Int → Option anwcs_t
  /-- Mirrors `anwcs_imagew(wcs)`. -/
  anwcs_imagew : anwcs_t → Nat
  /-- Mirrors `anwcs_imageh(wcs)`. -/
  anwcs_imageh : anwcs_t → Nat
  /-- Mirrors `qfitsloader_init(&qinimg)` for a file name and extension (first
  plane, read as floats): on success the fields `lx` and `ly`. -/
  qfitsloader_init : String → Int → Option (Nat × Nat)
  /-- Mirrors `qfits_loadpix(&qinimg)`: on success the field `fbuf`. -/
  qfits_loadpix : String → Int → Option (Buf ℚ)
  /-- Mirrors `fits_write_header_and_image(hdr, &qoutimg, 0)`: the return
  code. -/
  fits_write_header_and_image : write_request → Int

/-- The macro `MIN(a, b)` of `sys/param.h` on a `double` bound and a sample. -/
def MIN_bound (a : WithTop ℚ) (b : ℚ) : WithTop ℚ := if a < (b : WithTop ℚ) then a else b

/-- The macro `MAX(a, b)` of `sys/param.h` on a `double` bound and a sample. -/
def MAX_bound (a : WithBot ℚ) (b : ℚ) : WithBot ℚ := if a > (b : WithBot ℚ) then a else b

/-- The part of `resample_wcs_files` after the call of the resampler (lines
101-155), given the pair `r` of the resampler's return code and the contents
of `outimg` after it: the return code of the wrapper and the call of the
output writer, if one was made. -/
def resample_wcs_files_finish (S : fits_services) (outfitsfn : String)
    (outwcs : anwcs_t) (outW outH : Nat) (r : Int × Buf ℚ) :
    Int × Option write_request :=
  if r.1 ≠ 0 then (-1, none)
  else
    let outimg := r.2
    let bounds : WithTop ℚ × WithBot ℚ :=
      for_range 0 (outW * outH) (fun i p =>
        (MIN_bound p.1 (outimg (i : Int)), MAX_bound p.2 (outimg (i : Int)))) (⊤, ⊥)
    let req : write_request :=
      { filename := outfitsfn, npix := outW * outH, fbuf := outimg, width := outW,
        wcs := outwcs, datamin := bounds.1, datamax := bounds.2 }
    if S.fits_write_header_and_image req ≠ 0 then (-1, some req)
    else (0, some req)

/-- The function `resample_wcs_files` with the resampler it calls as a
parameter `resample` (the source calls `resample_wcs`). -/
def resample_wcs_files_with
    (resample : anwcs_t → Buf ℚ → Nat → Nat → anwcs_t → Buf ℚ → Nat → Nat → Int → Int →
      Int × Buf ℚ)
    (S : fits_services) (infitsfn : String) (infitsext : Int)
    (inwcsfn : String) (inwcsext : Int) (outwcsfn : String) (outwcsext : Int)
    (outfitsfn : String) (lorder : Int) : Int × Option write_request :=
  match S.anwcs_open inwcsfn inwcsext with
  | none => (-1, none)
  | some inwcs =>
    match S.anwcs_open outwcsfn outwcsext with
    | none => (-1, none)
    | some outwcs =>
      let outW := S.anwcs_imagew outwcs
      let outH := S.anwcs_imageh outwcs
      match S.qfitsloader_init infitsfn infitsext with
      | none => (-1, none)
      | some (inW, inH) =>
        match S.qfits_loadpix infitsfn infitsext with
        | none => (-1, none)
        | some inimg =>
          let outimg : Buf ℚ := fun _ => 0
          resample_wcs_files_finish S outfitsfn outwcs outW outH
            (resample inwcs inimg inW inH outwcs outimg outW outH 1 lorder)

/-- The function `resample_wcs_files`: the return code and the call of the
output writer, if one was made. -/
def resample_wcs_files
    (lanczos_resample_unw_sep_f : ℚ → ℚ → Buf ℚ → Nat → Nat → Int → ℚ)
    (S : fits_services) (infitsfn : String) (infitsext : Int)
    (inwcsfn : String) (inwcsext : Int) (outwcsfn : String) (outwcsext : Int)
    (outfitsfn : String) (lorder : Int) : Int × Option write_request :=
  resample_wcs_files_with (resample_wcs lanczos_resample_unw_sep_f) S infitsfn infitsext
    inwcsfn inwcsext outwcsfn outwcsext outfitsfn lorder

/-! ## Specification vocabulary -/

/-- The flag that the classification loop of `find_overlap_grid` computes for
block (row `i`, column `j`): the point-in-image test of the source mapping
on the sky position of the representative pixel, or `false` when that pixel
does not convert. -/
def block_flag (B outW outH : Nat) (outwcs inwcs : anwcs_t) (i j : Nat) : Bool :=
  match outwcs.pixelxy2radec
      (((min ((outW : Int) - 1) ((B : Int) * j) + 1 : Int)) : ℚ)
      (((min ((outH : Int) - 1) ((B : Int) * i) + 1 : Int)) : ℚ) with
  | none => false
  | some (ra, dec) => inwcs.radec_is_inside_image ra dec

/-- The value that destination element `outimg[j*outW + i]` holds after the
body of the pixel loop, as a function of the fetch and of the element's
previous value. -/
def fetch_value {α : Type}
    (lanczos_resample_unw_sep_f : ℚ → ℚ → Buf α → Nat → Nat → Int → α)
    (inimg : Buf α) (inW inH : Nat) (lorder : Int) : Fetch → α → α
  | Fetch.skip, old => old
  | Fetch.nearest x y, _ => inimg (y * inW + x)
  | Fetch.lanczos inx iny, _ =>
    lanczos_resample_unw_sep_f inx iny inimg inW inH lorder

/-- Whether block (row `bj`, column `bi`) is a block of the grid returned by
`find_overlap_grid` and is marked true in its mask. -/
def block_marked (outwcs inwcs : anwcs_t) (outW outH : Nat) (bj bi : Nat) : Bool :=
  decide (bj < (find_overlap_grid 20 outW outH outwcs inwcs).2.2 ∧
      bi < (find_overlap_grid 20 outW outH outwcs inwcs).2.1) &&
    (find_overlap_grid 20 outW outH outwcs inwcs).1
      ((bj : Int) * (find_overlap_grid 20 outW outH outwcs inwcs).2.1 + (bi : Int))

/-- Whether the block of destination pixel (`i`, `j`) is processed by
`resample_wcs`: always without the overlap grid, and with it when block (row
`j / 20`, column `i / 20`) is a block of the grid that the mask of
`find_overlap_grid` marks true. -/
def block_survives (outwcs inwcs : anwcs_t) (outW outH : Nat)
    (overlap_grid : Int) (i j : Nat) : Bool :=
  if overlap_grid ≠ 0 then block_marked outwcs inwcs outW outH (j / 20) (i / 20)
  else true

/-- The value that byte `outimg[4*(j*outW + i) + c]` holds after the body of
the pixel loop of `resample_wcs_rgba`, as a function of the fetch and of the
byte's previous value. -/
def rgba_value {α : Type} (inimg : Buf α) (inW : Nat) (c : Int) :
    Option (Int × Int) → α → α
  | none, old => old
  | some (x, y), _ => inimg (4 * (y * inW + x) + c)

/-- The mapping `w` used as source and as destination of a `W x H` raster
sends every pixel to itself: pixel (`i+1`, `j+1`) converts to a direction
that converts back to exactly (`i+1`, `j+1`), and converts to a sky position
that the point-in-image test accepts. -/
def identity_on (w : anwcs_t) (W H : Nat) : Prop :=
  ∀ i j : Nat, i < W → j < H →
    (∃ d, w.pixelxy2xyz (((i : Int) + 1 : Int) : ℚ) (((j : Int) + 1 : Int) : ℚ) = some d ∧
      w.xyz2pixelxy d = some ((((i : Int) + 1 : Int) : ℚ), (((j : Int) + 1 : Int) : ℚ))) ∧
    (∃ ra dec, w.pixelxy2radec (((i : Int) + 1 : Int) : ℚ) (((j : Int) + 1 : Int) : ℚ)
        = some (ra, dec) ∧ w.radec_is_inside_image ra dec = true)

/-- No destination pixel has a sky position inside the source image. -/
def disjoint_from (outwcs inwcs : anwcs_t) (outW outH : Nat) : Prop :=
  ∀ i j : Nat, i < outW → j < outH → ∀ ra dec,
    outwcs.pixelxy2radec (((i : Int) + 1 : Int) : ℚ) (((j : Int) + 1 : Int) : ℚ)
      = some (ra, dec) → inwcs.radec_is_inside_image ra dec = false

/-- The block loops of `resample_wcs` and `resample_wcs_rgba` (lines 250-301
and 330-362) for an arbitrary body `body i j` of the pixel loop. -/
def block_loops {σ : Type} (body : Nat → Nat → σ → σ) (pruned : Nat → Nat → Bool)
    (B BW BH outW outH : Nat) (s : σ) : σ :=
  for_range 0 BH (fun bj t =>
    for_range 0 BW (fun bi t =>
      if pruned bj bi then t
      else
        for_range (min outH (bj * B)) (min outH ((bj + 1) * B)) (fun j t =>
          for_range (min outW (bi * B)) (min outW ((bi + 1) * B)) (fun i t =>
            body i j t) t) t) t) s

/-- A pixel body that counts the visits of pixel (`i0`, `j0`). -/
def count_visit (i0 j0 : Nat) (i j : Nat) (n : Nat) : Nat :=
  if i = i0 ∧ j = j0 then n + 1 else n

/-- The source pixel that a fetch of the float path reads directly, if any. -/
def Fetch.pixel : Fetch → Option (Int × Int)
  | Fetch.nearest x y => some (x, y)
  | _ => none

/-- Where a true cell of the dilation buffer comes from: a true cell of the
undilated mask in the grid, displaced by at most one cell and clamped. -/
def dilation_source (BW BH : Nat) (bib : Buf Bool) (idx : Int) : Prop :=
  ∃ (i j : Nat) (di dj : Int), i < BH ∧ j < BW ∧ bib ((i : Int) * BW + j) = true ∧
    di ∈ ([-1, 0, 1] : List Int) ∧ dj ∈ ([-1, 0, 1] : List Int) ∧
    idx = min (max ((i : Int) + di) 0) ((BH : Int) - 1) * BW
      + min (max ((j : Int) + dj) 0) ((BW : Int) - 1)

/-! ## Concrete mappings used in examples -/

/-- A mapping whose sky is a plane: every conversion succeeds, the one-based
pixel (`px`, `py`) has sky position (`px + dx`, `py + dy`) and direction
(`px + dx`, `py + dy`, 0), and a sky position is inside the image when its
one-based pixel lies in `[1, W] x [1, H]`. -/
def plane_wcs (W H : Nat) (dx dy : ℚ) : anwcs_t where
  pixelxy2xyz := fun px py => some (px + dx, py + dy, 0)
  xyz2pixelxy := fun d => some (d.1 - dx, d.2.1 - dy)
  pixelxy2radec := fun px py => some (px + dx, py + dy)
  radec_is_inside_image := fun ra dec =>
    decide (1 ≤ ra - dx ∧ ra - dx ≤ (W : ℚ) ∧ 1 ≤ dec - dy ∧ dec - dy ≤ (H : ℚ))

/-- A stand-in for the interpolation routine in examples: the constant 99. -/
def lanczos_stub : ℚ → ℚ → Buf Nat → Nat → Nat → Int → Nat :=
  fun _ _ _ _ _ _ => 99

/-- File services for examples: every mapping file holds the plane mapping of
a 2 x 2 raster, every raster file holds a 2 x 2 raster whose sample at offset
`n` is `n + 10`, and writing succeeds. -/
def plane_services : fits_services where
  anwcs_open := fun _ _ => some (plane_wcs 2 2 0 0)
  anwcs_imagew := fun _ => 2
  anwcs_imageh := fun _ => 2
  qfitsloader_init := fun _ _ => some (2, 2)
  qfits_loadpix := fun _ _ => some (fun n => (n : ℚ) + 10)
  fits_write_header_and_image := fun _ => 0

/-- File services for examples in which only the mapping file `in.wcs` can be
opened. -/
def no_out_services : fits_services where
  anwcs_open := fun fn _ => if fn = "in.wcs" then some (plane_wcs 2 2 0 0) else none
  anwcs_imagew := fun _ => 2
  anwcs_imageh := fun _ => 2
  qfitsloader_init := fun _ _ => some (2, 2)
  qfits_loadpix := fun _ _ => some (fun n => (n : ℚ) + 10)
  fits_write_header_and_image := fun _ => 0

/-- A stand-in for the interpolation routine on rational samples: the
constant 99. -/
def lanczos_stub_q : ℚ → ℚ → Buf ℚ → Nat → Nat → Int → ℚ :=
  fun _ _ _ _ _ _ => 99

/-! ## Loops -/

section Loops

variable {σ β : Type}

theorem for_steps_inv (Inv : σ → Prop) (body : Nat → σ → σ) :
    ∀ (n k : Nat) (s : σ), Inv s →
      (∀ m, k ≤ m → m < k + n → ∀ t, Inv t → Inv (body m t)) →
      Inv (for_steps body n k s) := by
  intro n
  induction n with
  | zero => intro k s hs _; exact hs
  | succ n ih =>
    intro k s hs hstep
    refine ih (k + 1) (body k s) (hstep k (Nat.le_refl k) (by omega) s hs) ?_
    intro m hm1 hm2 t ht
    exact hstep m (by omega) (by omega) t ht

theorem for_range_inv (Inv : σ → Prop) (body : Nat → σ → σ) (lo hi : Nat)
    (s : σ) (hs : Inv s)
    (hstep : ∀ m, lo ≤ m → m < hi → ∀ t, Inv t → Inv (body m t)) :
    Inv (for_range lo hi body s) := by
  unfold for_range
  refine for_steps_inv Inv body (hi - lo) lo s hs ?_
  intro m hm1 hm2 t ht
  exact hstep m hm1 (by omega) t ht

/-- A loop none of whose iterations changes the observation `obs` leaves it
unchanged. -/
theorem for_range_frame (obs : σ → β) (body : Nat → σ → σ) (lo hi : Nat)
    (s : σ) (h : ∀ m, lo ≤ m → m < hi → ∀ t, obs (body m t) = obs t) :
    obs (for_range lo hi body s) = obs s := by
  refine for_range_inv (fun t => obs t = obs s) body lo hi s rfl ?_
  intro m hm1 hm2 t ht
  rw [h m hm1 hm2 t, ht]

theorem for_steps_hit (obs : σ → β) (f : β → β) (body : Nat → σ → σ) (k0 : Nat) :
    ∀ (n k : Nat) (s : σ), k ≤ k0 → k0 < k + n →
      (∀ m, k ≤ m → m < k + n → m ≠ k0 → ∀ t, obs (body m t) = obs t) →
      (∀ t, obs (body k0 t) = f (obs t)) →
      obs (for_steps body n k s) = f (obs s) := by
  intro n
  induction n with
  | zero => intro k s h1 h2; omega
  | succ n ih =>
    intro k s h1 h2 hothers hhit
    by_cases hk : k = k0
    · subst hk
      show obs (for_steps body n (k + 1) (body k s)) = f (obs s)
      have hfr : obs (for_steps body n (k + 1) (body k s)) = obs (body k s) := by
        refine for_steps_inv (fun t => obs t = obs (body k s)) body n (k + 1) _ rfl ?_
        intro m hm1 hm2 t ht
        rw [hothers m (by omega) (by omega) (by omega) t, ht]
      rw [hfr, hhit]
    · show obs (for_steps body n (k + 1) (body k s)) = f (obs s)
      rw [ih (k + 1) (body k s) (by omega) (by omega)
        (fun m hm1 hm2 hm3 t => hothers m (by omega) (by omega) hm3 t) hhit]
      rw [hothers k (Nat.le_refl k) (by omega) hk s]

/-- A loop in which only iteration `k0` changes the observation `obs`, and
changes it to `f` of its previous value, has that effect as a whole. -/
theorem for_range_hit (obs : σ → β) (f : β → β) (body : Nat → σ → σ)
    (lo hi k0 : Nat) (s : σ) (h1 : lo ≤ k0) (h2 : k0 < hi)
    (hothers : ∀ m, lo ≤ m → m < hi → m ≠ k0 → ∀ t, obs (body m t) = obs t)
    (hhit : ∀ t, obs (body k0 t) = f (obs t)) :
    obs (for_range lo hi body s) = f (obs s) := by
  unfold for_range
  exact for_steps_hit obs f body k0 (hi - lo) lo s h1 (by omega)
    (fun m hm1 hm2 hm3 t => hothers m hm1 (by omega) hm3 t) hhit

/-- Two nested loops over a grid in which only cell (`i0`, `j0`) changes the
observation. -/
theorem grid_hit (obs : σ → β) (f : β → β) (body : Nat → Nat → σ → σ)
    (ilo ihi jlo jhi i0 j0 : Nat) (s : σ)
    (hi1 : ilo ≤ i0) (hi2 : i0 < ihi) (hj1 : jlo ≤ j0) (hj2 : j0 < jhi)
    (hothers : ∀ i j, ilo ≤ i → i < ihi → jlo ≤ j → j < jhi → ¬ (i = i0 ∧ j = j0) →
      ∀ t, obs (body i j t) = obs t)
    (hhit : ∀ t, obs (body i0 j0 t) = f (obs t)) :
    obs (for_range ilo ihi (fun i t => for_range jlo jhi (fun j t => body i j t) t) s)
      = f (obs s) := by
  refine for_range_hit obs f _ ilo ihi i0 s hi1 hi2 ?_ ?_
  · intro i hi1 hi2 hne t
    refine for_range_frame obs _ jlo jhi t ?_
    intro j hj1 hj2 u
    exact hothers i j hi1 hi2 hj1 hj2 (fun h => hne h.1) u
  · intro t
    refine for_range_hit obs f _ jlo jhi j0 t hj1 hj2 ?_ hhit
    intro j hj1 hj2 hne u
    exact hothers i0 j hi1 hi2 hj1 hj2 (fun h => hne h.2) u

/-- Two nested loops over a grid none of whose cells changes the
observation. -/
theorem grid_frame (obs : σ → β) (body : Nat → Nat → σ → σ)
    (ilo ihi jlo jhi : Nat) (s : σ)
    (h : ∀ i j, ilo ≤ i → i < ihi → jlo ≤ j → j < jhi → ∀ t, obs (body i j t) = obs t) :
    obs (for_range ilo ihi (fun i t => for_range jlo jhi (fun j t => body i j t) t) s)
      = obs s := by
  refine for_range_frame obs _ ilo ihi s ?_
  intro i hi1 hi2 t
  refine for_range_frame obs _ jlo jhi t ?_
  intro j hj1 hj2 u
  exact h i j hi1 hi2 hj1 hj2 u

theorem for_steps_establish (Q : σ → Prop) (body : Nat → σ → σ) (k0 : Nat) :
    ∀ (n k : Nat) (s : σ), k ≤ k0 → k0 < k + n →
      (∀ m t, Q t → Q (body m t)) → (∀ t, Q (body k0 t)) →
      Q (for_steps body n k s) := by
  intro n
  induction n with
  | zero => intro k s h1 h2; omega
  | succ n ih =>
    intro k s h1 h2 hmono hhit
    by_cases hk : k = k0
    · subst hk
      exact for_steps_inv Q body n (k + 1) (body k s) (hhit s)
        (fun m _ _ t ht => hmono m t ht)
    · exact ih (k + 1) (body k s) (by omega) (by omega) hmono hhit

/-- A loop whose iteration `k0` establishes `Q` and whose iterations all
preserve `Q` ends in a state satisfying `Q`. -/
theorem for_range_establish (Q : σ → Prop) (body : Nat → σ → σ)
    (lo hi k0 : Nat) (s : σ) (h1 : lo ≤ k0) (h2 : k0 < hi)
    (hmono : ∀ m t, Q t → Q (body m t)) (hhit : ∀ t, Q (body k0 t)) :
    Q (for_range lo hi body s) := by
  unfold for_range
  exact for_steps_establish Q body k0 (hi - lo) lo s h1 (by omega) hmono hhit

theorem foldl_preserve {γ : Type} (Q : σ → Prop) (step : σ → γ → σ) :
    ∀ (l : List γ) (s : σ), Q s → (∀ t x, Q t → Q (step t x)) →
      Q (l.foldl step s) := by
  intro l
  induction l with
  | nil => intro s hs _; exact hs
  | cons a l ih => intro s hs hmono; exact ih (step s a) (hmono s a hs) hmono

theorem foldl_establish {γ : Type} (Q : σ → Prop) (step : σ → γ → σ) (x0 : γ) :
    ∀ (l : List γ) (s : σ), x0 ∈ l → (∀ t x, Q t → Q (step t x)) →
      (∀ t, Q (step t x0)) → Q (l.foldl step s) := by
  intro l
  induction l with
  | nil => intro s hx; cases hx
  | cons a l ih =>
    intro s hx hmono hhit
    rcases List.mem_cons.1 hx with rfl | hmem
    · exact foldl_preserve Q step l (step s x0) (hhit s) hmono
    · exact ih (step s a) hmem hmono hhit

end Loops

/-! ## The block loops -/

section Blocks

variable {σ β : Type}

theorem block_index (B n k x : Nat) (hx : x < n) (h1 : min n (k * B) ≤ x)
    (h2 : x < min n ((k + 1) * B)) : x / B = k := by
  have h3 : k * B ≤ x := by
    rcases Nat.le_total n (k * B) with h | h
    · rw [Nat.min_eq_left h] at h1; omega
    · rw [Nat.min_eq_right h] at h1; exact h1
  have h4 : x < (k + 1) * B := lt_of_lt_of_le h2 (Nat.min_le_right _ _)
  exact Nat.div_eq_of_lt_le h3 h4

theorem block_contains (B n x : Nat) (hB : 0 < B) (hx : x < n) :
    min n (x / B * B) ≤ x ∧ x < min n ((x / B + 1) * B) := by
  constructor
  · exact le_trans (Nat.min_le_right _ _) (Nat.div_mul_le_self x B)
  · refine lt_min hx ?_
    have := Nat.lt_mul_div_succ x hB
    rw [Nat.mul_comm] at this
    exact this

theorem block_lt (B n N x : Nat) (hx : x < n) (hN : n ≤ N * B) :
    x / B < N := by
  apply Nat.div_lt_of_lt_mul
  rw [Nat.mul_comm]
  omega

/-- The block loops of the resamplers, for an arbitrary pixel body: when
only pixel (`i0`, `j0`) changes the observation and the block of the pixel is
a block of the grid, the loops apply that change exactly when the block is
not pruned. -/
theorem blocks_hit_in (obs : σ → β) (f : β → β) (body : Nat → Nat → σ → σ)
    (pruned : Nat → Nat → Bool) (B BW BH outW outH i0 j0 : Nat) (s : σ)
    (hB : 0 < B) (hi : i0 < outW) (hj : j0 < outH)
    (hbi : i0 / B < BW) (hbj : j0 / B < BH)
    (hothers : ∀ i j, i < outW → j < outH → ¬ (i = i0 ∧ j = j0) →
      ∀ t, obs (body i j t) = obs t)
    (hhit : ∀ t, obs (body i0 j0 t) = f (obs t)) :
    obs (for_range 0 BH (fun bj t =>
      for_range 0 BW (fun bi t =>
        if pruned bj bi then t
        else
          for_range (min outH (bj * B)) (min outH ((bj + 1) * B)) (fun j t =>
            for_range (min outW (bi * B)) (min outW ((bi + 1) * B)) (fun i t =>
              body i j t) t) t) t) s)
      = if pruned (j0 / B) (i0 / B) then obs s else f (obs s) := by
  have hcj := block_contains B outH j0 hB hj
  have hci := block_contains B outW i0 hB hi
  refine grid_hit obs (fun b => if pruned (j0 / B) (i0 / B) then b else f b)
    (fun bj bi t =>
      if pruned bj bi then t
      else
        for_range (min outH (bj * B)) (min outH ((bj + 1) * B)) (fun j t =>
          for_range (min outW (bi * B)) (min outW ((bi + 1) * B)) (fun i t =>
            body i j t) t) t)
    0 BH 0 BW (j0 / B) (i0 / B) s (Nat.zero_le _) hbj (Nat.zero_le _) hbi ?_ ?_
  · intro bj bi _ _ _ _ hne t
    show obs (if pruned bj bi then t else _) = obs t
    split
    · rfl
    · refine grid_frame obs (fun j i t => body i j t) _ _ _ _ t ?_
      intro j i hj1 hj2 hi1 hi2 u
      have hjlt : j < outH := lt_of_lt_of_le hj2 (Nat.min_le_left _ _)
      have hilt : i < outW := lt_of_lt_of_le hi2 (Nat.min_le_left _ _)
      refine hothers i j hilt hjlt ?_ u
      rintro ⟨rfl, rfl⟩
      exact hne ⟨(block_index B outH bj j hjlt hj1 hj2).symm,
        (block_index B outW bi i hilt hi1 hi2).symm⟩
  · intro t
    show obs (if pruned (j0 / B) (i0 / B) then t else _) = _
    split
    · rfl
    · exact grid_hit obs f (fun j i t => body i j t) _ _ _ _ j0 i0 t hcj.1 hcj.2
        hci.1 hci.2 (fun j i hj1 hj2 hi1 hi2 hne u =>
          hothers i j (lt_of_lt_of_le hi2 (Nat.min_le_left _ _))
            (lt_of_lt_of_le hj2 (Nat.min_le_left _ _)) (fun h => hne ⟨h.2, h.1⟩) u)
        hhit

/-- The block loops when the grid covers the raster. -/
theorem blocks_hit (obs : σ → β) (f : β → β) (body : Nat → Nat → σ → σ)
    (pruned : Nat → Nat → Bool) (B BW BH outW outH i0 j0 : Nat) (s : σ)
    (hB : 0 < B) (hi : i0 < outW) (hj : j0 < outH)
    (hBW : outW ≤ BW * B) (hBH : outH ≤ BH * B)
    (hothers : ∀ i j, i < outW → j < outH → ¬ (i = i0 ∧ j = j0) →
      ∀ t, obs (body i j t) = obs t)
    (hhit : ∀ t, obs (body i0 j0 t) = f (obs t)) :
    obs (for_range 0 BH (fun bj t =>
      for_range 0 BW (fun bi t =>
        if pruned bj bi then t
        else
          for_range (min outH (bj * B)) (min outH ((bj + 1) * B)) (fun j t =>
            for_range (min outW (bi * B)) (min outW ((bi + 1) * B)) (fun i t =>
              body i j t) t) t) t) s)
      = if pruned (j0 / B) (i0 / B) then obs s else f (obs s) :=
  blocks_hit_in obs f body pruned B BW BH outW outH i0 j0 s hB hi hj
    (block_lt B outW BW i0 hi hBW) (block_lt B outH BH j0 hj hBH) hothers hhit

/-- The block loops do not touch a pixel whose block is not a block of the
grid. -/
theorem blocks_miss (obs : σ → β) (body : Nat → Nat → σ → σ)
    (pruned : Nat → Nat → Bool) (B BW BH outW outH i0 j0 : Nat) (s : σ)
    (hi : i0 < outW) (hj : j0 < outH)
    (hout : ¬ (j0 / B < BH ∧ i0 / B < BW))
    (hothers : ∀ i j, i < outW → j < outH → ¬ (i = i0 ∧ j = j0) →
      ∀ t, obs (body i j t) = obs t) :
    obs (for_range 0 BH (fun bj t =>
      for_range 0 BW (fun bi t =>
        if pruned bj bi then t
        else
          for_range (min outH (bj * B)) (min outH ((bj + 1) * B)) (fun j t =>
            for_range (min outW (bi * B)) (min outW ((bi + 1) * B)) (fun i t =>
              body i j t) t) t) t) s)
      = obs s := by
  refine grid_frame obs
    (fun bj bi t =>
      if pruned bj bi then t
      else
        for_range (min outH (bj * B)) (min outH ((bj + 1) * B)) (fun j t =>
          for_range (min outW (bi * B)) (min outW ((bi + 1) * B)) (fun i t =>
            body i j t) t) t) 0 BH 0 BW s ?_
  intro bj bi _ hbj _ hbi t
  show obs (if pruned bj bi then t else _) = obs t
  split
  · rfl
  · refine grid_frame obs (fun j i t => body i j t) _ _ _ _ t ?_
    intro j i hj1 hj2 hi1 hi2 u
    have hjlt : j < outH := lt_of_lt_of_le hj2 (Nat.min_le_left _ _)
    have hilt : i < outW := lt_of_lt_of_le hi2 (Nat.min_le_left _ _)
    refine hothers i j hilt hjlt ?_ u
    rintro ⟨rfl, rfl⟩
    apply hout
    rw [block_index B outH bj j hjlt hj1 hj2, block_index B outW bi i hilt hi1 hi2]
    exact ⟨hbj, hbi⟩

/-- The block loops, in general: the change of pixel (`i0`, `j0`) is applied
exactly when the block of the pixel is a block of the grid and is not
pruned. -/
theorem blocks_at (obs : σ → β) (f : β → β) (body : Nat → Nat → σ → σ)
    (pruned : Nat → Nat → Bool) (B BW BH outW outH i0 j0 : Nat) (s : σ)
    (hB : 0 < B) (hi : i0 < outW) (hj : j0 < outH)
    (hothers : ∀ i j, i < outW → j < outH → ¬ (i = i0 ∧ j = j0) →
      ∀ t, obs (body i j t) = obs t)
    (hhit : ∀ t, obs (body i0 j0 t) = f (obs t)) :
    obs (for_range 0 BH (fun bj t =>
      for_range 0 BW (fun bi t =>
        if pruned bj bi then t
        else
          for_range (min outH (bj * B)) (min outH ((bj + 1) * B)) (fun j t =>
            for_range (min outW (bi * B)) (min outW ((bi + 1) * B)) (fun i t =>
              body i j t) t) t) t) s)
      = if (j0 / B < BH ∧ i0 / B < BW) ∧ pruned (j0 / B) (i0 / B) = false then f (obs s)
        else obs s := by
  by_cases hin : j0 / B < BH ∧ i0 / B < BW
  · rw [blocks_hit_in obs f body pruned B BW BH outW outH i0 j0 s hB hi hj hin.2 hin.1
      hothers hhit]
    cases pruned (j0 / B) (i0 / B) <;> simp [hin]
  · rw [blocks_miss obs body pruned B BW BH outW outH i0 j0 s hi hj hin hothers]
    rw [if_neg (fun h => hin h.1)]

/-- The block loops leave unchanged every observation that no pixel body
changes. -/
theorem blocks_frame (obs : σ → β) (body : Nat → Nat → σ → σ)
    (pruned : Nat → Nat → Bool) (B BW BH outW outH : Nat) (s : σ)
    (h : ∀ i j, i < outW → j < outH → ∀ t, obs (body i j t) = obs t) :
    obs (for_range 0 BH (fun bj t =>
      for_range 0 BW (fun bi t =>
        if pruned bj bi then t
        else
          for_range (min outH (bj * B)) (min outH ((bj + 1) * B)) (fun j t =>
            for_range (min outW (bi * B)) (min outW ((bi + 1) * B)) (fun i t =>
              body i j t) t) t) t) s)
      = obs s := by
  refine grid_frame obs
    (fun bj bi t =>
      if pruned bj bi then t
      else
        for_range (min outH (bj * B)) (min outH ((bj + 1) * B)) (fun j t =>
          for_range (min outW (bi * B)) (min outW ((bi + 1) * B)) (fun i t =>
            body i j t) t) t) 0 BH 0 BW s ?_
  intro bj bi _ _ _ _ t
  show obs (if pruned bj bi then t else _) = obs t
  split
  · rfl
  · refine grid_frame obs (fun j i t => body i j t) _ _ _ _ t ?_
    intro j i _ hj2 _ hi2 u
    exact h i j (lt_of_lt_of_le hi2 (Nat.min_le_left _ _))
      (lt_of_lt_of_le hj2 (Nat.min_le_left _ _)) u

/-- The block loops when every block is pruned do nothing. -/
theorem blocks_all_pruned (body : Nat → Nat → σ → σ)
    (pruned : Nat → Nat → Bool) (B BW BH outW outH : Nat) (s : σ)
    (h : ∀ bj bi, bj < BH → bi < BW → pruned bj bi = true) :
    for_range 0 BH (fun bj t =>
      for_range 0 BW (fun bi t =>
        if pruned bj bi then t
        else
          for_range (min outH (bj * B)) (min outH ((bj + 1) * B)) (fun j t =>
            for_range (min outW (bi * B)) (min outW ((bi + 1) * B)) (fun i t =>
              body i j t) t) t) t) s
      = s := by
  refine grid_frame id
    (fun bj bi t =>
      if pruned bj bi then t
      else
        for_range (min outH (bj * B)) (min outH ((bj + 1) * B)) (fun j t =>
          for_range (min outW (bi * B)) (min outW ((bi + 1) * B)) (fun i t =>
            body i j t) t) t) 0 BH 0 BW s ?_
  intro bj bi _ hbj _ hbi t
  show (if pruned bj bi then t else _) = t
  rw [if_pos (h bj bi hbj hbi)]

end Blocks

/-! ## Rounding and indices -/

theorem c_round_intCast (n : Int) : c_round (n : ℚ) = n := by
  unfold c_round
  split
  · rw [Int.floor_eq_iff]
    constructor <;> norm_num
  · have h : ⌊-(n : ℚ) + 1 / 2⌋ = -n := by
      rw [Int.floor_eq_iff]
      constructor <;> push_cast <;> norm_num
    rw [h]; simp

theorem pixel_index_inj (W i j i' j' : Nat) (hi : i < W) (hi' : i' < W)
    (h : (j : Int) * W + i = (j' : Int) * W + i') : i = i' ∧ j = j' := by
  have h' : j * W + i = j' * W + i' := by exact_mod_cast h
  rcases Nat.lt_trichotomy j j' with hlt | heq | hgt
  · have h1 : (j + 1) * W ≤ j' * W := Nat.mul_le_mul_right W hlt
    rw [Nat.add_mul] at h1
    omega
  · subst heq
    omega
  · have h1 : (j' + 1) * W ≤ j * W := Nat.mul_le_mul_right W hgt
    rw [Nat.add_mul] at h1
    omega

theorem pixel_index_lt (W H i j : Nat) (hi : i < W) (hj : j < H) :
    0 ≤ (j : Int) * W + i ∧ (j : Int) * W + i < (W : Int) * H := by
  constructor
  · positivity
  · have h1 : (j + 1) * W ≤ H * W := Nat.mul_le_mul_right W hj
    have h2 : j * W + i < W * H := by
      rw [Nat.add_mul, Nat.mul_comm H W] at h1
      omega
    exact_mod_cast h2

/-! ## The pixel body of `resample_wcs` -/

section Pixel

variable {α : Type} (L : ℚ → ℚ → Buf α → Nat → Nat → Int → α)
  (inwcs : anwcs_t) (inimg : Buf α) (inW inH : Nat) (outwcs : anwcs_t)
  (outW outH : Nat) (lorder : Int)

theorem resample_pixel_frame (i j : Nat) (t : Buf α) (idx : Int)
    (h : idx ≠ (j : Int) * outW + i) :
    resample_pixel L inwcs inimg inW inH outwcs outW lorder i j t idx = t idx := by
  unfold resample_pixel
  generalize resample_fetch inwcs inW inH outwcs lorder i j = fe
  cases fe <;> simp [Buf.write, h]

theorem resample_pixel_hit (i j : Nat) (t : Buf α) :
    resample_pixel L inwcs inimg inW inH outwcs outW lorder i j t ((j : Int) * outW + i)
      = fetch_value L inimg inW inH lorder
          (resample_fetch inwcs inW inH outwcs lorder i j) (t ((j : Int) * outW + i)) := by
  unfold resample_pixel
  generalize resample_fetch inwcs inW inH outwcs lorder i j = fe
  cases fe <;> simp [Buf.write, fetch_value]

/-- The final value of every element of the destination raster. -/
theorem resample_wcs_at (outimg : Buf α) (overlap_grid : Int) (i j : Nat)
    (hi : i < outW) (hj : j < outH) :
    (resample_wcs L inwcs inimg inW inH outwcs outimg outW outH overlap_grid lorder).2
        ((j : Int) * outW + i)
      = if block_survives outwcs inwcs outW outH overlap_grid i j then
          fetch_value L inimg inW inH lorder
            (resample_fetch inwcs inW inH outwcs lorder i j) (outimg ((j : Int) * outW + i))
        else outimg ((j : Int) * outW + i) := by
  have hothers : ∀ i' j', i' < outW → j' < outH → ¬ (i' = i ∧ j' = j) → ∀ t : Buf α,
      resample_pixel L inwcs inimg inW inH outwcs outW lorder i' j' t ((j : Int) * outW + i)
        = t ((j : Int) * outW + i) := by
    intro i' j' hi' _ hne t
    apply resample_pixel_frame
    intro heq
    have := pixel_index_inj outW i j i' j' hi hi' heq
    exact hne ⟨this.1.symm, this.2.symm⟩
  unfold resample_wcs block_survives
  by_cases hog : overlap_grid ≠ 0
  · rw [if_pos hog, if_pos hog]
    refine (blocks_at (fun (b : Buf α) => b ((j : Int) * outW + i))
      (fetch_value L inimg inW inH lorder (resample_fetch inwcs inW inH outwcs lorder i j))
      (fun i j t => resample_pixel L inwcs inimg inW inH outwcs outW lorder i j t)
      (fun bj bi => !(find_overlap_grid 20 outW outH outwcs inwcs).1
        ((bj : Int) * (find_overlap_grid 20 outW outH outwcs inwcs).2.1 + bi))
      20 (find_overlap_grid 20 outW outH outwcs inwcs).2.1
      (find_overlap_grid 20 outW outH outwcs inwcs).2.2 outW outH i j outimg (by decide) hi hj
      hothers (resample_pixel_hit L inwcs inimg inW inH outwcs outW lorder i j)).trans ?_
    unfold block_marked
    by_cases hin : j / 20 < (find_overlap_grid 20 outW outH outwcs inwcs).2.2 ∧
        i / 20 < (find_overlap_grid 20 outW outH outwcs inwcs).2.1
    · cases hm : (find_overlap_grid 20 outW outH outwcs inwcs).1
        (((j / 20 : Nat) : Int) * (find_overlap_grid 20 outW outH outwcs inwcs).2.1
          + ((i / 20 : Nat) : Int)) <;> simp [hin, hm]
    · simp [hin]
  · rw [if_neg hog, if_neg hog]
    refine (blocks_hit (fun (b : Buf α) => b ((j : Int) * outW + i))
      (fetch_value L inimg inW inH lorder (resample_fetch inwcs inW inH outwcs lorder i j))
      (fun i j t => resample_pixel L inwcs inimg inW inH outwcs outW lorder i j t)
      (fun _ _ => false)
      1 outW outH outW outH i j outimg (by decide) hi hj
      (by omega) (by omega) hothers
      (resample_pixel_hit L inwcs inimg inW inH outwcs outW lorder i j)).trans ?_
    simp

/-- Elements that are not a destination pixel keep their value. -/
theorem resample_wcs_outside (outimg : Buf α) (overlap_grid : Int) (idx : Int)
    (h : ∀ i j, i < outW → j < outH → idx ≠ (j : Int) * outW + i) :
    (resample_wcs L inwcs inimg inW inH outwcs outimg outW outH overlap_grid lorder).2 idx
      = outimg idx := by
  have hfr : ∀ i j, i < outW → j < outH → ∀ t : Buf α,
      resample_pixel L inwcs inimg inW inH outwcs outW lorder i j t idx = t idx :=
    fun i j hi hj t => resample_pixel_frame L inwcs inimg inW inH outwcs outW lorder i j t idx
      (h i j hi hj)
  unfold resample_wcs
  by_cases hog : overlap_grid ≠ 0
  · rw [if_pos hog]
    exact blocks_frame (fun (b : Buf α) => b idx)
      (fun i j t => resample_pixel L inwcs inimg inW inH outwcs outW lorder i j t)
      _ 20 _ _ outW outH outimg hfr
  · rw [if_neg hog]
    exact blocks_frame (fun (b : Buf α) => b idx)
      (fun i j t => resample_pixel L inwcs inimg inW inH outwcs outW lorder i j t)
      _ 1 _ _ outW outH outimg hfr

end Pixel

/-! ## The overlap mask -/

section Mask

variable (B outW outH : Nat) (outwcs inwcs : anwcs_t) (BW BH : Nat)

theorem classify_block_frame (i j : Nat) (t : Buf Bool) (idx : Int)
    (h : idx ≠ (i : Int) * BW + j) :
    classify_block B outW outH outwcs inwcs BW i j t idx = t idx := by
  unfold classify_block
  generalize outwcs.pixelxy2radec _ _ = r
  rcases r with _ | ⟨ra, dec⟩
  · rfl
  · simp [Buf.write, h]

theorem classify_block_hit (i j : Nat) (t : Buf Bool) :
    classify_block B outW outH outwcs inwcs BW i j t ((i : Int) * BW + j)
      = match outwcs.pixelxy2radec
            (((min ((outW : Int) - 1) ((B : Int) * j) + 1 : Int)) : ℚ)
            (((min ((outH : Int) - 1) ((B : Int) * i) + 1 : Int)) : ℚ) with
        | none => t ((i : Int) * BW + j)
        | some (ra, dec) => inwcs.radec_is_inside_image ra dec := by
  unfold classify_block
  generalize outwcs.pixelxy2radec _ _ = r
  rcases r with _ | ⟨ra, dec⟩
  · rfl
  · simp [Buf.write]

/-- The flag of every block of the grid before dilation. -/
theorem overlap_undilated_at (i j : Nat) (hi : i < BH) (hj : j < BW) :
    overlap_undilated B outW outH outwcs inwcs BW BH ((i : Int) * BW + j)
      = block_flag B outW outH outwcs inwcs i j := by
  unfold overlap_undilated
  refine (grid_hit (fun (b : Buf Bool) => b ((i : Int) * BW + j))
    (fun old => match outwcs.pixelxy2radec
            (((min ((outW : Int) - 1) ((B : Int) * j) + 1 : Int)) : ℚ)
            (((min ((outH : Int) - 1) ((B : Int) * i) + 1 : Int)) : ℚ) with
        | none => old
        | some (ra, dec) => inwcs.radec_is_inside_image ra dec)
    (fun i j t => classify_block B outW outH outwcs inwcs BW i j t)
    0 BH 0 BW i j calloc_bool (Nat.zero_le _) hi (Nat.zero_le _) hj ?_
    (classify_block_hit B outW outH outwcs inwcs BW i j)).trans ?_
  · intro i' j' _ _ _ hj' hne t
    apply classify_block_frame
    intro heq
    have := pixel_index_inj BW j i j' i' hj hj' heq
    exact hne ⟨this.2.symm, this.1.symm⟩
  · simp only [block_flag, calloc_bool]

theorem write_true_mono (t : Buf Bool) (k idx : Int) (h : t idx = true) :
    t.write k true idx = true := by
  unfold Buf.write
  split
  · rfl
  · exact h

theorem dilate_cell_mono (bib : Buf Bool) (i j : Nat) (t : Buf Bool) (idx : Int)
    (h : t idx = true) : dilate_cell BW BH bib i j t idx = true := by
  unfold dilate_cell
  split
  · exact h
  · refine foldl_preserve (fun (b : Buf Bool) => b idx = true) _ _ t h ?_
    intro t1 di h1
    refine foldl_preserve (fun (b : Buf Bool) => b idx = true) _ _ t1 h1 ?_
    intro t2 dj h2
    exact write_true_mono t2 _ idx h2

theorem dilate_cell_skip (bib : Buf Bool) (i j : Nat) (t : Buf Bool)
    (h : bib ((i : Int) * BW + j) = false) : dilate_cell BW BH bib i j t = t := by
  unfold dilate_cell
  simp [h]

theorem dilate_cell_hit (bib : Buf Bool) (i j : Nat) (t : Buf Bool)
    (h : bib ((i : Int) * BW + j) = true) (di dj : Int)
    (hdi : di ∈ ([-1, 0, 1] : List Int)) (hdj : dj ∈ ([-1, 0, 1] : List Int)) :
    dilate_cell BW BH bib i j t
      (min (max ((i : Int) + di) 0) ((BH : Int) - 1) * BW
        + min (max ((j : Int) + dj) 0) ((BW : Int) - 1)) = true := by
  unfold dilate_cell
  rw [h]
  simp only [Bool.not_true, Bool.false_eq_true, if_false]
  refine foldl_establish (fun (b : Buf Bool) => b _ = true) _ di _ t hdi ?_ ?_
  · intro t1 di1 h1
    refine foldl_preserve (fun (b : Buf Bool) => b _ = true) _ _ t1 h1 ?_
    intro t2 dj2 h2
    exact write_true_mono t2 _ _ h2
  · intro t1
    refine foldl_establish (fun (b : Buf Bool) => b _ = true) _ dj _ t1 hdj ?_ ?_
    · intro t2 dj2 h2
      exact write_true_mono t2 _ _ h2
    · intro t2
      simp [Buf.write]

/-- Dilation marks a true cell of the grid and every cell of the grid next
to it. -/
theorem dilate_neighbour (bib : Buf Bool) (i j i' j' : Nat)
    (hi : i < BH) (hj : j < BW) (hi' : i' < BH) (hj' : j' < BW)
    (hdi : i ≤ i' + 1 ∧ i' ≤ i + 1) (hdj : j ≤ j' + 1 ∧ j' ≤ j + 1)
    (h : bib ((i : Int) * BW + j) = true) :
    dilate BW BH bib ((i' : Int) * BW + j') = true := by
  unfold dilate
  refine for_range_establish (fun (b : Buf Bool) => b ((i' : Int) * BW + j') = true)
    _ 0 BH i calloc_bool (Nat.zero_le _) hi ?_ ?_
  · intro m t ht
    refine for_range_inv (fun (b : Buf Bool) => b ((i' : Int) * BW + j') = true)
      _ 0 BW t ht ?_
    intro m2 _ _ t2 ht2
    exact dilate_cell_mono BW BH bib m m2 t2 _ ht2
  · intro t
    refine for_range_establish (fun (b : Buf Bool) => b ((i' : Int) * BW + j') = true)
      _ 0 BW j t (Nat.zero_le _) hj ?_ ?_
    · intro m2 t2 ht2
      exact dilate_cell_mono BW BH bib i m2 t2 _ ht2
    · intro t2
      have key := dilate_cell_hit BW BH bib i j t2 h ((i' : Int) - i) ((j' : Int) - j)
        (by
          have : (i' : Int) - i = -1 ∨ (i' : Int) - i = 0 ∨ (i' : Int) - i = 1 := by omega
          rcases this with e | e | e <;> rw [e] <;> simp)
        (by
          have : (j' : Int) - j = -1 ∨ (j' : Int) - j = 0 ∨ (j' : Int) - j = 1 := by omega
          rcases this with e | e | e <;> rw [e] <;> simp)
      have e1 : min (max ((i : Int) + ((i' : Int) - i)) 0) ((BH : Int) - 1) = i' := by omega
      have e2 : min (max ((j : Int) + ((j' : Int) - j)) 0) ((BW : Int) - 1) = j' := by omega
      rw [e1, e2] at key
      exact key

/-- Dilation of a mask with no true cell in the grid marks nothing. -/
theorem dilate_none (bib : Buf Bool)
    (h : ∀ i j, i < BH → j < BW → bib ((i : Int) * BW + j) = false) :
    dilate BW BH bib = calloc_bool := by
  unfold dilate
  refine grid_frame id (fun i j t => dilate_cell BW BH bib i j t) 0 BH 0 BW calloc_bool ?_
  intro i j _ hi _ hj t
  exact dilate_cell_skip BW BH bib i j t (h i j hi hj)

end Mask

/-! ## Floating-point rounding -/

theorem ilog2_steps_spec : ∀ (fuel n : Nat), 1 ≤ n → n ≤ fuel →
    2 ^ ilog2_steps fuel n ≤ n ∧ n < 2 ^ (ilog2_steps fuel n + 1) := by
  intro fuel
  induction fuel with
  | zero => intro n h1 h2; omega
  | succ fuel ih =>
    intro n h1 h2
    unfold ilog2_steps
    split
    · constructor <;> simp <;> omega
    · have h := ih (n / 2) (by omega) (by omega)
      have e1 : 2 ^ (ilog2_steps fuel (n / 2) + 1) = 2 * 2 ^ ilog2_steps fuel (n / 2) := by
        rw [pow_succ]; ring
      have e2 : 2 ^ (ilog2_steps fuel (n / 2) + 1 + 1)
          = 2 * 2 ^ (ilog2_steps fuel (n / 2) + 1) := by
        rw [pow_succ]; ring
      rw [e2]
      rw [e1] at h ⊢
      omega

theorem ilog2_spec (n : Nat) (h : 1 ≤ n) : 2 ^ ilog2 n ≤ n ∧ n < 2 ^ (ilog2 n + 1) :=
  ilog2_steps_spec n n h (Nat.le_refl n)

theorem round_div_le (N D M : Nat) (hD : 0 < D) (h : N ≤ M * D) : round_div N D ≤ M := by
  have hdm := Nat.div_add_mod N D
  have hlt := Nat.mod_lt N hD
  have hm0 : N / D ≤ M := by
    by_contra hc
    have : (M + 1) * D ≤ N / D * D := Nat.mul_le_mul_right D (by omega)
    have h2 := Nat.div_mul_le_self N D
    rw [Nat.add_mul] at this
    omega
  unfold round_div
  rcases Nat.lt_or_ge (N / D) M with hlt2 | hge
  · split
    · omega
    · split
      · omega
      · omega
  · have heq : N / D = M := by omega
    have hr : N % D = 0 := by
      rw [heq, Nat.mul_comm] at hdm
      omega
    rw [hr]
    simp [hD, heq]

theorem round_div_ge (N D M : Nat) (hD : 0 < D) (h : M * D ≤ N) : M ≤ round_div N D := by
  have hm0 : M ≤ N / D := (Nat.le_div_iff_mul_le hD).2 h
  unfold round_div
  split
  · exact hm0
  · split <;> omega

theorem round_div_err (N D : Nat) (hD : 0 < D) : 2 * N ≤ (2 * round_div N D + 1) * D := by
  have hdm := Nat.div_add_mod N D
  have hlt := Nat.mod_lt N hD
  unfold round_div
  split
  · rename_i h
    have : (2 * (N / D) + 1) * D = 2 * (D * (N / D)) + D := by ring
    rw [this]; omega
  · split
    · have : (2 * (N / D + 1) + 1) * D = 2 * (D * (N / D)) + 3 * D := by ring
      rw [this]; omega
    · have h1 : (2 * (N / D) + 1) * D ≤ (2 * (N / D + N / D % 2) + 1) * D :=
        Nat.mul_le_mul_right D (by omega)
      have : (2 * (N / D) + 1) * D = 2 * (D * (N / D)) + D := by ring
      rw [this] at h1
      omega

theorem scaled_facts (p a b : Nat) (ha : 1 ≤ a) (hb : 1 ≤ b) :
    2 ^ ilog2 (a * 2 ^ (p + 2 + ilog2 b) / b) * b ≤ a * 2 ^ (p + 2 + ilog2 b) ∧
    a * 2 ^ (p + 2 + ilog2 b) < 2 ^ (ilog2 (a * 2 ^ (p + 2 + ilog2 b) / b) + 1) * b ∧
    p + 1 ≤ ilog2 (a * 2 ^ (p + 2 + ilog2 b) / b) := by
  have hbl := (ilog2_spec b hb).2
  have hs : 2 ^ (p + 2 + ilog2 b) = 2 ^ (p + 1) * 2 ^ (ilog2 b + 1) := by
    rw [← pow_add]; congr 1; omega
  have hpos : 0 < 2 ^ (p + 1) := Nat.pow_pos (by decide)
  have h1 : 2 ^ (p + 1) * b ≤ a * 2 ^ (p + 2 + ilog2 b) := by
    calc 2 ^ (p + 1) * b ≤ 2 ^ (p + 1) * 2 ^ (ilog2 b + 1) :=
          Nat.mul_le_mul_left _ (Nat.le_of_lt hbl)
      _ = 1 * 2 ^ (p + 2 + ilog2 b) := by rw [hs, Nat.one_mul]
      _ ≤ a * 2 ^ (p + 2 + ilog2 b) := Nat.mul_le_mul_right _ ha
  have ht : 2 ^ (p + 1) ≤ a * 2 ^ (p + 2 + ilog2 b) / b := (Nat.le_div_iff_mul_le hb).2 h1
  have ht1 : 1 ≤ a * 2 ^ (p + 2 + ilog2 b) / b := le_trans hpos ht
  obtain ⟨hlo, hhi⟩ := ilog2_spec _ ht1
  refine ⟨(Nat.le_div_iff_mul_le hb).1 hlo, (Nat.div_lt_iff_lt_mul hb).1 hhi, ?_⟩
  have : 2 ^ (p + 1) < 2 ^ (ilog2 (a * 2 ^ (p + 2 + ilog2 b) / b) + 1) := lt_of_le_of_lt ht hhi
  have := (Nat.pow_lt_pow_iff_right (by decide : 1 < 2)).1 this
  omega

/-- Upper bound: a value at most the integer `K < 2^p` rounds to at most `K`. -/
theorem scaled_le (p a b K : Nat) (ha : 1 ≤ a) (hb : 1 ≤ b) (hK : K < 2 ^ p)
    (h : a ≤ K * b) :
    (float_round_scaled p a b).1 ≤ K * 2 ^ (float_round_scaled p a b).2 := by
  obtain ⟨hA, _, hC⟩ := scaled_facts p a b ha hb
  show round_div (a * 2 ^ (p + 2 + ilog2 b))
      (b * 2 ^ (ilog2 (a * 2 ^ (p + 2 + ilog2 b) / b) + 1 - p))
      * 2 ^ (ilog2 (a * 2 ^ (p + 2 + ilog2 b) / b) + 1 - p) ≤ K * 2 ^ (p + 2 + ilog2 b)
  generalize ilog2 (a * 2 ^ (p + 2 + ilog2 b) / b) = e at hA hC ⊢
  generalize p + 2 + ilog2 b = s at hA ⊢
  have hspos : 0 < 2 ^ s := Nat.pow_pos (by decide)
  have h1 : a * 2 ^ s ≤ K * b * 2 ^ s := Nat.mul_le_mul_right _ h
  have h2 : K * b * 2 ^ s < 2 ^ p * b * 2 ^ s :=
    Nat.mul_lt_mul_of_pos_right (Nat.mul_lt_mul_of_pos_right hK hb) hspos
  have h3 : 2 ^ e * b < 2 ^ (p + s) * b := by
    have : 2 ^ p * b * 2 ^ s = 2 ^ (p + s) * b := by rw [pow_add]; ring
    omega
  have h4 : 2 ^ e < 2 ^ (p + s) := Nat.lt_of_mul_lt_mul_right h3
  have h5 : e < p + s := (Nat.pow_lt_pow_iff_right (by decide : 1 < 2)).1 h4
  have hu : 2 ^ (e + 1 - p) * 2 ^ (s - (e + 1 - p)) = 2 ^ s := by
    rw [← pow_add]; congr 1; omega
  generalize 2 ^ (e + 1 - p) = u at hu ⊢
  generalize 2 ^ (s - (e + 1 - p)) = c at hu
  have hupos : 0 < u := by
    rcases Nat.eq_zero_or_pos u with h0 | h0
    · rw [h0] at hu; simp at hu; omega
    · exact h0
  have hD : 0 < b * u := Nat.mul_pos hb hupos
  have h6 : a * 2 ^ s ≤ K * c * (b * u) := by
    have : K * c * (b * u) = K * b * (u * c) := by ring
    rw [this, hu]; exact h1
  have h7 := round_div_le (a * 2 ^ s) (b * u) (K * c) hD h6
  calc round_div (a * 2 ^ s) (b * u) * u ≤ K * c * u := Nat.mul_le_mul_right u h7
    _ = K * (u * c) := by ring
    _ = K * 2 ^ s := by rw [hu]

/-- Lower bound: a value at least the integer `K < 2^p` rounds to at least `K`. -/
theorem scaled_ge (p a b K : Nat) (hp : 1 ≤ p) (ha : 1 ≤ a) (hb : 1 ≤ b) (hK : K < 2 ^ p)
    (h : K * b ≤ a) :
    K * 2 ^ (float_round_scaled p a b).2 ≤ (float_round_scaled p a b).1 := by
  obtain ⟨hA, _, hC⟩ := scaled_facts p a b ha hb
  show K * 2 ^ (p + 2 + ilog2 b) ≤ round_div (a * 2 ^ (p + 2 + ilog2 b))
      (b * 2 ^ (ilog2 (a * 2 ^ (p + 2 + ilog2 b) / b) + 1 - p))
      * 2 ^ (ilog2 (a * 2 ^ (p + 2 + ilog2 b) / b) + 1 - p)
  generalize ilog2 (a * 2 ^ (p + 2 + ilog2 b) / b) = e at hA hC ⊢
  generalize p + 2 + ilog2 b = s at hA ⊢
  have hupos : 0 < 2 ^ (e + 1 - p) := Nat.pow_pos (by decide)
  have hD : 0 < b * 2 ^ (e + 1 - p) := Nat.mul_pos hb hupos
  rcases Nat.lt_or_ge s (e + 1 - p) with hgt | hle
  · have hu : 2 ^ (e + 1 - p) = 2 ^ s * 2 ^ (e + 1 - p - s) := by
      rw [← pow_add]; congr 1; omega
    have he : 2 ^ e = 2 ^ (p - 1) * 2 ^ (e + 1 - p) := by
      rw [← pow_add]; congr 1; omega
    have h6 : 2 ^ (p - 1) * (b * 2 ^ (e + 1 - p)) ≤ a * 2 ^ s := by
      have : 2 ^ (p - 1) * (b * 2 ^ (e + 1 - p)) = 2 ^ e * b := by rw [he]; ring
      rw [this]; exact hA
    have h7 := round_div_ge (a * 2 ^ s) (b * 2 ^ (e + 1 - p)) (2 ^ (p - 1)) hD h6
    have hp2 : 2 ^ p = 2 ^ (p - 1) * 2 := by
      rw [← pow_succ]; congr 1; omega
    have hc2 : 2 ≤ 2 ^ (e + 1 - p - s) := by
      calc 2 = 2 ^ 1 := rfl
        _ ≤ 2 ^ (e + 1 - p - s) := Nat.pow_le_pow_right (by decide) (by omega)
    calc K * 2 ^ s ≤ 2 ^ p * 2 ^ s := Nat.mul_le_mul_right _ (Nat.le_of_lt hK)
      _ = 2 ^ (p - 1) * (2 ^ s * 2) := by rw [hp2]; ring
      _ ≤ 2 ^ (p - 1) * (2 ^ s * 2 ^ (e + 1 - p - s)) :=
          Nat.mul_le_mul_left _ (Nat.mul_le_mul_left _ hc2)
      _ = 2 ^ (p - 1) * 2 ^ (e + 1 - p) := by rw [hu]
      _ ≤ round_div (a * 2 ^ s) (b * 2 ^ (e + 1 - p)) * 2 ^ (e + 1 - p) :=
          Nat.mul_le_mul_right _ h7
  · have hu : 2 ^ (e + 1 - p) * 2 ^ (s - (e + 1 - p)) = 2 ^ s := by
      rw [← pow_add]; congr 1; omega
    generalize 2 ^ (e + 1 - p) = u at hu hD ⊢
    generalize 2 ^ (s - (e + 1 - p)) = c at hu
    have h6 : K * c * (b * u) ≤ a * 2 ^ s := by
      have : K * c * (b * u) = K * b * (u * c) := by ring
      rw [this, hu]; exact Nat.mul_le_mul_right _ h
    have h7 := round_div_ge (a * 2 ^ s) (b * u) (K * c) hD h6
    calc K * 2 ^ s = K * (u * c) := by rw [hu]
      _ = K * c * u := by ring
      _ ≤ round_div (a * 2 ^ s) (b * u) * u := Nat.mul_le_mul_right u h7

/-- Strict lower bound: a value with numerator below `2^p` that exceeds the
integer `K` rounds to more than `K`. -/
theorem scaled_gt (p a b K : Nat) (hp : 1 ≤ p) (hb : 1 ≤ b) (hap : a < 2 ^ p)
    (h : K * b < a) :
    K * 2 ^ (float_round_scaled p a b).2 < (float_round_scaled p a b).1 := by
  have ha : 1 ≤ a := by omega
  have hK : K < 2 ^ p := by
    have : K * 1 ≤ K * b := Nat.mul_le_mul_left K hb
    omega
  have hge := scaled_ge p a b K hp ha hb hK (Nat.le_of_lt h)
  obtain ⟨hA, _, hC⟩ := scaled_facts p a b ha hb
  refine lt_of_le_of_ne hge ?_
  intro heq
  change K * 2 ^ (p + 2 + ilog2 b) = round_div (a * 2 ^ (p + 2 + ilog2 b))
      (b * 2 ^ (ilog2 (a * 2 ^ (p + 2 + ilog2 b) / b) + 1 - p))
      * 2 ^ (ilog2 (a * 2 ^ (p + 2 + ilog2 b) / b) + 1 - p) at heq
  generalize ilog2 (a * 2 ^ (p + 2 + ilog2 b) / b) = e at hA hC heq
  generalize p + 2 + ilog2 b = s at hA heq
  have hspos : 0 < 2 ^ s := Nat.pow_pos (by decide)
  -- the exponent is small: e < p + s
  have h2 : a * 2 ^ s < 2 ^ p * 2 ^ s := Nat.mul_lt_mul_of_pos_right hap hspos
  have h3 : 2 ^ e * 1 ≤ 2 ^ e * b := Nat.mul_le_mul_left _ hb
  have h4 : 2 ^ e < 2 ^ (p + s) := by rw [pow_add]; omega
  have h5 : e < p + s := (Nat.pow_lt_pow_iff_right (by decide : 1 < 2)).1 h4
  have hu : 2 ^ (e + 1 - p) * 2 ^ (s - (e + 1 - p)) = 2 ^ s := by
    rw [← pow_add]; congr 1; omega
  have hpu : 2 ^ p * 2 ^ (e + 1 - p) = 2 * 2 ^ e := by
    rw [← pow_add, ← pow_succ']; congr 1; omega
  have hupos : 0 < 2 ^ (e + 1 - p) := Nat.pow_pos (by decide)
  have hcpos : 0 < 2 ^ (s - (e + 1 - p)) := Nat.pow_pos (by decide)
  generalize 2 ^ (e + 1 - p) = u at hu hpu hupos heq
  generalize 2 ^ (s - (e + 1 - p)) = c at hu hcpos
  have hD : 0 < b * u := Nat.mul_pos hb hupos
  have herr := round_div_err (a * 2 ^ s) (b * u) hD
  -- the rounded significand is K * c
  have hm : round_div (a * 2 ^ s) (b * u) = K * c := by
    have : K * c * u = round_div (a * 2 ^ s) (b * u) * u := by
      rw [← heq, ← hu]; ring
    exact (Nat.eq_of_mul_eq_mul_right hupos this).symm
  rw [hm, ← hu] at herr
  -- 2 * a * c ≤ (2 * K * c + 1) * b
  have h6 : 2 * (a * c) * u ≤ (2 * (K * c) + 1) * b * u := by
    calc 2 * (a * c) * u = 2 * (a * (u * c)) := by ring
      _ ≤ (2 * (K * c) + 1) * (b * u) := herr
      _ = (2 * (K * c) + 1) * b * u := by ring
  have h7 : 2 * (a * c) ≤ (2 * (K * c) + 1) * b := Nat.le_of_mul_le_mul_right h6 hupos
  -- a ≥ K * b + 1 gives 2 * c ≤ b
  have h8 : (K * b + 1) * c ≤ a * c := Nat.mul_le_mul_right c h
  have h9 : 2 * c ≤ b := by
    have e1 : (K * b + 1) * c = K * b * c + c := by ring
    have e2 : (2 * (K * c) + 1) * b = 2 * (K * b * c) + b := by ring
    rw [e1] at h8
    rw [e2] at h7
    omega
  -- but b < 2 * c
  have h10 : 2 ^ e * b < 2 ^ e * (2 * c) := by
    calc 2 ^ e * b ≤ a * 2 ^ s := hA
      _ = a * (u * c) := by rw [hu]
      _ < 2 ^ p * (u * c) := Nat.mul_lt_mul_of_pos_right hap (Nat.mul_pos hupos hcpos)
      _ = 2 ^ p * u * c := by ring
      _ = 2 ^ e * (2 * c) := by rw [hpu]; ring
  have h11 : b < 2 * c := Nat.lt_of_mul_lt_mul_left h10
  omega

theorem scaled_pos (p a b : Nat) (hp : 1 ≤ p) (ha : 1 ≤ a) (hb : 1 ≤ b) :
    0 < (float_round_scaled p a b).1 := by
  obtain ⟨hA, _, hC⟩ := scaled_facts p a b ha hb
  show 0 < round_div (a * 2 ^ (p + 2 + ilog2 b))
      (b * 2 ^ (ilog2 (a * 2 ^ (p + 2 + ilog2 b) / b) + 1 - p))
      * 2 ^ (ilog2 (a * 2 ^ (p + 2 + ilog2 b) / b) + 1 - p)
  generalize ilog2 (a * 2 ^ (p + 2 + ilog2 b) / b) = e at hA hC ⊢
  generalize p + 2 + ilog2 b = s at hA ⊢
  have hupos : 0 < 2 ^ (e + 1 - p) := Nat.pow_pos (by decide)
  have hD : 0 < b * 2 ^ (e + 1 - p) := Nat.mul_pos hb hupos
  have he : 2 ^ e = 2 ^ (p - 1) * 2 ^ (e + 1 - p) := by
    rw [← pow_add]; congr 1; omega
  have h6 : 2 ^ (p - 1) * (b * 2 ^ (e + 1 - p)) ≤ a * 2 ^ s := by
    have : 2 ^ (p - 1) * (b * 2 ^ (e + 1 - p)) = 2 ^ e * b := by rw [he]; ring
    rw [this]; exact hA
  have h7 := round_div_ge (a * 2 ^ s) (b * 2 ^ (e + 1 - p)) (2 ^ (p - 1)) hD h6
  have h8 : 0 < 2 ^ (p - 1) := Nat.pow_pos (by decide)
  exact Nat.mul_pos (by omega) hupos

section Rational

variable (p : Nat) (q : ℚ)

theorem float_round_of_pos (hq : 0 < q) :
    float_round p q = ((float_round_scaled p q.num.natAbs q.den).1 : ℚ)
      / ((2 ^ (float_round_scaled p q.num.natAbs q.den).2 : Nat) : ℚ) := by
  unfold float_round
  rw [if_neg (ne_of_gt hq), if_neg (not_lt.2 (le_of_lt hq)), one_mul]

theorem rat_eq_natAbs_div (hq : 0 < q) : q = (q.num.natAbs : ℚ) / (q.den : ℚ) := by
  have hnum : 0 < q.num := Rat.num_pos.2 hq
  have h1 : ((q.num.natAbs : ℤ) : ℚ) = (q.num : ℚ) := by
    rw [Int.natAbs_of_nonneg (le_of_lt hnum)]
  have h2 : ((q.num.natAbs : ℕ) : ℚ) = ((q.num.natAbs : ℤ) : ℚ) := (Int.cast_natCast _).symm
  rw [h2, h1]
  exact (Rat.num_div_den q).symm

theorem natAbs_num_pos (hq : 0 < q) : 1 ≤ q.num.natAbs := by
  have hnum : 0 < q.num := Rat.num_pos.2 hq
  omega

theorem float_round_le (hq : 0 < q) (K : Nat) (hK : K < 2 ^ p) (h : q ≤ K) :
    float_round p q ≤ K := by
  have hb : 1 ≤ q.den := q.den_pos
  have ha := natAbs_num_pos q hq
  have hbq : (0 : ℚ) < q.den := by exact_mod_cast hb
  have hab : q.num.natAbs ≤ K * q.den := by
    have h1 : (q.num.natAbs : ℚ) / (q.den : ℚ) ≤ K := by rw [← rat_eq_natAbs_div q hq]; exact h
    rw [div_le_iff₀ hbq] at h1
    exact_mod_cast h1
  have key := scaled_le p q.num.natAbs q.den K ha hb hK hab
  rw [float_round_of_pos p q hq]
  have hs : (0 : ℚ) < ((2 ^ (float_round_scaled p q.num.natAbs q.den).2 : Nat) : ℚ) := by
    exact_mod_cast Nat.pow_pos (by decide)
  rw [div_le_iff₀ hs]
  exact_mod_cast key

theorem float_round_ge (hp : 1 ≤ p) (hq : 0 < q) (K : Nat) (hK : K < 2 ^ p) (h : (K : ℚ) ≤ q) :
    (K : ℚ) ≤ float_round p q := by
  have hb : 1 ≤ q.den := q.den_pos
  have ha := natAbs_num_pos q hq
  have hbq : (0 : ℚ) < q.den := by exact_mod_cast hb
  have hab : K * q.den ≤ q.num.natAbs := by
    have h1 : (K : ℚ) ≤ (q.num.natAbs : ℚ) / (q.den : ℚ) := by
      rw [← rat_eq_natAbs_div q hq]; exact h
    rw [le_div_iff₀ hbq] at h1
    exact_mod_cast h1
  have key := scaled_ge p q.num.natAbs q.den K hp ha hb hK hab
  rw [float_round_of_pos p q hq]
  have hs : (0 : ℚ) < ((2 ^ (float_round_scaled p q.num.natAbs q.den).2 : Nat) : ℚ) := by
    exact_mod_cast Nat.pow_pos (by decide)
  rw [le_div_iff₀ hs]
  exact_mod_cast key

theorem float_round_gt (hp : 1 ≤ p) (hq : 0 < q) (K : Nat) (hnum : q.num.natAbs < 2 ^ p)
    (h : (K : ℚ) < q) : (K : ℚ) < float_round p q := by
  have hb : 1 ≤ q.den := q.den_pos
  have hbq : (0 : ℚ) < q.den := by exact_mod_cast hb
  have hab : K * q.den < q.num.natAbs := by
    have h1 : (K : ℚ) < (q.num.natAbs : ℚ) / (q.den : ℚ) := by
      rw [← rat_eq_natAbs_div q hq]; exact h
    rw [lt_div_iff₀ hbq] at h1
    exact_mod_cast h1
  have key := scaled_gt p q.num.natAbs q.den K hp hb hnum hab
  rw [float_round_of_pos p q hq]
  have hs : (0 : ℚ) < ((2 ^ (float_round_scaled p q.num.natAbs q.den).2 : Nat) : ℚ) := by
    exact_mod_cast Nat.pow_pos (by decide)
  rw [lt_div_iff₀ hs]
  exact_mod_cast key

theorem float_round_pos (hp : 1 ≤ p) (hq : 0 < q) : 0 < float_round p q := by
  have key := scaled_pos p q.num.natAbs q.den hp (natAbs_num_pos q hq) q.den_pos
  rw [float_round_of_pos p q hq]
  have hs : (0 : ℚ) < ((2 ^ (float_round_scaled p q.num.natAbs q.den).2 : Nat) : ℚ) := by
    exact_mod_cast Nat.pow_pos (by decide)
  apply div_pos _ hs
  exact_mod_cast key

end Rational

/-- A natural number below `2^p` is a floating-point number. -/
theorem float_round_natCast (p n : Nat) (hp : 1 ≤ p) (hn : n < 2 ^ p) :
    float_round p (n : ℚ) = n := by
  rcases Nat.eq_zero_or_pos n with h0 | hpos
  · subst h0
    simp [float_round]
  · have hq : (0 : ℚ) < (n : ℚ) := by exact_mod_cast hpos
    exact le_antisymm (float_round_le p n hq n hn (le_refl _))
      (float_round_ge p n hp hq n hn (le_refl _))

theorem natAbs_num_div_le (n B : Nat) (hn : 1 ≤ n) (hB : 1 ≤ B) :
    ((n : ℚ) / (B : ℚ)).num.natAbs ≤ n := by
  have h1 : ((n : ℚ) / (B : ℚ)) = Rat.divInt (n : ℤ) (B : ℤ) := by
    rw [Rat.divInt_eq_div]; push_cast; rfl
  rw [h1]
  have hB0 : ((B : ℤ)) ≠ 0 := by omega
  have hdvd := Rat.num_dvd (n : ℤ) hB0
  have h2 := Int.natAbs_dvd_natAbs.2 hdvd
  have h3 : ((n : ℤ)).natAbs = n := Int.natAbs_ofNat n
  rw [h3] at h2
  exact Nat.le_of_dvd hn h2

/-- Below `2^24` the single-precision computation of the number of blocks is
the exact ceiling. -/
theorem ceil_div_exact (n B : Nat) (hn : n < 2 ^ 24) (hB : 1 ≤ B) :
    ceil_div n B = (n + B - 1) / B := by
  rcases Nat.eq_zero_or_pos n with h0 | hpos
  · subst h0
    have : (0 + B - 1) / B = 0 := Nat.div_eq_of_lt (by omega)
    rw [this]
    simp [ceil_div, float_round]
  have hnq : (0 : ℚ) < (n : ℚ) := by exact_mod_cast hpos
  have hBq : (0 : ℚ) < (B : ℚ) := by exact_mod_cast hB
  unfold ceil_div
  rw [float_round_natCast 24 n (by decide) hn]
  rcases Nat.lt_or_ge B (2 ^ 24) with hBs | hBl
  · rw [float_round_natCast 24 B (by decide) hBs]
    -- the exact ceiling K
    have hdm := Nat.div_add_mod (n + B - 1) B
    have hml := Nat.mod_lt (n + B - 1) hB
    rw [Nat.mul_comm] at hdm
    generalize (n + B - 1) % B = r at hdm hml
    generalize (n + B - 1) / B = K at hdm ⊢
    have hK1 : 1 ≤ K := by
      rcases Nat.eq_zero_or_pos K with hz | hz
      · subst hz; omega
      · exact hz
    have hKB : n ≤ K * B := by omega
    have hK1B : (K - 1) * B < n := by
      have : (K - 1) * B + B = K * B := by
        rw [← Nat.succ_mul]; congr 1; omega
      omega
    have hKn : K ≤ n := by
      have : (K - 1) * 1 ≤ (K - 1) * B := Nat.mul_le_mul_left (K - 1) hB
      omega
    have hq : (0 : ℚ) < (n : ℚ) / (B : ℚ) := div_pos hnq hBq
    have hle : float_round 24 ((n : ℚ) / (B : ℚ)) ≤ (K : ℚ) := by
      apply float_round_le 24 _ hq K (by omega)
      rw [div_le_iff₀ hBq]
      exact_mod_cast hKB
    have hgt : ((K - 1 : ℕ) : ℚ) < float_round 24 ((n : ℚ) / (B : ℚ)) := by
      apply float_round_gt 24 _ (by decide) hq (K - 1)
      · exact lt_of_le_of_lt (natAbs_num_div_le n B hpos hB) hn
      · rw [lt_div_iff₀ hBq]
        exact_mod_cast hK1B
    have hceil : ⌈float_round 24 ((n : ℚ) / (B : ℚ))⌉ = (K : ℤ) := by
      rw [Int.ceil_eq_iff]
      constructor
      · have : ((K : ℤ) : ℚ) - 1 = ((K - 1 : ℕ) : ℚ) := by
          rw [Nat.cast_sub hK1]; push_cast; ring
        rw [this]; exact hgt
      · exact_mod_cast hle
    rw [hceil]
    simp
  · have hBq' : (0 : ℚ) < (B : ℚ) := hBq
    have hBge : ((2 ^ 24 - 1 : ℕ) : ℚ) ≤ float_round 24 (B : ℚ) := by
      apply float_round_ge 24 _ (by decide) hBq (2 ^ 24 - 1) (by decide)
      have : 2 ^ 24 - 1 ≤ B := by omega
      exact_mod_cast this
    have hnB : (n : ℚ) ≤ float_round 24 (B : ℚ) := by
      have : n ≤ 2 ^ 24 - 1 := by omega
      have : (n : ℚ) ≤ ((2 ^ 24 - 1 : ℕ) : ℚ) := by exact_mod_cast this
      linarith
    have hB'pos : (0 : ℚ) < float_round 24 (B : ℚ) := lt_of_lt_of_le hnq hnB
    have hq : (0 : ℚ) < (n : ℚ) / float_round 24 (B : ℚ) := div_pos hnq hB'pos
    have hle : float_round 24 ((n : ℚ) / float_round 24 (B : ℚ)) ≤ ((1 : ℕ) : ℚ) := by
      apply float_round_le 24 _ hq 1 (by decide)
      rw [div_le_iff₀ hB'pos]
      push_cast
      linarith
    have hgt := float_round_pos 24 _ (by decide) hq
    have hceil : ⌈float_round 24 ((n : ℚ) / float_round 24 (B : ℚ))⌉ = (1 : ℤ) := by
      rw [Int.ceil_eq_iff]
      constructor
      · simpa using hgt
      · simpa using hle
    rw [hceil]
    have : (n + B - 1) / B = 1 := by
      apply Nat.div_eq_of_lt_le <;> omega
    rw [this]
    rfl

theorem float_round_zero (p : Nat) : float_round p 0 = 0 := by
  simp [float_round]

theorem ceil_div_zero (B : Nat) : ceil_div 0 B = 0 := by
  simp [ceil_div, float_round_zero]

theorem ceil_div_pos (n B : Nat) (k : Nat) (hk : k < ceil_div n B) : 0 < n := by
  rcases Nat.eq_zero_or_pos n with h | h
  · subst h
    rw [ceil_div_zero] at hk
    exact absurd hk (Nat.not_lt_zero k)
  · exact h

/-- The flag of a block, in terms of a representative pixel given as natural
numbers. -/
theorem block_flag_rep (B outW outH : Nat) (outwcs inwcs : anwcs_t) (i j x y : Nat)
    (hx : (x : Int) = min ((outW : Int) - 1) ((B : Int) * j))
    (hy : (y : Int) = min ((outH : Int) - 1) ((B : Int) * i)) :
    block_flag B outW outH outwcs inwcs i j
      = match outwcs.pixelxy2radec (((x : Int) + 1 : Int) : ℚ) (((y : Int) + 1 : Int) : ℚ) with
        | none => false
        | some (ra, dec) => inwcs.radec_is_inside_image ra dec := by
  unfold block_flag
  rw [← hx, ← hy]

/-- The representative pixel of a block of the grid is a destination pixel. -/
theorem representative_in_raster (B n k : Nat) (hk : k < ceil_div n B) :
    ∃ x : Nat, x < n ∧ (x : Int) = min ((n : Int) - 1) ((B : Int) * k) := by
  have hn := ceil_div_pos n B k hk
  refine ⟨(min ((n : Int) - 1) ((B : Int) * k)).toNat, ?_, ?_⟩
  · have h0 : (0 : Int) ≤ (B : Int) * k := by positivity
    omega
  · have h0 : (0 : Int) ≤ (B : Int) * k := by positivity
    omega

/-- The mask of `find_overlap_grid` when the destination is disjoint from
the source. -/
theorem find_overlap_grid_disjoint (B outW outH : Nat) (outwcs inwcs : anwcs_t)
    (h : disjoint_from outwcs inwcs outW outH) :
    (find_overlap_grid B outW outH outwcs inwcs).1 = calloc_bool := by
  show dilate _ _ _ = calloc_bool
  apply dilate_none
  intro i j hi hj
  rw [overlap_undilated_at B outW outH outwcs inwcs _ _ i j hi hj]
  obtain ⟨x, hxlt, hx⟩ := representative_in_raster B outW j hj
  obtain ⟨y, hylt, hy⟩ := representative_in_raster B outH i hi
  rw [block_flag_rep B outW outH outwcs inwcs i j x y hx hy]
  have := h x y hxlt hylt
  generalize outwcs.pixelxy2radec _ _ = r at this ⊢
  rcases r with _ | ⟨ra, dec⟩
  · rfl
  · exact this ra dec rfl

theorem resample_fetch_identity (w : anwcs_t) (W H : Nat) (h : identity_on w W H)
    (i j : Nat) (hi : i < W) (hj : j < H) :
    resample_fetch w W H w 0 i j = Fetch.nearest i j := by
  obtain ⟨d, h1, h2⟩ := (h i j hi hj).1
  unfold resample_fetch
  rw [h1]
  simp only [h2]
  have e1 : ((((i : Int) + 1 : Int) : ℚ)) - 1 = ((i : Int) : ℚ) := by push_cast; ring
  have e2 : ((((j : Int) + 1 : Int) : ℚ)) - 1 = ((j : Int) : ℚ) := by push_cast; ring
  rw [e1, e2, c_round_intCast, c_round_intCast]
  rw [if_pos True.intro, if_neg (by omega)]

/-! ## The pixel body of `resample_wcs_rgba` -/

section Rgba

variable {α : Type} (inwcs : anwcs_t) (inimg : Buf α) (inW inH : Nat)
  (outwcs : anwcs_t) (outW outH : Nat)

theorem rgba_pixel_frame (i j : Nat) (t : Buf α) (idx : Int)
    (h : ∀ c : Int, 0 ≤ c → c < 4 → idx ≠ 4 * ((j : Int) * outW + i) + c) :
    rgba_pixel inwcs inimg inW inH outwcs outW i j t idx = t idx := by
  unfold rgba_pixel
  generalize rgba_fetch inwcs inW inH outwcs i j = fe
  rcases fe with _ | ⟨x, y⟩
  · rfl
  · have h0 := h 0 (by decide) (by decide)
    have h1 := h 1 (by decide) (by decide)
    have h2 := h 2 (by decide) (by decide)
    have h3 := h 3 (by decide) (by decide)
    simp only [Buf.write, h0, h1, h2, h3, if_false]

theorem rgba_pixel_hit (i j : Nat) (t : Buf α) (c : Int) (hc0 : 0 ≤ c) (hc4 : c < 4) :
    rgba_pixel inwcs inimg inW inH outwcs outW i j t (4 * ((j : Int) * outW + i) + c)
      = rgba_value inimg inW c (rgba_fetch inwcs inW inH outwcs i j)
          (t (4 * ((j : Int) * outW + i) + c)) := by
  unfold rgba_pixel
  generalize rgba_fetch inwcs inW inH outwcs i j = fe
  rcases fe with _ | ⟨x, y⟩
  · rfl
  · have hc : c = 0 ∨ c = 1 ∨ c = 2 ∨ c = 3 := by omega
    rcases hc with rfl | rfl | rfl | rfl <;> simp [Buf.write, rgba_value]

/-- The final value of every byte of the destination raster of
`resample_wcs_rgba`. -/
theorem resample_wcs_rgba_at (outimg : Buf α) (i j : Nat) (hi : i < outW) (hj : j < outH)
    (c : Int) (hc0 : 0 ≤ c) (hc4 : c < 4) :
    (resample_wcs_rgba inwcs inimg inW inH outwcs outimg outW outH).2
        (4 * ((j : Int) * outW + i) + c)
      = if block_marked outwcs inwcs outW outH (j / 20) (i / 20) = true then
          rgba_value inimg inW c (rgba_fetch inwcs inW inH outwcs i j)
            (outimg (4 * ((j : Int) * outW + i) + c))
        else outimg (4 * ((j : Int) * outW + i) + c) := by
  have hothers : ∀ i' j', i' < outW → j' < outH → ¬ (i' = i ∧ j' = j) → ∀ t : Buf α,
      rgba_pixel inwcs inimg inW inH outwcs outW i' j' t (4 * ((j : Int) * outW + i) + c)
        = t (4 * ((j : Int) * outW + i) + c) := by
    intro i' j' hi' _ hne t
    apply rgba_pixel_frame
    intro c' hc0' hc4' heq
    have := pixel_index_inj outW i j i' j' hi hi' (by omega)
    exact hne ⟨this.1.symm, this.2.symm⟩
  refine (blocks_at (fun (b : Buf α) => b (4 * ((j : Int) * outW + i) + c))
    (rgba_value inimg inW c (rgba_fetch inwcs inW inH outwcs i j))
    (fun i j t => rgba_pixel inwcs inimg inW inH outwcs outW i j t)
    (fun bj bi => !(find_overlap_grid 20 outW outH outwcs inwcs).1
      ((bj : Int) * (find_overlap_grid 20 outW outH outwcs inwcs).2.1 + bi))
    20 (find_overlap_grid 20 outW outH outwcs inwcs).2.1
    (find_overlap_grid 20 outW outH outwcs inwcs).2.2 outW outH i j outimg (by decide) hi hj
    hothers (fun t => rgba_pixel_hit inwcs inimg inW inH outwcs outW i j t c hc0 hc4)).trans ?_
  unfold block_marked
  by_cases hin : j / 20 < (find_overlap_grid 20 outW outH outwcs inwcs).2.2 ∧
      i / 20 < (find_overlap_grid 20 outW outH outwcs inwcs).2.1
  · cases hm : (find_overlap_grid 20 outW outH outwcs inwcs).1
      (((j / 20 : Nat) : Int) * (find_overlap_grid 20 outW outH outwcs inwcs).2.1
        + ((i / 20 : Nat) : Int)) <;> simp [hin, hm]
  · simp [hin]

/-- Bytes that belong to no destination pixel keep their value. -/
theorem resample_wcs_rgba_outside (outimg : Buf α) (idx : Int)
    (h : ∀ i j : Nat, i < outW → j < outH → ∀ c : Int, 0 ≤ c → c < 4 →
      idx ≠ 4 * ((j : Int) * outW + i) + c) :
    (resample_wcs_rgba inwcs inimg inW inH outwcs outimg outW outH).2 idx = outimg idx :=
  blocks_frame (fun (b : Buf α) => b idx)
    (fun i j t => rgba_pixel inwcs inimg inW inH outwcs outW i j t)
    _ 20 _ _ outW outH outimg
    (fun i j hi hj t => rgba_pixel_frame inwcs inimg inW inH outwcs outW i j t idx (h i j hi hj))

theorem rgba_fetch_identity (w : anwcs_t) (W H : Nat) (h : identity_on w W H)
    (i j : Nat) (hi : i < W) (hj : j < H) :
    rgba_fetch w W H w i j = some ((i : Int), (j : Int)) := by
  obtain ⟨d, h1, h2⟩ := (h i j hi hj).1
  unfold rgba_fetch
  rw [h1]
  simp only [h2]
  have e1 : ((((i : Int) + 1 : Int) : ℚ)) - 1 = ((i : Int) : ℚ) := by push_cast; ring
  have e2 : ((((j : Int) + 1 : Int) : ℚ)) - 1 = ((j : Int) : ℚ) := by push_cast; ring
  rw [e1, e2, c_round_intCast, c_round_intCast]
  rw [if_neg (by omega)]

end Rgba

/-! ## Case analysis of the fetch -/

section FetchCases

variable (inwcs : anwcs_t) (inW inH : Nat) (outwcs : anwcs_t) (lorder : Int) (i j : Nat)

theorem resample_fetch_fail_out
    (h : outwcs.pixelxy2xyz (((i : Int) + 1 : Int) : ℚ) (((j : Int) + 1 : Int) : ℚ) = none) :
    resample_fetch inwcs inW inH outwcs lorder i j = Fetch.skip := by
  unfold resample_fetch
  rw [h]

theorem resample_fetch_fail_in (d : xyz_t)
    (h1 : outwcs.pixelxy2xyz (((i : Int) + 1 : Int) : ℚ) (((j : Int) + 1 : Int) : ℚ) = some d)
    (h2 : inwcs.xyz2pixelxy d = none) :
    resample_fetch inwcs inW inH outwcs lorder i j = Fetch.skip := by
  unfold resample_fetch
  rw [h1]
  simp only [h2]

theorem resample_fetch_ok (d : xyz_t) (inx iny : ℚ)
    (h1 : outwcs.pixelxy2xyz (((i : Int) + 1 : Int) : ℚ) (((j : Int) + 1 : Int) : ℚ) = some d)
    (h2 : inwcs.xyz2pixelxy d = some (inx, iny)) :
    resample_fetch inwcs inW inH outwcs lorder i j
      = if lorder = 0 then
          if c_round (inx - 1) < 0 ∨ c_round (inx - 1) ≥ inW ∨
              c_round (iny - 1) < 0 ∨ c_round (iny - 1) ≥ inH then Fetch.skip
          else Fetch.nearest (c_round (inx - 1)) (c_round (iny - 1))
        else
          if sub_one_double inx < ((-lorder : Int) : ℚ) ∨
              sub_one_double inx ≥ (((inW : Int) + lorder : Int) : ℚ) ∨
              sub_one_double iny < ((-lorder : Int) : ℚ) ∨
              sub_one_double iny ≥ (((inH : Int) + lorder : Int) : ℚ) then
            Fetch.skip
          else Fetch.lanczos (sub_one_double inx) (sub_one_double iny) := by
  unfold resample_fetch
  rw [h1]
  simp only [h2]

/-- Every fetch other than `skip` comes from two successful conversions. -/
theorem resample_fetch_inv (h : resample_fetch inwcs inW inH outwcs lorder i j ≠ Fetch.skip) :
    ∃ d inx iny,
      outwcs.pixelxy2xyz (((i : Int) + 1 : Int) : ℚ) (((j : Int) + 1 : Int) : ℚ) = some d ∧
      inwcs.xyz2pixelxy d = some (inx, iny) := by
  rcases h1 : outwcs.pixelxy2xyz (((i : Int) + 1 : Int) : ℚ) (((j : Int) + 1 : Int) : ℚ)
    with _ | d
  · exact absurd (resample_fetch_fail_out inwcs inW inH outwcs lorder i j h1) h
  · rcases h2 : inwcs.xyz2pixelxy d with _ | ⟨inx, iny⟩
    · exact absurd (resample_fetch_fail_in inwcs inW inH outwcs lorder i j d h1 h2) h
    · exact ⟨d, inx, iny, rfl, h2⟩

theorem rgba_fetch_ok (d : xyz_t) (inx iny : ℚ)
    (h1 : outwcs.pixelxy2xyz (((i : Int) + 1 : Int) : ℚ) (((j : Int) + 1 : Int) : ℚ) = some d)
    (h2 : inwcs.xyz2pixelxy d = some (inx, iny)) :
    rgba_fetch inwcs inW inH outwcs i j
      = if c_round (inx - 1) < 0 ∨ c_round (inx - 1) ≥ inW ∨
            c_round (iny - 1) < 0 ∨ c_round (iny - 1) ≥ inH then none
        else some (c_round (inx - 1), c_round (iny - 1)) := by
  unfold rgba_fetch
  rw [h1]
  simp only [h2]

theorem rgba_fetch_inv (x y : Int) (h : rgba_fetch inwcs inW inH outwcs i j = some (x, y)) :
    ∃ d inx iny,
      outwcs.pixelxy2xyz (((i : Int) + 1 : Int) : ℚ) (((j : Int) + 1 : Int) : ℚ) = some d ∧
      inwcs.xyz2pixelxy d = some (inx, iny) ∧
      x = c_round (inx - 1) ∧ y = c_round (iny - 1) ∧
      0 ≤ x ∧ x < inW ∧ 0 ≤ y ∧ y < inH := by
  rcases h1 : outwcs.pixelxy2xyz (((i : Int) + 1 : Int) : ℚ) (((j : Int) + 1 : Int) : ℚ)
    with _ | d
  · unfold rgba_fetch at h
    rw [h1] at h
    cases h
  · rcases h2 : inwcs.xyz2pixelxy d with _ | ⟨inx, iny⟩
    · unfold rgba_fetch at h
      rw [h1] at h
      simp only [h2] at h
      cases h
    · rw [rgba_fetch_ok inwcs inW inH outwcs i j d inx iny h1 h2] at h
      split at h
      · cases h
      · rename_i hin
        simp only [Option.some.injEq, Prod.mk.injEq] at h
        refine ⟨d, inx, iny, rfl, h2, h.1.symm, h.2.symm, ?_⟩
        rw [← h.1, ← h.2]
        omega

theorem resample_fetch_nearest_inv (x y : Int)
    (h : resample_fetch inwcs inW inH outwcs lorder i j = Fetch.nearest x y) :
    lorder = 0 ∧ ∃ d inx iny,
      outwcs.pixelxy2xyz (((i : Int) + 1 : Int) : ℚ) (((j : Int) + 1 : Int) : ℚ) = some d ∧
      inwcs.xyz2pixelxy d = some (inx, iny) ∧
      x = c_round (inx - 1) ∧ y = c_round (iny - 1) ∧
      0 ≤ x ∧ x < inW ∧ 0 ≤ y ∧ y < inH := by
  obtain ⟨d, inx, iny, h1, h2⟩ := resample_fetch_inv inwcs inW inH outwcs lorder i j
    (by rw [h]; exact fun e => Fetch.noConfusion e)
  rw [resample_fetch_ok inwcs inW inH outwcs lorder i j d inx iny h1 h2] at h
  split at h
  · rename_i h0
    split at h
    · cases h
    · injection h with hx hy
      refine ⟨h0, d, inx, iny, h1, h2, hx.symm, hy.symm, ?_⟩
      rw [← hx, ← hy]
      omega
  · split at h <;> cases h

theorem resample_fetch_lanczos_inv (a b : ℚ)
    (h : resample_fetch inwcs inW inH outwcs lorder i j = Fetch.lanczos a b) :
    lorder ≠ 0 ∧ ∃ d inx iny,
      outwcs.pixelxy2xyz (((i : Int) + 1 : Int) : ℚ) (((j : Int) + 1 : Int) : ℚ) = some d ∧
      inwcs.xyz2pixelxy d = some (inx, iny) ∧
      a = sub_one_double inx ∧ b = sub_one_double iny ∧
      ((-lorder : Int) : ℚ) ≤ a ∧ a < (((inW : Int) + lorder : Int) : ℚ) ∧
      ((-lorder : Int) : ℚ) ≤ b ∧ b < (((inH : Int) + lorder : Int) : ℚ) := by
  obtain ⟨d, inx, iny, h1, h2⟩ := resample_fetch_inv inwcs inW inH outwcs lorder i j
    (by rw [h]; exact fun e => Fetch.noConfusion e)
  rw [resample_fetch_ok inwcs inW inH outwcs lorder i j d inx iny h1 h2] at h
  split at h
  · split at h <;> cases h
  · rename_i h0
    split at h
    · cases h
    · rename_i hin
      injection h with ha hb
      refine ⟨h0, d, inx, iny, h1, h2, ha.symm, hb.symm, ?_⟩
      rw [← ha, ← hb]
      simp only [not_or, not_lt, ge_iff_le, not_le] at hin
      exact ⟨hin.1, hin.2.1, hin.2.2.1, hin.2.2.2⟩

end FetchCases

theorem source_index_lt (W H : Nat) (x y : Int) (hx0 : 0 ≤ x) (hx : x < W)
    (hy0 : 0 ≤ y) (hy : y < H) :
    0 ≤ y * W + x ∧ y * W + x < (W : Int) * H := by
  lift x to Nat using hx0
  lift y to Nat using hy0
  exact pixel_index_lt W H x y (by exact_mod_cast hx) (by exact_mod_cast hy)

/-! ## Claims -/

theorem plane_identity (W H : Nat) (dx dy : ℚ) : identity_on (plane_wcs W H dx dy) W H := by
  intro i j hi hj
  refine ⟨⟨_, rfl, ?_⟩, ⟨_, _, rfl, ?_⟩⟩
  · simp [plane_wcs]
  · have h1 : ((i : ℚ)) + 1 ≤ W := by exact_mod_cast hi
    have h2 : ((j : ℚ)) + 1 ≤ H := by exact_mod_cast hj
    have h3 : (0 : ℚ) ≤ i := by positivity
    have h4 : (0 : ℚ) ≤ j := by positivity
    simp only [plane_wcs, decide_eq_true_eq]
    push_cast
    refine ⟨by linarith, by linarith, by linarith, by linarith⟩

/-- A block that is not a block of the grid is not marked. -/
theorem block_marked_outside (outwcs inwcs : anwcs_t) (outW outH bj bi : Nat)
    (h : ¬ (bj < (find_overlap_grid 20 outW outH outwcs inwcs).2.2 ∧
      bi < (find_overlap_grid 20 outW outH outwcs inwcs).2.1)) :
    block_marked outwcs inwcs outW outH bj bi = false := by
  unfold block_marked
  simp [h]

/-- A block of the grid is marked exactly when the mask says so. -/
theorem block_marked_inside (outwcs inwcs : anwcs_t) (outW outH bj bi : Nat)
    (h : bj < (find_overlap_grid 20 outW outH outwcs inwcs).2.2 ∧
      bi < (find_overlap_grid 20 outW outH outwcs inwcs).2.1) :
    block_marked outwcs inwcs outW outH bj bi
      = (find_overlap_grid 20 outW outH outwcs inwcs).1
          ((bj : Int) * (find_overlap_grid 20 outW outH outwcs inwcs).2.1 + (bi : Int)) := by
  unfold block_marked
  simp [h]

/-- C1, failing input.  A raster of 16777221 x 1 pixels whose sample at offset
`n` is `n + 10`, resampled onto itself with the plane mapping, which sends
every pixel to itself, `lorder = 0` and a destination initialised to 0.  The
single-precision block count is 838861, so the last pixel, 16777220, whose
block column is 838861, lies in no block of the grid: with `overlap_grid = 1`
the output keeps 0 there, where the source holds 16777230; with
`overlap_grid = 0` the output is 16777230. -/
theorem identity_dropped_wide_raster :
    identity_on (plane_wcs 16777221 1 0 0) 16777221 1 ∧
    (find_overlap_grid 20 16777221 1 (plane_wcs 16777221 1 0 0)
        (plane_wcs 16777221 1 0 0)).2 = (838861, 1) ∧
    (resample_wcs lanczos_stub (plane_wcs 16777221 1 0 0) (fun n => n.toNat + 10) 16777221 1
        (plane_wcs 16777221 1 0 0) (fun _ => 0) 16777221 1 1 0).2
        (((0 : Nat) : Int) * (16777221 : Nat) + (16777220 : Nat)) = 0 ∧
    (fun n : Int => n.toNat + 10)
        (((0 : Nat) : Int) * (16777221 : Nat) + (16777220 : Nat)) = 16777230 ∧
    (resample_wcs lanczos_stub (plane_wcs 16777221 1 0 0) (fun n => n.toNat + 10) 16777221 1
        (plane_wcs 16777221 1 0 0) (fun _ => 0) 16777221 1 0 0).2
        (((0 : Nat) : Int) * (16777221 : Nat) + (16777220 : Nat)) = 16777230 := by
  refine ⟨plane_identity _ _ _ _, by decide!, ?_, by decide, ?_⟩
  · rw [resample_wcs_at lanczos_stub (plane_wcs 16777221 1 0 0) (fun n => n.toNat + 10)
      16777221 1 (plane_wcs 16777221 1 0 0) 16777221 1 0 (fun _ => 0) 1 16777220 0
      (by decide) (by decide)]
    have hs : block_survives (plane_wcs 16777221 1 0 0) (plane_wcs 16777221 1 0 0)
        16777221 1 1 16777220 0 = false := by
      unfold block_survives
      rw [if_pos (by decide)]
      exact block_marked_outside _ _ _ _ _ _ (by decide!)
    rw [hs]
    rfl
  · rw [resample_wcs_at lanczos_stub (plane_wcs 16777221 1 0 0) (fun n => n.toNat + 10)
      16777221 1 (plane_wcs 16777221 1 0 0) 16777221 1 0 (fun _ => 0) 0 16777220 0
      (by decide) (by decide)]
    have hs : block_survives (plane_wcs 16777221 1 0 0) (plane_wcs 16777221 1 0 0)
        16777221 1 0 16777220 0 = true := rfl
    rw [if_pos hs, resample_fetch_identity (plane_wcs 16777221 1 0 0) 16777221 1
      (plane_identity _ _ _ _) 16777220 0 (by decide) (by decide)]
    decide

/-- C2, failing input.  A 1 x 1 source raster holding 7 lies in the interior
of a 2 x 2 destination raster (destination pixel (1, 1) is source pixel
(0, 0)); the corner pixel (0, 0), the representative of the only block, is
outside the source.  With `overlap_grid = 1` element 3 of the output keeps
its initial 0; with `overlap_grid = 0` it becomes 7 for `lorder = 0` and the
interpolated value for `lorder = 1`. -/
theorem overlap_grid_equivalence_fails :
    (resample_wcs lanczos_stub (plane_wcs 1 1 0 0) (fun _ => 7) 1 1
        (plane_wcs 2 2 (-1) (-1)) (fun _ => 0) 2 2 1 0).2
      ≠ (resample_wcs lanczos_stub (plane_wcs 1 1 0 0) (fun _ => 7) 1 1
        (plane_wcs 2 2 (-1) (-1)) (fun _ => 0) 2 2 0 0).2
    ∧ (resample_wcs lanczos_stub (plane_wcs 1 1 0 0) (fun _ => 7) 1 1
        (plane_wcs 2 2 (-1) (-1)) (fun _ => 0) 2 2 1 1).2
      ≠ (resample_wcs lanczos_stub (plane_wcs 1 1 0 0) (fun _ => 7) 1 1
        (plane_wcs 2 2 (-1) (-1)) (fun _ => 0) 2 2 0 1).2 := by
  constructor
  · intro h
    exact absurd (congrFun h 3) (by decide!)
  · intro h
    exact absurd (congrFun h 3) (by decide!)

/-- C3. Disjoint coverage.  If the source point-in-image test is false for the
sky position of every destination pixel, then `resample_wcs` with the
overlap grid enabled leaves every element of `outimg` at the value it had
before the call, for every interpolation order. -/
theorem disjoint_coverage {α : Type} (L : ℚ → ℚ → Buf α → Nat → Nat → Int → α)
    (inwcs : anwcs_t) (inimg : Buf α) (inW inH : Nat) (outwcs : anwcs_t)
    (outimg : Buf α) (outW outH : Nat) (overlap_grid lorder : Int)
    (hog : overlap_grid ≠ 0) (h : disjoint_from outwcs inwcs outW outH) :
    (resample_wcs L inwcs inimg inW inH outwcs outimg outW outH overlap_grid lorder).2
      = outimg := by
  unfold resample_wcs
  rw [if_pos hog]
  refine blocks_all_pruned
    (fun i j t => resample_pixel L inwcs inimg inW inH outwcs outW lorder i j t)
    _ 20 _ _ outW outH outimg ?_
  intro bj bi _ _
  show (!(find_overlap_grid 20 outW outH outwcs inwcs).1 _) = true
  rw [find_overlap_grid_disjoint 20 outW outH outwcs inwcs h]
  rfl

theorem plane_disjoint : disjoint_from (plane_wcs 2 2 100 100) (plane_wcs 2 2 0 0) 2 2 := by
  intro i j hi hj ra dec h
  simp only [plane_wcs, Option.some.injEq, Prod.mk.injEq] at h
  obtain ⟨rfl, rfl⟩ := h
  have h3 : (0 : ℚ) ≤ ((i : Int) : ℚ) := by positivity
  simp only [plane_wcs, decide_eq_false_iff_not, not_and, not_le]
  intro _ hle
  push_cast at hle h3
  linarith

/-- Witness for C3: a 2 x 2 destination whose sky positions are shifted by
100 pixels away from the 2 x 2 source. -/
theorem disjoint_coverage_witness :
    disjoint_from (plane_wcs 2 2 100 100) (plane_wcs 2 2 0 0) 2 2 ∧
    (resample_wcs lanczos_stub (plane_wcs 2 2 0 0) (fun n => n.toNat + 10) 2 2
        (plane_wcs 2 2 100 100) (fun _ => 0) 2 2 1 0).2 = (fun _ => 0) :=
  ⟨plane_disjoint,
    disjoint_coverage lanczos_stub (plane_wcs 2 2 0 0) (fun n => n.toNat + 10) 2 2
      (plane_wcs 2 2 100 100) (fun _ => 0) 2 2 1 0 (by decide) plane_disjoint⟩

/-- C4. Bounds respect for order 0.  For every destination pixel (`i`, `j`),
in `resample_wcs` with `lorder = 0` and in `resample_wcs_rgba`: the
destination index lies in `[0, outW*outH)`; a source read happens only at
rounded coordinates (`x`, `y`) with `0 <= x < inW` and `0 <= y < inH`, whose
index `y*inW + x` lies in `[0, inW*inH)`; the interpolation routine is never
used; and when the rounded coordinate falls outside `[0,inW) x [0,inH)` the
pixel is skipped and its destination element keeps its previous value. -/
theorem order0_bounds {α β : Type} (L : ℚ → ℚ → Buf α → Nat → Nat → Int → α)
    (inwcs : anwcs_t) (inimg : Buf α) (inimg4 : Buf β) (inW inH : Nat) (outwcs : anwcs_t)
    (outimg : Buf α) (outimg4 : Buf β) (outW outH : Nat) (overlap_grid : Int)
    (i j : Nat) (hi : i < outW) (hj : j < outH) :
    (0 ≤ (j : Int) * outW + i ∧ (j : Int) * outW + i < (outW : Int) * outH) ∧
    (∀ x y, resample_fetch inwcs inW inH outwcs 0 i j = Fetch.nearest x y →
      (∃ d inx iny,
        outwcs.pixelxy2xyz (((i : Int) + 1 : Int) : ℚ) (((j : Int) + 1 : Int) : ℚ) = some d ∧
        inwcs.xyz2pixelxy d = some (inx, iny) ∧
        x = c_round (inx - 1) ∧ y = c_round (iny - 1)) ∧
      0 ≤ x ∧ x < inW ∧ 0 ≤ y ∧ y < inH ∧
      0 ≤ y * inW + x ∧ y * inW + x < (inW : Int) * inH) ∧
    (∀ a b, resample_fetch inwcs inW inH outwcs 0 i j ≠ Fetch.lanczos a b) ∧
    (∀ d inx iny,
      outwcs.pixelxy2xyz (((i : Int) + 1 : Int) : ℚ) (((j : Int) + 1 : Int) : ℚ) = some d →
      inwcs.xyz2pixelxy d = some (inx, iny) →
      (c_round (inx - 1) < 0 ∨ c_round (inx - 1) ≥ inW ∨
        c_round (iny - 1) < 0 ∨ c_round (iny - 1) ≥ inH) →
      resample_fetch inwcs inW inH outwcs 0 i j = Fetch.skip ∧
      (resample_wcs L inwcs inimg inW inH outwcs outimg outW outH overlap_grid 0).2
          ((j : Int) * outW + i) = outimg ((j : Int) * outW + i)) ∧
    (∀ x y, rgba_fetch inwcs inW inH outwcs i j = some (x, y) →
      (∃ d inx iny,
        outwcs.pixelxy2xyz (((i : Int) + 1 : Int) : ℚ) (((j : Int) + 1 : Int) : ℚ) = some d ∧
        inwcs.xyz2pixelxy d = some (inx, iny) ∧
        x = c_round (inx - 1) ∧ y = c_round (iny - 1)) ∧
      0 ≤ x ∧ x < inW ∧ 0 ≤ y ∧ y < inH ∧
      ∀ c : Int, 0 ≤ c → c < 4 →
        0 ≤ 4 * (y * inW + x) + c ∧ 4 * (y * inW + x) + c < 4 * ((inW : Int) * inH) ∧
        0 ≤ 4 * ((j : Int) * outW + i) + c ∧
        4 * ((j : Int) * outW + i) + c < 4 * ((outW : Int) * outH)) ∧
    (∀ d inx iny,
      outwcs.pixelxy2xyz (((i : Int) + 1 : Int) : ℚ) (((j : Int) + 1 : Int) : ℚ) = some d →
      inwcs.xyz2pixelxy d = some (inx, iny) →
      (c_round (inx - 1) < 0 ∨ c_round (inx - 1) ≥ inW ∨
        c_round (iny - 1) < 0 ∨ c_round (iny - 1) ≥ inH) →
      rgba_fetch inwcs inW inH outwcs i j = none ∧
      ∀ c : Int, 0 ≤ c → c < 4 →
        (resample_wcs_rgba inwcs inimg4 inW inH outwcs outimg4 outW outH).2
            (4 * ((j : Int) * outW + i) + c) = outimg4 (4 * ((j : Int) * outW + i) + c)) := by
  have hdst := pixel_index_lt outW outH i j hi hj
  refine ⟨hdst, ?_, ?_, ?_, ?_, ?_⟩
  · intro x y h
    obtain ⟨_, d, inx, iny, h1, h2, hx, hy, b1, b2, b3, b4⟩ :=
      resample_fetch_nearest_inv inwcs inW inH outwcs 0 i j x y h
    have hsrc := source_index_lt inW inH x y b1 b2 b3 b4
    exact ⟨⟨d, inx, iny, h1, h2, hx, hy⟩, b1, b2, b3, b4, hsrc.1, hsrc.2⟩
  · intro a b h
    exact (resample_fetch_lanczos_inv inwcs inW inH outwcs 0 i j a b h).1 rfl
  · intro d inx iny h1 h2 hout
    have hf : resample_fetch inwcs inW inH outwcs 0 i j = Fetch.skip := by
      rw [resample_fetch_ok inwcs inW inH outwcs 0 i j d inx iny h1 h2, if_pos rfl,
        if_pos hout]
    refine ⟨hf, ?_⟩
    rw [resample_wcs_at L inwcs inimg inW inH outwcs outW outH 0 outimg overlap_grid i j hi hj,
      hf]
    split <;> rfl
  · intro x y h
    obtain ⟨d, inx, iny, h1, h2, hx, hy, b1, b2, b3, b4⟩ :=
      rgba_fetch_inv inwcs inW inH outwcs i j x y h
    have hsrc := source_index_lt inW inH x y b1 b2 b3 b4
    refine ⟨⟨d, inx, iny, h1, h2, hx, hy⟩, b1, b2, b3, b4, ?_⟩
    intro c hc0 hc4
    omega
  · intro d inx iny h1 h2 hout
    have hf : rgba_fetch inwcs inW inH outwcs i j = none := by
      rw [rgba_fetch_ok inwcs inW inH outwcs i j d inx iny h1 h2, if_pos hout]
    refine ⟨hf, ?_⟩
    intro c hc0 hc4
    rw [resample_wcs_rgba_at inwcs inimg4 inW inH outwcs outW outH outimg4 i j hi hj c hc0 hc4,
      hf]
    split <;> rfl

/-- Witness for C4: destination pixel (1, 1) of the 2 x 2 raster that contains
a 1 x 1 source in its interior reads source pixel (0, 0), which is in
bounds. -/
theorem order0_bounds_witness :
    resample_fetch (plane_wcs 1 1 0 0) 1 1 (plane_wcs 2 2 (-1) (-1)) 0 1 1 = Fetch.nearest 0 0 ∧
    ((0 : Int) ≤ 0 ∧ (0 : Int) < (1 : Nat) ∧ (0 : Int) ≤ 0 ∧ (0 : Int) < (1 : Nat) ∧
      (0 : Int) ≤ 0 * (1 : Nat) + 0 ∧ (0 : Int) * (1 : Nat) + 0 < ((1 : Nat) : Int) * (1 : Nat)) :=
  ⟨by decide!,
    ((order0_bounds lanczos_stub (plane_wcs 1 1 0 0) (fun _ => 7) (fun _ => 7) 1 1
      (plane_wcs 2 2 (-1) (-1)) (fun _ => 0) (fun _ => 0) 2 2 1 1 1
      (by decide) (by decide)).2.1 0 0 (by decide!)).2⟩

theorem resample_pixel_congr {α : Type} (L L' : ℚ → ℚ → Buf α → Nat → Nat → Int → α)
    (inwcs : anwcs_t) (inimg : Buf α) (inW inH : Nat) (outwcs : anwcs_t) (outW : Nat)
    (lorder : Int)
    (hagree : ∀ a b : ℚ, -(lorder : ℚ) ≤ a → a < (inW : ℚ) + lorder →
      -(lorder : ℚ) ≤ b → b < (inH : ℚ) + lorder →
      L a b inimg inW inH lorder = L' a b inimg inW inH lorder)
    (i j : Nat) (t : Buf α) :
    resample_pixel L inwcs inimg inW inH outwcs outW lorder i j t
      = resample_pixel L' inwcs inimg inW inH outwcs outW lorder i j t := by
  unfold resample_pixel
  rcases hf : resample_fetch inwcs inW inH outwcs lorder i j with _ | ⟨x, y⟩ | ⟨a, b⟩
  · rfl
  · rfl
  · obtain ⟨_, d, inx, iny, h1, h2, ha, hb, b1, b2, b3, b4⟩ :=
      resample_fetch_lanczos_inv inwcs inW inH outwcs lorder i j a b hf
    push_cast at b1 b2 b3 b4
    dsimp only
    rw [hagree a b b1 b2 b3 b4]

/-- C5. Bounds respect for order `k > 0`.  In `resample_wcs` with
`lorder = k > 0`: when the pixel body reaches the interpolation call for a
destination pixel, its arguments are the zero-based unrounded source
coordinate (`inx`, `iny`) of that pixel, the result of `inx -= 1.0` and
`iny -= 1.0`, that coordinate satisfies `-k <= inx < inW + k` and
`-k <= iny < inH + k`, and the pixel body stores the routine's value; for
every coordinate outside that window the pixel is skipped and the pixel body
returns the buffer unchanged whatever the routine is; no direct source read
happens; and two routines that agree on the window give the same
`resample_wcs`, so the routine is not evaluated outside it. -/
theorem lanczos_bounds {α : Type} (L : ℚ → ℚ → Buf α → Nat → Nat → Int → α)
    (inwcs : anwcs_t) (inimg : Buf α) (inW inH : Nat) (outwcs : anwcs_t) (outW : Nat)
    (lorder : Int) (i j : Nat) (hk : 0 < lorder) :
    (∀ a b, resample_fetch inwcs inW inH outwcs lorder i j = Fetch.lanczos a b →
      (∃ d inx iny,
        outwcs.pixelxy2xyz (((i : Int) + 1 : Int) : ℚ) (((j : Int) + 1 : Int) : ℚ) = some d ∧
        inwcs.xyz2pixelxy d = some (inx, iny) ∧
        a = sub_one_double inx ∧ b = sub_one_double iny) ∧
      (-(lorder : ℚ) ≤ a ∧ a < (inW : ℚ) + lorder ∧
        -(lorder : ℚ) ≤ b ∧ b < (inH : ℚ) + lorder) ∧
      ∀ t : Buf α, resample_pixel L inwcs inimg inW inH outwcs outW lorder i j t
        = t.write ((j : Int) * outW + i) (L a b inimg inW inH lorder)) ∧
    (∀ d inx iny,
      outwcs.pixelxy2xyz (((i : Int) + 1 : Int) : ℚ) (((j : Int) + 1 : Int) : ℚ) = some d →
      inwcs.xyz2pixelxy d = some (inx, iny) →
      (sub_one_double inx < -(lorder : ℚ) ∨ sub_one_double inx ≥ (inW : ℚ) + lorder ∨
        sub_one_double iny < -(lorder : ℚ) ∨ sub_one_double iny ≥ (inH : ℚ) + lorder) →
      resample_fetch inwcs inW inH outwcs lorder i j = Fetch.skip ∧
      ∀ (L' : ℚ → ℚ → Buf α → Nat → Nat → Int → α) (t : Buf α),
        resample_pixel L' inwcs inimg inW inH outwcs outW lorder i j t = t) ∧
    (∀ x y, resample_fetch inwcs inW inH outwcs lorder i j ≠ Fetch.nearest x y) ∧
    (∀ (L' : ℚ → ℚ → Buf α → Nat → Nat → Int → α) (outimg : Buf α) (outH : Nat)
        (overlap_grid : Int),
      (∀ a b : ℚ, -(lorder : ℚ) ≤ a → a < (inW : ℚ) + lorder →
        -(lorder : ℚ) ≤ b → b < (inH : ℚ) + lorder →
        L a b inimg inW inH lorder = L' a b inimg inW inH lorder) →
      resample_wcs L inwcs inimg inW inH outwcs outimg outW outH overlap_grid lorder
        = resample_wcs L' inwcs inimg inW inH outwcs outimg outW outH overlap_grid lorder) := by
  refine ⟨?_, ?_, ?_, ?_⟩
  · intro a b h
    obtain ⟨_, d, inx, iny, h1, h2, ha, hb, b1, b2, b3, b4⟩ :=
      resample_fetch_lanczos_inv inwcs inW inH outwcs lorder i j a b h
    push_cast at b1 b2 b3 b4
    refine ⟨⟨d, inx, iny, h1, h2, ha, hb⟩, ⟨b1, b2, b3, b4⟩, ?_⟩
    intro t
    unfold resample_pixel
    rw [h]
  · intro d inx iny h1 h2 hout
    have hf : resample_fetch inwcs inW inH outwcs lorder i j = Fetch.skip := by
      rw [resample_fetch_ok inwcs inW inH outwcs lorder i j d inx iny h1 h2,
        if_neg (by omega)]
      apply if_pos
      push_cast
      exact hout
    refine ⟨hf, ?_⟩
    intro L' t
    unfold resample_pixel
    rw [hf]
  · intro x y h
    have := (resample_fetch_nearest_inv inwcs inW inH outwcs lorder i j x y h).1
    omega
  · intro L' outimg outH overlap_grid hagree
    unfold resample_wcs resample_blocks
    simp only [resample_pixel_congr L L' inwcs inimg inW inH outwcs outW lorder hagree]

/-- Witness for C5: with order 1, destination pixel (0, 0) has the one-based
source coordinate (`-2^-60`, 0); the subtraction of 1 gives the zero-based
coordinate (-1, -1), inside the extended window of the 1 x 1 source, and the
pixel body stores the value of the routine at (-1, -1). -/
theorem lanczos_bounds_witness :
    (0 : Int) < 1 ∧
    resample_fetch (plane_wcs 1 1 0 0) 1 1 (plane_wcs 2 2 (-1 - 1 / 2 ^ 60) (-1)) 1 0 0
      = Fetch.lanczos (-1) (-1) ∧
    (-(((1 : Int)) : ℚ) ≤ -1 ∧ (-1 : ℚ) < ((1 : Nat) : ℚ) + ((1 : Int) : ℚ) ∧
      -(((1 : Int)) : ℚ) ≤ -1 ∧ (-1 : ℚ) < ((1 : Nat) : ℚ) + ((1 : Int) : ℚ)) ∧
    ∀ t : Buf Nat,
      resample_pixel lanczos_stub (plane_wcs 1 1 0 0) (fun _ => 7) 1 1
          (plane_wcs 2 2 (-1 - 1 / 2 ^ 60) (-1)) 2 1 0 0 t
        = t.write (((0 : Nat) : Int) * (2 : Nat) + (0 : Nat))
            (lanczos_stub (-1) (-1) (fun _ => 7) 1 1 1) :=
  ⟨by decide, by decide!,
    (((lanczos_bounds lanczos_stub (plane_wcs 1 1 0 0) (fun _ => 7) 1 1
      (plane_wcs 2 2 (-1 - 1 / 2 ^ 60) (-1)) 2 1 0 0 (by decide)).1)
      (-1) (-1) (by decide!)).2⟩

/-- C6. Per-pixel miss leaves the output untouched.  For every destination
pixel (`i`, `j`), if the destination pixel-to-direction conversion fails, or
the source direction-to-pixel conversion fails, or the mapped source
coordinate is outside the valid extent (rounded coordinate outside
`[0,inW) x [0,inH)` for `lorder = 0`; unrounded zero-based coordinate, the
result of `inx -= 1.0` and `iny -= 1.0`, outside
`[-lorder, inW+lorder) x [-lorder, inH+lorder)` for `lorder > 0`), then after
`resample_wcs` the element `outimg[j*outW + i]` equals its value before the
call. -/
theorem pixel_miss_untouched {α : Type} (L : ℚ → ℚ → Buf α → Nat → Nat → Int → α)
    (inwcs : anwcs_t) (inimg : Buf α) (inW inH : Nat) (outwcs : anwcs_t)
    (outimg : Buf α) (outW outH : Nat) (overlap_grid lorder : Int)
    (i j : Nat) (hi : i < outW) (hj : j < outH)
    (hmiss :
      outwcs.pixelxy2xyz (((i : Int) + 1 : Int) : ℚ) (((j : Int) + 1 : Int) : ℚ) = none ∨
      (∃ d, outwcs.pixelxy2xyz (((i : Int) + 1 : Int) : ℚ) (((j : Int) + 1 : Int) : ℚ) = some d ∧
        inwcs.xyz2pixelxy d = none) ∨
      (∃ d inx iny,
        outwcs.pixelxy2xyz (((i : Int) + 1 : Int) : ℚ) (((j : Int) + 1 : Int) : ℚ) = some d ∧
        inwcs.xyz2pixelxy d = some (inx, iny) ∧
        ((lorder = 0 ∧
            (c_round (inx - 1) < 0 ∨ c_round (inx - 1) ≥ inW ∨
              c_round (iny - 1) < 0 ∨ c_round (iny - 1) ≥ inH)) ∨
          (0 < lorder ∧
            (sub_one_double inx < -(lorder : ℚ) ∨ sub_one_double inx ≥ (inW : ℚ) + lorder ∨
              sub_one_double iny < -(lorder : ℚ) ∨
              sub_one_double iny ≥ (inH : ℚ) + lorder))))) :
    (resample_wcs L inwcs inimg inW inH outwcs outimg outW outH overlap_grid lorder).2
        ((j : Int) * outW + i)
      = outimg ((j : Int) * outW + i) := by
  have hf : resample_fetch inwcs inW inH outwcs lorder i j = Fetch.skip := by
    rcases hmiss with h | ⟨d, h1, h2⟩ | ⟨d, inx, iny, h1, h2, h3⟩
    · exact resample_fetch_fail_out inwcs inW inH outwcs lorder i j h
    · exact resample_fetch_fail_in inwcs inW inH outwcs lorder i j d h1 h2
    · rw [resample_fetch_ok inwcs inW inH outwcs lorder i j d inx iny h1 h2]
      rcases h3 with ⟨h0, hout⟩ | ⟨hpos, hout⟩
      · rw [if_pos h0, if_pos hout]
      · rw [if_neg (by omega)]
        apply if_pos
        push_cast
        exact hout
  rw [resample_wcs_at L inwcs inimg inW inH outwcs outW outH lorder outimg overlap_grid i j hi hj,
    hf]
  split <;> rfl

/-- Witness for C6: destination pixel (0, 0) of the 2 x 2 raster maps to the
source coordinate (-1, -1), outside the 1 x 1 source, and keeps its 0. -/
theorem pixel_miss_untouched_witness :
    (resample_wcs lanczos_stub (plane_wcs 1 1 0 0) (fun _ => 7) 1 1
        (plane_wcs 2 2 (-1) (-1)) (fun _ => 0) 2 2 0 0).2
        (((0 : Nat) : Int) * (2 : Nat) + (0 : Nat)) = 0 :=
  pixel_miss_untouched lanczos_stub (plane_wcs 1 1 0 0) (fun _ => 7) 1 1
    (plane_wcs 2 2 (-1) (-1)) (fun _ => 0) 2 2 0 0 0 0 (by decide) (by decide)
    (Or.inr (Or.inr ⟨(0, 0, 0), 0, 0, by simp [plane_wcs], by simp [plane_wcs],
      Or.inl ⟨rfl, Or.inl (by decide!)⟩⟩))

/-- The subtraction `inx -= 1.0` is rounded: the one-based coordinate `-2^-60`
becomes -1 and `-1 - 2^-52` becomes -2.  With `lorder = 2` the latter is inside
the window `[-2, inW + 2)`, so the pixel is interpolated and written, although
the exact difference `-2 - 2^-52` is below -2. -/
theorem rounded_subtraction_in_window :
    sub_one_double (-(1 / 2 ^ 60)) = -1 ∧
    sub_one_double (-1 - 1 / 2 ^ 52) = -2 ∧
    resample_fetch (plane_wcs 1 1 0 0) 1 1 (plane_wcs 2 2 (-2 - 1 / 2 ^ 52) 0) 2 0 0
      = Fetch.lanczos (-2) 0 ∧
    (resample_wcs lanczos_stub (plane_wcs 1 1 0 0) (fun _ => 7) 1 1
        (plane_wcs 2 2 (-2 - 1 / 2 ^ 52) 0) (fun _ => 0) 2 2 0 2).2
        (((0 : Nat) : Int) * (2 : Nat) + (0 : Nat)) = 99 := by
  have hf : resample_fetch (plane_wcs 1 1 0 0) 1 1 (plane_wcs 2 2 (-2 - 1 / 2 ^ 52) 0) 2 0 0
      = Fetch.lanczos (-2) 0 := by decide!
  refine ⟨by decide!, by decide!, hf, ?_⟩
  rw [resample_wcs_at lanczos_stub (plane_wcs 1 1 0 0) (fun _ => 7) 1 1
    (plane_wcs 2 2 (-2 - 1 / 2 ^ 52) 0) 2 2 2 (fun _ => 0) 0 0 0 (by decide) (by decide), hf]
  rfl

/-- C7. Dilation monotonicity.  The mask returned by `find_overlap_grid` is the
dilation of the undilated mask, and for every undilated mask of a `BW x BH`
grid every cell that is true before dilation is true afterwards, as is every
cell of the grid that is an 8-connected neighbour of such a cell. -/
theorem dilation_monotone (B outW outH : Nat) (outwcs inwcs : anwcs_t) :
    (find_overlap_grid B outW outH outwcs inwcs).1
      = dilate (ceil_div outW B) (ceil_div outH B)
          (overlap_undilated B outW outH outwcs inwcs (ceil_div outW B) (ceil_div outH B)) ∧
    ∀ (BW BH : Nat) (bib : Buf Bool) (i j : Nat), i < BH → j < BW →
      bib ((i : Int) * BW + j) = true →
      dilate BW BH bib ((i : Int) * BW + j) = true ∧
      ∀ i' j' : Nat, i' < BH → j' < BW → i ≤ i' + 1 → i' ≤ i + 1 → j ≤ j' + 1 → j' ≤ j + 1 →
        dilate BW BH bib ((i' : Int) * BW + j') = true := by
  refine ⟨rfl, ?_⟩
  intro BW BH bib i j hi hj h
  refine ⟨dilate_neighbour BW BH bib i j i j hi hj hi hj (by omega) (by omega) h, ?_⟩
  intro i' j' hi' hj' a1 a2 a3 a4
  exact dilate_neighbour BW BH bib i j i' j' hi hj hi' hj' ⟨a1, a2⟩ ⟨a3, a4⟩ h

/-- Witness for C7: in a 3 x 3 grid whose only true cell is (0, 0), cell
(1, 1) is true after dilation. -/
theorem dilation_monotone_witness :
    dilate 3 3 (fun n => decide (n = 0)) (((1 : Nat) : Int) * (3 : Nat) + (1 : Nat)) = true :=
  ((dilation_monotone 20 0 0 (plane_wcs 0 0 0 0) (plane_wcs 0 0 0 0)).2 3 3
    (fun n => decide (n = 0)) 0 0 (by decide) (by decide) (by decide)).2 1 1
    (by decide) (by decide) (by decide) (by decide) (by decide) (by decide)

/-- C8, failing input.  In the 2 x 2 destination that contains a 1 x 1 source
in its interior, destination pixel (1, 1) maps to source pixel (0, 0),
inside the source raster, and its block (0, 0) is false in the mask
returned by `find_overlap_grid`. -/
theorem overlap_mask_not_conservative :
    resample_fetch (plane_wcs 1 1 0 0) 1 1 (plane_wcs 2 2 (-1) (-1)) 0 1 1 = Fetch.nearest 0 0 ∧
    (find_overlap_grid 20 2 2 (plane_wcs 2 2 (-1) (-1)) (plane_wcs 1 1 0 0)).1
      (((1 / 20 : Nat) : Int)
          * (find_overlap_grid 20 2 2 (plane_wcs 2 2 (-1) (-1)) (plane_wcs 1 1 0 0)).2.1
        + ((1 / 20 : Nat) : Int)) = false := by
  constructor <;> decide!

/-- C9. Per-block classification.  Before dilation, the flag of block (row `i`,
column `j`) of the grid is false when the destination mapping fails to
convert the block's representative pixel (`x = min(outW-1, B*j)`,
`y = min(outH-1, B*i)`, passed one-based), and otherwise equals the source
mapping's point-in-image result for the sky position of that pixel; this
holds for every block whatever the conversions of the other blocks do. -/
theorem per_block_classification (B outW outH : Nat) (outwcs inwcs : anwcs_t)
    (BW BH : Nat) (i j : Nat) (hi : i < BH) (hj : j < BW) :
    overlap_undilated B outW outH outwcs inwcs BW BH ((i : Int) * BW + j)
      = match outwcs.pixelxy2radec
            (((min ((outW : Int) - 1) ((B : Int) * j) + 1 : Int)) : ℚ)
            (((min ((outH : Int) - 1) ((B : Int) * i) + 1 : Int)) : ℚ) with
        | none => false
        | some (ra, dec) => inwcs.radec_is_inside_image ra dec :=
  overlap_undilated_at B outW outH outwcs inwcs BW BH i j hi hj

/-- Witness for C9: the single block of the 2 x 2 destination that contains a
1 x 1 source in its interior is classified false, because its representative
pixel (0, 0) is outside the source. -/
theorem per_block_classification_witness :
    overlap_undilated 20 2 2 (plane_wcs 2 2 (-1) (-1)) (plane_wcs 1 1 0 0) 1 1
        (((0 : Nat) : Int) * (1 : Nat) + (0 : Nat)) = false :=
  (per_block_classification 20 2 2 (plane_wcs 2 2 (-1) (-1)) (plane_wcs 1 1 0 0) 1 1 0 0
    (by decide) (by decide)).trans (by decide!)

/-- In `resample_wcs_rgba`, a destination pixel in a block of the grid that the
mask marks true, whose two conversions succeed and whose rounded zero-based
source location lies in the source raster, receives the four bytes of that
source pixel. -/
theorem rgba_copy_marked {β : Type} (inwcs : anwcs_t) (inimg : Buf β) (inW inH : Nat)
    (outwcs : anwcs_t) (outimg : Buf β) (outW outH : Nat) (i j : Nat) (d : xyz_t)
    (inx iny : ℚ) (hi : i < outW) (hj : j < outH)
    (hmask : block_marked outwcs inwcs outW outH (j / 20) (i / 20) = true)
    (h1 : outwcs.pixelxy2xyz (((i : Int) + 1 : Int) : ℚ) (((j : Int) + 1 : Int) : ℚ) = some d)
    (h2 : inwcs.xyz2pixelxy d = some (inx, iny))
    (b1 : 0 ≤ c_round (inx - 1)) (b2 : c_round (inx - 1) < inW)
    (b3 : 0 ≤ c_round (iny - 1)) (b4 : c_round (iny - 1) < inH)
    (c : Int) (hc0 : 0 ≤ c) (hc4 : c < 4) :
    (resample_wcs_rgba inwcs inimg inW inH outwcs outimg outW outH).2
        (4 * ((j : Int) * outW + i) + c)
      = inimg (4 * (c_round (iny - 1) * inW + c_round (inx - 1)) + c) := by
  rw [resample_wcs_rgba_at inwcs inimg inW inH outwcs outW outH outimg i j hi hj c hc0 hc4,
    if_pos hmask, rgba_fetch_ok inwcs inW inH outwcs i j d inx iny h1 h2,
    if_neg (by omega)]
  rfl

/-- C10, failing input.  A raster of 16777221 x 1 four-byte pixels whose byte at
offset `n` is `n + 10`, resampled onto itself by `resample_wcs_rgba` with the
plane mapping, which sends every pixel to itself, and a destination
initialised to 0.  The single-precision block count is 838861, so the last
pixel, 16777220, lies in no block of the grid: its four bytes keep 0, where
the source holds 67108890 to 67108893. -/
theorem rgba_identity_dropped_wide_raster :
    identity_on (plane_wcs 16777221 1 0 0) 16777221 1 ∧
    (find_overlap_grid 20 16777221 1 (plane_wcs 16777221 1 0 0)
        (plane_wcs 16777221 1 0 0)).2 = (838861, 1) ∧
    (∀ c : Int, 0 ≤ c → c < 4 →
      (resample_wcs_rgba (plane_wcs 16777221 1 0 0) (fun n => n.toNat + 10) 16777221 1
          (plane_wcs 16777221 1 0 0) (fun _ => 0) 16777221 1).2
          (4 * (((0 : Nat) : Int) * (16777221 : Nat) + (16777220 : Nat)) + c) = 0) ∧
    (fun n : Int => n.toNat + 10)
        (4 * (((0 : Nat) : Int) * (16777221 : Nat) + (16777220 : Nat)) + 0) = 67108890 := by
  refine ⟨plane_identity _ _ _ _, by decide!, ?_, by decide⟩
  intro c hc0 hc4
  rw [resample_wcs_rgba_at (plane_wcs 16777221 1 0 0) (fun n => n.toNat + 10) 16777221 1
    (plane_wcs 16777221 1 0 0) 16777221 1 (fun _ => 0) 16777220 0 (by decide) (by decide)
    c hc0 hc4]
  have hs : block_marked (plane_wcs 16777221 1 0 0) (plane_wcs 16777221 1 0 0)
      16777221 1 (0 / 20) (16777220 / 20) = false :=
    block_marked_outside _ _ _ _ _ _ (by decide!)
  rw [hs]
  rfl

/-! ## Claims on return codes, blocks and postconditions -/

theorem resample_wcs_ret {α : Type} (L : ℚ → ℚ → Buf α → Nat → Nat → Int → α)
    (inwcs : anwcs_t) (inimg : Buf α) (inW inH : Nat) (outwcs : anwcs_t)
    (outimg : Buf α) (outW outH : Nat) (overlap_grid lorder : Int) :
    (resample_wcs L inwcs inimg inW inH outwcs outimg outW outH overlap_grid lorder).1 = 0 := by
  unfold resample_wcs
  split <;> rfl

/-- C11. `resample_wcs` and `resample_wcs_rgba` return success (0) for every
input: whatever the conversions, the source coordinates and the block
classification do, the return code is 0. -/
theorem resamplers_return_success {α β : Type}
    (L : ℚ → ℚ → Buf α → Nat → Nat → Int → α)
    (inwcs : anwcs_t) (inimg : Buf α) (inimg4 : Buf β) (inW inH : Nat) (outwcs : anwcs_t)
    (outimg : Buf α) (outimg4 : Buf β) (outW outH : Nat) (overlap_grid lorder : Int) :
    (resample_wcs L inwcs inimg inW inH outwcs outimg outW outH overlap_grid lorder).1 = 0 ∧
    (resample_wcs_rgba inwcs inimg4 inW inH outwcs outimg4 outW outH).1 = 0 :=
  ⟨resample_wcs_ret L inwcs inimg inW inH outwcs outimg outW outH overlap_grid lorder, rfl⟩

/-- The loops of `resample_wcs` are the block loops over the grid of
`find_overlap_grid` with `B = 20` when the overlap grid is requested, and over
the `outW x outH` grid of one-pixel blocks otherwise. -/
theorem resample_wcs_loops {α : Type} (L : ℚ → ℚ → Buf α → Nat → Nat → Int → α)
    (inwcs : anwcs_t) (inimg : Buf α) (inW inH : Nat) (outwcs : anwcs_t)
    (outimg : Buf α) (outW outH : Nat) (lorder : Int) :
    (resample_wcs L inwcs inimg inW inH outwcs outimg outW outH 1 lorder).2
      = block_loops
          (fun i j t => resample_pixel L inwcs inimg inW inH outwcs outW lorder i j t)
          (fun bj bi => !(find_overlap_grid 20 outW outH outwcs inwcs).1
            ((bj : Int) * (find_overlap_grid 20 outW outH outwcs inwcs).2.1 + bi))
          20 (find_overlap_grid 20 outW outH outwcs inwcs).2.1
          (find_overlap_grid 20 outW outH outwcs inwcs).2.2 outW outH outimg ∧
    (resample_wcs L inwcs inimg inW inH outwcs outimg outW outH 0 lorder).2
      = block_loops
          (fun i j t => resample_pixel L inwcs inimg inW inH outwcs outW lorder i j t)
          (fun _ _ => false) 1 outW outH outW outH outimg :=
  ⟨rfl, rfl⟩

/-- The block loops visit a pixel of the raster once when its block is a block
of the grid and is not pruned, and never otherwise: the pixel ranges of the
blocks are pairwise disjoint for every grid. -/
theorem blocks_visit_count (pruned : Nat → Nat → Bool) (B BW BH outW outH i j : Nat)
    (hB : 0 < B) (hi : i < outW) (hj : j < outH) :
    block_loops (count_visit i j) pruned B BW BH outW outH 0
      = if (j / B < BH ∧ i / B < BW) ∧ pruned (j / B) (i / B) = false then 1 else 0 :=
  blocks_at (fun n : Nat => n) (fun n => n + 1) (count_visit i j) pruned B BW BH outW outH
    i j 0 hB hi hj
    (fun i' j' _ _ hne t => by unfold count_visit; rw [if_neg hne])
    (fun t => by unfold count_visit; rw [if_pos ⟨rfl, rfl⟩])

/-- C12, failing input.  For a destination raster of 16777221 x 1 pixels the
grid that `find_overlap_grid` returns, which is the grid of the block loops
of `resample_wcs` with the overlap grid, has 838861 x 1 blocks of 20 pixels,
one column fewer than `ceil(16777221 / 20) = 838862`: the pixel range of its
last block ends at pixel 16777220, so pixel (16777220, 0) lies in no block and
the block loops visit it zero times whatever the mask holds, while the loops
without the overlap grid visit it once. -/
theorem blocks_drop_wide_raster :
    (find_overlap_grid 20 16777221 1 (plane_wcs 16777221 1 0 0)
        (plane_wcs 16777221 1 0 0)).2 = (838861, 1) ∧
    (16777221 + 20 - 1) / 20 = 838862 ∧
    min 16777221 ((838860 + 1) * 20) = 16777220 ∧
    (∀ (L : ℚ → ℚ → Buf Nat → Nat → Nat → Int → Nat) (inimg outimg : Buf Nat) (lorder : Int),
      (resample_wcs L (plane_wcs 16777221 1 0 0) inimg 16777221 1 (plane_wcs 16777221 1 0 0)
          outimg 16777221 1 1 lorder).2
        = block_loops
            (fun i j t => resample_pixel L (plane_wcs 16777221 1 0 0) inimg 16777221 1
              (plane_wcs 16777221 1 0 0) 16777221 lorder i j t)
            (fun bj bi => !(find_overlap_grid 20 16777221 1 (plane_wcs 16777221 1 0 0)
                (plane_wcs 16777221 1 0 0)).1
              ((bj : Int) * (find_overlap_grid 20 16777221 1 (plane_wcs 16777221 1 0 0)
                (plane_wcs 16777221 1 0 0)).2.1 + bi))
            20
            (find_overlap_grid 20 16777221 1 (plane_wcs 16777221 1 0 0)
              (plane_wcs 16777221 1 0 0)).2.1
            (find_overlap_grid 20 16777221 1 (plane_wcs 16777221 1 0 0)
              (plane_wcs 16777221 1 0 0)).2.2 16777221 1 outimg) ∧
    (∀ pruned : Nat → Nat → Bool,
      block_loops (count_visit 16777220 0) pruned 20
        (find_overlap_grid 20 16777221 1 (plane_wcs 16777221 1 0 0)
          (plane_wcs 16777221 1 0 0)).2.1
        (find_overlap_grid 20 16777221 1 (plane_wcs 16777221 1 0 0)
          (plane_wcs 16777221 1 0 0)).2.2 16777221 1 0 = 0) ∧
    block_loops (count_visit 16777220 0) (fun _ _ => false) 1 16777221 1 16777221 1 0 = 1 := by
  refine ⟨by decide!, by decide, by decide, ?_, ?_, ?_⟩
  · intro L inimg outimg lorder
    rfl
  · intro pruned
    rw [blocks_visit_count pruned 20 _ _ 16777221 1 16777220 0 (by decide) (by decide)
      (by decide)]
    exact if_neg (fun h => absurd h.1 (by decide!))
  · rw [blocks_visit_count (fun _ _ => false) 1 16777221 1 16777221 1 16777220 0 (by decide)
      (by decide) (by decide)]
    exact if_pos (by decide)

/-- C15. Nearest-neighbour postcondition.  For `resample_wcs` with `lorder = 0`
and `overlap_grid = 0` and every destination pixel (`i`, `j`), the final
`outimg[j*outW + i]` equals `inimg[y*inW + x]` when both conversions succeed
and `x = round(inx - 1)`, `y = round(iny - 1)` satisfy `0 <= x < inW` and
`0 <= y < inH`, where (`inx`, `iny`) is the one-based source coordinate
returned for the direction of destination pixel (`i+1`, `j+1`); otherwise it
equals the initial `outimg[j*outW + i]`. -/
theorem nearest_postcondition {α : Type} (L : ℚ → ℚ → Buf α → Nat → Nat → Int → α)
    (inwcs : anwcs_t) (inimg : Buf α) (inW inH : Nat) (outwcs : anwcs_t)
    (outimg : Buf α) (outW outH : Nat) (i j : Nat) (hi : i < outW) (hj : j < outH) :
    (resample_wcs L inwcs inimg inW inH outwcs outimg outW outH 0 0).2 ((j : Int) * outW + i)
      = match outwcs.pixelxy2xyz (((i : Int) + 1 : Int) : ℚ) (((j : Int) + 1 : Int) : ℚ) with
        | none => outimg ((j : Int) * outW + i)
        | some d =>
          match inwcs.xyz2pixelxy d with
          | none => outimg ((j : Int) * outW + i)
          | some (inx, iny) =>
            if 0 ≤ c_round (inx - 1) ∧ c_round (inx - 1) < inW ∧
                0 ≤ c_round (iny - 1) ∧ c_round (iny - 1) < inH then
              inimg (c_round (iny - 1) * inW + c_round (inx - 1))
            else outimg ((j : Int) * outW + i) := by
  rw [resample_wcs_at L inwcs inimg inW inH outwcs outW outH 0 outimg 0 i j hi hj]
  have h0 : block_survives outwcs inwcs outW outH 0 i j = true := rfl
  rw [if_pos h0]
  rcases h1 : outwcs.pixelxy2xyz (((i : Int) + 1 : Int) : ℚ) (((j : Int) + 1 : Int) : ℚ)
    with _ | d
  · rw [resample_fetch_fail_out inwcs inW inH outwcs 0 i j h1]
    rfl
  · dsimp only
    rcases h2 : inwcs.xyz2pixelxy d with _ | ⟨inx, iny⟩
    · rw [resample_fetch_fail_in inwcs inW inH outwcs 0 i j d h1 h2]
      rfl
    · rw [resample_fetch_ok inwcs inW inH outwcs 0 i j d inx iny h1 h2, if_pos rfl]
      dsimp only
      by_cases hin : 0 ≤ c_round (inx - 1) ∧ c_round (inx - 1) < inW ∧
          0 ≤ c_round (iny - 1) ∧ c_round (iny - 1) < inH
      · rw [if_neg (by omega), if_pos hin]
        rfl
      · rw [if_pos (by omega), if_neg hin]
        rfl

/-- Witness for C15: the 1 x 1 source holding 7 inside the 2 x 2 destination;
destination pixel (1, 1) receives 7. -/
theorem nearest_postcondition_witness :
    (resample_wcs lanczos_stub (plane_wcs 1 1 0 0) (fun _ => 7) 1 1
        (plane_wcs 2 2 (-1) (-1)) (fun _ => 0) 2 2 0 0).2
        (((1 : Nat) : Int) * (2 : Nat) + (1 : Nat)) = 7 :=
  (nearest_postcondition lanczos_stub (plane_wcs 1 1 0 0) (fun _ => 7) 1 1
    (plane_wcs 2 2 (-1) (-1)) (fun _ => 0) 2 2 1 1 (by decide) (by decide)).trans
    (by decide!)

/-! ## Exactness of the dilation -/

theorem foldl_preserve_mem {σ γ : Type} (Q : σ → Prop) (step : σ → γ → σ) :
    ∀ (l : List γ) (s : σ), Q s → (∀ t x, x ∈ l → Q t → Q (step t x)) →
      Q (l.foldl step s) := by
  intro l
  induction l with
  | nil => intro s hs _; exact hs
  | cons a l ih =>
    intro s hs hstep
    exact ih (step s a) (hstep s a (List.mem_cons_self a l) hs)
      (fun t x hx ht => hstep t x (List.mem_cons_of_mem a hx) ht)

theorem write_true_inv (t : Buf Bool) (k idx : Int) (h : t.write k true idx = true) :
    idx = k ∨ t idx = true := by
  unfold Buf.write at h
  split at h
  · left; assumption
  · right; exact h

theorem dilate_cell_source (BW BH : Nat) (bib : Buf Bool) (i j : Nat) (hi : i < BH)
    (hj : j < BW) (t : Buf Bool)
    (ht : ∀ idx, t idx = true → dilation_source BW BH bib idx) :
    ∀ idx, dilate_cell BW BH bib i j t idx = true → dilation_source BW BH bib idx := by
  unfold dilate_cell
  split
  · exact ht
  · rename_i hb
    have hb' : bib ((i : Int) * BW + j) = true := by
      cases h : bib ((i : Int) * BW + j)
      · rw [h] at hb; exact absurd rfl hb
      · rfl
    refine foldl_preserve_mem
      (fun (b : Buf Bool) => ∀ idx, b idx = true → dilation_source BW BH bib idx)
      _ _ t ht ?_
    intro t1 di hdi h1
    refine foldl_preserve_mem
      (fun (b : Buf Bool) => ∀ idx, b idx = true → dilation_source BW BH bib idx)
      _ _ t1 h1 ?_
    intro t2 dj hdj h2 idx hidx
    rcases write_true_inv t2 _ idx hidx with he | he
    · exact ⟨i, j, di, dj, hi, hj, hb', hdi, hdj, he⟩
    · exact h2 idx he

/-- Every true cell of the dilated mask has a source. -/
theorem dilate_source (BW BH : Nat) (bib : Buf Bool) (idx : Int)
    (h : dilate BW BH bib idx = true) : dilation_source BW BH bib idx := by
  have key : ∀ idx, dilate BW BH bib idx = true → dilation_source BW BH bib idx := by
    unfold dilate
    refine for_range_inv
      (fun (b : Buf Bool) => ∀ idx, b idx = true → dilation_source BW BH bib idx)
      _ 0 BH calloc_bool (fun idx h => by cases h) ?_
    intro i _ hi t ht
    refine for_range_inv
      (fun (b : Buf Bool) => ∀ idx, b idx = true → dilation_source BW BH bib idx)
      _ 0 BW t ht ?_
    intro j _ hj t2 ht2
    exact dilate_cell_source BW BH bib i j hi hj t2 ht2
  exact key idx h

/-- The cells of the dilated mask, exactly. -/
theorem dilate_iff (BW BH : Nat) (bib : Buf Bool) (i j : Nat) (hi : i < BH) (hj : j < BW) :
    dilate BW BH bib ((i : Int) * BW + j) = true ↔
      ∃ i' j' : Nat, i' < BH ∧ j' < BW ∧ i ≤ i' + 1 ∧ i' ≤ i + 1 ∧ j ≤ j' + 1 ∧ j' ≤ j + 1 ∧
        bib ((i' : Int) * BW + j') = true := by
  constructor
  · intro h
    obtain ⟨i', j', di, dj, hi', hj', hb, hdi, hdj, he⟩ := dilate_source BW BH bib _ h
    have hdi' : di = -1 ∨ di = 0 ∨ di = 1 := by simpa using hdi
    have hdj' : dj = -1 ∨ dj = 0 ∨ dj = 1 := by simpa using hdj
    obtain ⟨ci, hci⟩ : ∃ ci : Nat, (ci : Int) = min (max ((i' : Int) + di) 0) ((BH : Int) - 1) :=
      ⟨(min (max ((i' : Int) + di) 0) ((BH : Int) - 1)).toNat, by omega⟩
    obtain ⟨cj, hcj⟩ : ∃ cj : Nat, (cj : Int) = min (max ((j' : Int) + dj) 0) ((BW : Int) - 1) :=
      ⟨(min (max ((j' : Int) + dj) 0) ((BW : Int) - 1)).toNat, by omega⟩
    rw [← hci, ← hcj] at he
    have hcjlt : cj < BW := by omega
    have := pixel_index_inj BW j i cj ci hj hcjlt he
    refine ⟨i', j', hi', hj', ?_, ?_, ?_, ?_, hb⟩ <;> omega
  · rintro ⟨i', j', hi', hj', a1, a2, a3, a4, hb⟩
    exact dilate_neighbour BW BH bib i' j' i j hi' hj' hi hj ⟨a2, a1⟩ ⟨a4, a3⟩ hb

/-- C16. Dilation is exact and order-independent.  Cell (`i`, `j`) of the mask
returned by `find_overlap_grid` is true if and only if some cell (`i'`, `j'`)
of the grid with `|i - i'| <= 1` and `|j - j'| <= 1` is true in the undilated
mask; the same holds for the dilation of every undilated mask, so two
undilated masks that agree on the grid have the same dilation on the grid;
and a mask that is false on the whole grid is dilated to the all-false
mask. -/
theorem dilation_exact (B outW outH : Nat) (outwcs inwcs : anwcs_t) :
    (∀ i j : Nat, i < ceil_div outH B → j < ceil_div outW B →
      ((find_overlap_grid B outW outH outwcs inwcs).1
          ((i : Int) * (find_overlap_grid B outW outH outwcs inwcs).2.1 + j) = true ↔
        ∃ i' j' : Nat, i' < ceil_div outH B ∧ j' < ceil_div outW B ∧
          i ≤ i' + 1 ∧ i' ≤ i + 1 ∧ j ≤ j' + 1 ∧ j' ≤ j + 1 ∧
          overlap_undilated B outW outH outwcs inwcs (ceil_div outW B) (ceil_div outH B)
            ((i' : Int) * (ceil_div outW B : Nat) + j') = true)) ∧
    (∀ (BW BH : Nat) (bib : Buf Bool) (i j : Nat), i < BH → j < BW →
      (dilate BW BH bib ((i : Int) * BW + j) = true ↔
        ∃ i' j' : Nat, i' < BH ∧ j' < BW ∧ i ≤ i' + 1 ∧ i' ≤ i + 1 ∧ j ≤ j' + 1 ∧ j' ≤ j + 1 ∧
          bib ((i' : Int) * BW + j') = true)) ∧
    (∀ (BW BH : Nat) (bib bib' : Buf Bool),
      (∀ i j : Nat, i < BH → j < BW → bib ((i : Int) * BW + j) = bib' ((i : Int) * BW + j)) →
      ∀ i j : Nat, i < BH → j < BW →
        dilate BW BH bib ((i : Int) * BW + j) = dilate BW BH bib' ((i : Int) * BW + j)) ∧
    (∀ (BW BH : Nat) (bib : Buf Bool),
      (∀ i j : Nat, i < BH → j < BW → bib ((i : Int) * BW + j) = false) →
      ∀ idx : Int, dilate BW BH bib idx = false) := by
  refine ⟨?_, ?_, ?_, ?_⟩
  · intro i j hi hj
    exact dilate_iff (ceil_div outW B) (ceil_div outH B) _ i j hi hj
  · intro BW BH bib i j hi hj
    exact dilate_iff BW BH bib i j hi hj
  · intro BW BH bib bib' hagree i j hi hj
    have h1 := dilate_iff BW BH bib i j hi hj
    have h2 := dilate_iff BW BH bib' i j hi hj
    have h3 : dilate BW BH bib ((i : Int) * BW + j) = true ↔
        dilate BW BH bib' ((i : Int) * BW + j) = true := by
      rw [h1, h2]
      constructor
      · rintro ⟨i', j', hi', hj', a1, a2, a3, a4, hb⟩
        exact ⟨i', j', hi', hj', a1, a2, a3, a4, (hagree i' j' hi' hj') ▸ hb⟩
      · rintro ⟨i', j', hi', hj', a1, a2, a3, a4, hb⟩
        exact ⟨i', j', hi', hj', a1, a2, a3, a4, (hagree i' j' hi' hj').symm ▸ hb⟩
    cases hd : dilate BW BH bib ((i : Int) * BW + j) <;>
      cases hd' : dilate BW BH bib' ((i : Int) * BW + j) <;> simp_all
  · intro BW BH bib hfalse idx
    rw [dilate_none BW BH bib hfalse]
    rfl

/-- Witness for C16: in a 3 x 3 grid whose only true cell is the centre
(offset 4), the corner cell (0, 0) is true after dilation. -/
theorem dilation_exact_witness :
    dilate 3 3 (fun n => decide (n = 4)) (((0 : Nat) : Int) * (3 : Nat) + (0 : Nat)) = true :=
  ((dilation_exact 20 0 0 (plane_wcs 0 0 0 0) (plane_wcs 0 0 0 0)).2.1 3 3
    (fun n => decide (n = 4)) 0 0 (by decide) (by decide)).2
    ⟨1, 1, by decide, by decide, by decide, by decide, by decide, by decide, by decide⟩

theorem rgba_fetch_eq (inwcs : anwcs_t) (inW inH : Nat) (outwcs : anwcs_t) (i j : Nat) :
    rgba_fetch inwcs inW inH outwcs i j
      = (resample_fetch inwcs inW inH outwcs 0 i j).pixel := by
  rcases h1 : outwcs.pixelxy2xyz (((i : Int) + 1 : Int) : ℚ) (((j : Int) + 1 : Int) : ℚ)
    with _ | d
  · rw [resample_fetch_fail_out inwcs inW inH outwcs 0 i j h1]
    unfold rgba_fetch
    rw [h1]
    rfl
  · rcases h2 : inwcs.xyz2pixelxy d with _ | ⟨inx, iny⟩
    · rw [resample_fetch_fail_in inwcs inW inH outwcs 0 i j d h1 h2]
      unfold rgba_fetch
      rw [h1]
      simp only [h2]
      rfl
    · rw [resample_fetch_ok inwcs inW inH outwcs 0 i j d inx iny h1 h2,
        rgba_fetch_ok inwcs inW inH outwcs i j d inx iny h1 h2, if_pos rfl]
      split <;> rfl

/-- C17, refutation.  There are no mappings, source size and destination pixel
for which `resample_wcs_rgba` selects a source pixel other than the one
`resample_wcs` with `lorder = 0` selects. -/
theorem rgba_convention_not_distinct :
    ¬ ∃ (inwcs : anwcs_t) (inW inH : Nat) (outwcs : anwcs_t) (i j : Nat),
      rgba_fetch inwcs inW inH outwcs i j
        ≠ (resample_fetch inwcs inW inH outwcs 0 i j).pixel := by
  rintro ⟨inwcs, inW, inH, outwcs, i, j, h⟩
  exact h (rgba_fetch_eq inwcs inW inH outwcs i j)

/-- C17, amended.  The 4-channel path uses the same coordinate convention as
the float path with `lorder = 0`: for every one-based source coordinate
(`inx`, `iny`) returned by the source mapping both select the source pixel
(`round(inx - 1)`, `round(iny - 1)`) and both skip the destination pixel
when it lies outside `[0,inW) x [0,inH)`. -/
theorem rgba_same_convention (inwcs : anwcs_t) (inW inH : Nat) (outwcs : anwcs_t)
    (i j : Nat) :
    rgba_fetch inwcs inW inH outwcs i j
        = (resample_fetch inwcs inW inH outwcs 0 i j).pixel ∧
    ∀ (d : xyz_t) (inx iny : ℚ),
      outwcs.pixelxy2xyz (((i : Int) + 1 : Int) : ℚ) (((j : Int) + 1 : Int) : ℚ) = some d →
      inwcs.xyz2pixelxy d = some (inx, iny) →
      (resample_fetch inwcs inW inH outwcs 0 i j).pixel
          = (if c_round (inx - 1) < 0 ∨ c_round (inx - 1) ≥ inW ∨
                c_round (iny - 1) < 0 ∨ c_round (iny - 1) ≥ inH then none
              else some (c_round (inx - 1), c_round (iny - 1))) ∧
      rgba_fetch inwcs inW inH outwcs i j
          = (if c_round (inx - 1) < 0 ∨ c_round (inx - 1) ≥ inW ∨
                c_round (iny - 1) < 0 ∨ c_round (iny - 1) ≥ inH then none
              else some (c_round (inx - 1), c_round (iny - 1))) := by
  refine ⟨rgba_fetch_eq inwcs inW inH outwcs i j, ?_⟩
  intro d inx iny h1 h2
  have h := rgba_fetch_ok inwcs inW inH outwcs i j d inx iny h1 h2
  exact ⟨(rgba_fetch_eq inwcs inW inH outwcs i j).symm.trans h, h⟩

/-- Witness for the amended C17: the one-based source coordinate (3/2, 3/2) is
rounded to source pixel (1, 1) by both paths. -/
theorem rgba_same_convention_witness :
    rgba_fetch (plane_wcs 2 2 0 0) 2 2 (plane_wcs 2 2 (1 / 2) (1 / 2)) 0 0 = some (1, 1) ∧
    (resample_fetch (plane_wcs 2 2 0 0) 2 2 (plane_wcs 2 2 (1 / 2) (1 / 2)) 0 0 0).pixel
      = some (1, 1) :=
  ⟨by decide!,
    (rgba_same_convention (plane_wcs 2 2 0 0) 2 2 (plane_wcs 2 2 (1 / 2) (1 / 2)) 0
      0).1.symm.trans (by decide!)⟩

/-- In a raster of 16777221 x 41 pixels with the plane mapping, pixel
(16777220, 20) lies in no block of the 838861 x 3 grid: its block column
838861 is not a column of the grid.  The mask offset `1 * BW + 838861`
computed from its block indices is the offset of block (2, 0), which is marked
true, while `resample_wcs` with the overlap grid leaves the pixel at its
initial value and writes it without the grid. -/
theorem mask_offset_outside_grid :
    (find_overlap_grid 20 16777221 41 (plane_wcs 16777221 41 0 0)
        (plane_wcs 16777221 41 0 0)).2 = (838861, 3) ∧
    ¬ (16777220 / 20 < 838861) ∧
    (find_overlap_grid 20 16777221 41 (plane_wcs 16777221 41 0 0)
        (plane_wcs 16777221 41 0 0)).1
      (((20 / 20 : Nat) : Int) * (838861 : Nat) + ((16777220 / 20 : Nat) : Int)) = true ∧
    (resample_wcs lanczos_stub (plane_wcs 16777221 41 0 0) (fun _ => 7) 16777221 41
        (plane_wcs 16777221 41 0 0) (fun _ => 0) 16777221 41 1 0).2
        (((20 : Nat) : Int) * (16777221 : Nat) + (16777220 : Nat)) = 0 ∧
    (resample_wcs lanczos_stub (plane_wcs 16777221 41 0 0) (fun _ => 7) 16777221 41
        (plane_wcs 16777221 41 0 0) (fun _ => 0) 16777221 41 0 0).2
        (((20 : Nat) : Int) * (16777221 : Nat) + (16777220 : Nat)) = 7 := by
  have hW : ceil_div 16777221 20 = 838861 := by decide!
  have hH : ceil_div 41 20 = 3 := by decide!
  refine ⟨by decide!, by decide, ?_, ?_, ?_⟩
  · show dilate (ceil_div 16777221 20) (ceil_div 41 20) _ _ = true
    rw [hW, hH]
    have hidx : ((20 / 20 : Nat) : Int) * (838861 : Nat) + ((16777220 / 20 : Nat) : Int)
        = ((2 : Nat) : Int) * (838861 : Nat) + ((0 : Nat) : Int) := by decide
    rw [hidx]
    refine dilate_neighbour 838861 3 _ 2 0 2 0 (by decide) (by decide) (by decide) (by decide)
      (by decide) (by decide) ?_
    rw [overlap_undilated_at 20 16777221 41 (plane_wcs 16777221 41 0 0)
      (plane_wcs 16777221 41 0 0) 838861 3 2 0 (by decide) (by decide)]
    decide!
  · rw [resample_wcs_at lanczos_stub (plane_wcs 16777221 41 0 0) (fun _ => 7)
      16777221 41 (plane_wcs 16777221 41 0 0) 16777221 41 0 (fun _ => 0) 1 16777220 20
      (by decide) (by decide)]
    have hs : block_survives (plane_wcs 16777221 41 0 0) (plane_wcs 16777221 41 0 0)
        16777221 41 1 16777220 20 = false := by
      unfold block_survives
      rw [if_pos (by decide)]
      exact block_marked_outside _ _ _ _ _ _ (by decide!)
    rw [hs]
    rfl
  · rw [resample_wcs_at lanczos_stub (plane_wcs 16777221 41 0 0) (fun _ => 7)
      16777221 41 (plane_wcs 16777221 41 0 0) 16777221 41 0 (fun _ => 0) 0 16777220 20
      (by decide) (by decide)]
    have hs : block_survives (plane_wcs 16777221 41 0 0) (plane_wcs 16777221 41 0 0)
        16777221 41 0 16777220 20 = true := rfl
    rw [if_pos hs, resample_fetch_identity (plane_wcs 16777221 41 0 0) 16777221 41
      (plane_identity _ _ _ _) 16777220 20 (by decide) (by decide)]
    rfl

/-- C18. Pruning only removes writes.  For every input and every destination
pixel (`i`, `j`) lying in a block of the grid, block (`j / 20`, `i / 20`): if
the mask of `find_overlap_grid` marks that block true, the output of
`resample_wcs` with `overlap_grid = 1` agrees at the pixel with the output
for `overlap_grid = 0`; if the mask marks the block false, the output for
`overlap_grid = 1` holds the initial `outimg` value there.  A pixel that lies
in no block of the grid also keeps its initial value. -/
theorem pruning_only_removes_writes {α : Type}
    (L : ℚ → ℚ → Buf α → Nat → Nat → Int → α)
    (inwcs : anwcs_t) (inimg : Buf α) (inW inH : Nat) (outwcs : anwcs_t)
    (outimg : Buf α) (outW outH : Nat) (lorder : Int) (i j : Nat)
    (hi : i < outW) (hj : j < outH) :
    (j / 20 < (find_overlap_grid 20 outW outH outwcs inwcs).2.2 ∧
        i / 20 < (find_overlap_grid 20 outW outH outwcs inwcs).2.1 →
      (find_overlap_grid 20 outW outH outwcs inwcs).1
        (((j / 20 : Nat) : Int) * (find_overlap_grid 20 outW outH outwcs inwcs).2.1
          + ((i / 20 : Nat) : Int)) = true →
      (resample_wcs L inwcs inimg inW inH outwcs outimg outW outH 1 lorder).2
          ((j : Int) * outW + i)
        = (resample_wcs L inwcs inimg inW inH outwcs outimg outW outH 0 lorder).2
          ((j : Int) * outW + i)) ∧
    (j / 20 < (find_overlap_grid 20 outW outH outwcs inwcs).2.2 ∧
        i / 20 < (find_overlap_grid 20 outW outH outwcs inwcs).2.1 →
      (find_overlap_grid 20 outW outH outwcs inwcs).1
        (((j / 20 : Nat) : Int) * (find_overlap_grid 20 outW outH outwcs inwcs).2.1
          + ((i / 20 : Nat) : Int)) = false →
      (resample_wcs L inwcs inimg inW inH outwcs outimg outW outH 1 lorder).2
          ((j : Int) * outW + i)
        = outimg ((j : Int) * outW + i)) ∧
    (¬ (j / 20 < (find_overlap_grid 20 outW outH outwcs inwcs).2.2 ∧
        i / 20 < (find_overlap_grid 20 outW outH outwcs inwcs).2.1) →
      (resample_wcs L inwcs inimg inW inH outwcs outimg outW outH 1 lorder).2
          ((j : Int) * outW + i)
        = outimg ((j : Int) * outW + i)) := by
  rw [resample_wcs_at L inwcs inimg inW inH outwcs outW outH lorder outimg 1 i j hi hj,
    resample_wcs_at L inwcs inimg inW inH outwcs outW outH lorder outimg 0 i j hi hj]
  have h0 : block_survives outwcs inwcs outW outH 0 i j = true := rfl
  have h1 : block_survives outwcs inwcs outW outH 1 i j
      = block_marked outwcs inwcs outW outH (j / 20) (i / 20) := rfl
  rw [if_pos h0, h1]
  refine ⟨?_, ?_, ?_⟩
  · intro hin h
    rw [block_marked_inside outwcs inwcs outW outH _ _ hin, if_pos h]
  · intro hin h
    rw [block_marked_inside outwcs inwcs outW outH _ _ hin,
      if_neg (by rw [h]; exact Bool.false_ne_true)]
  · intro hout
    rw [block_marked_outside outwcs inwcs outW outH _ _ hout,
      if_neg Bool.false_ne_true]

/-- Witness for C18: the 1 x 1 source inside the 2 x 2 destination; the only
block is marked false and pixel (1, 1) keeps its initial 0 with the overlap
grid. -/
theorem pruning_only_removes_writes_witness :
    (resample_wcs lanczos_stub (plane_wcs 1 1 0 0) (fun _ => 7) 1 1
        (plane_wcs 2 2 (-1) (-1)) (fun _ => 0) 2 2 1 0).2
        (((1 : Nat) : Int) * (2 : Nat) + (1 : Nat)) = 0 :=
  (pruning_only_removes_writes lanczos_stub (plane_wcs 1 1 0 0) (fun _ => 7) 1 1
    (plane_wcs 2 2 (-1) (-1)) (fun _ => 0) 2 2 0 1 1 (by decide) (by decide)).2.1
    (by decide!) (by decide!)

theorem fetch_value_idem {α : Type} (L : ℚ → ℚ → Buf α → Nat → Nat → Int → α)
    (inimg : Buf α) (inW inH : Nat) (lorder : Int) (fe : Fetch) (old : α) :
    fetch_value L inimg inW inH lorder fe (fetch_value L inimg inW inH lorder fe old)
      = fetch_value L inimg inW inH lorder fe old := by
  cases fe <;> rfl

/-- C19. Idempotence on the destination buffer.  Calling `resample_wcs` a
second time with the same mappings, source raster, `overlap_grid` and
`lorder` on the destination raster produced by the first call leaves that
raster unchanged. -/
theorem resample_idempotent {α : Type} (L : ℚ → ℚ → Buf α → Nat → Nat → Int → α)
    (inwcs : anwcs_t) (inimg : Buf α) (inW inH : Nat) (outwcs : anwcs_t)
    (outimg : Buf α) (outW outH : Nat) (overlap_grid lorder : Int) :
    (resample_wcs L inwcs inimg inW inH outwcs
        (resample_wcs L inwcs inimg inW inH outwcs outimg outW outH overlap_grid lorder).2
        outW outH overlap_grid lorder).2
      = (resample_wcs L inwcs inimg inW inH outwcs outimg outW outH overlap_grid lorder).2 := by
  funext idx
  by_cases hex : ∃ i j : Nat, i < outW ∧ j < outH ∧ idx = (j : Int) * outW + i
  · obtain ⟨i, j, hi, hj, rfl⟩ := hex
    rw [resample_wcs_at L inwcs inimg inW inH outwcs outW outH lorder _ overlap_grid i j hi hj]
    split
    · rename_i hs
      rw [resample_wcs_at L inwcs inimg inW inH outwcs outW outH lorder outimg overlap_grid
        i j hi hj, if_pos hs]
      exact fetch_value_idem L inimg inW inH lorder _ _
    · rfl
  · have hout : ∀ i j : Nat, i < outW → j < outH → idx ≠ (j : Int) * outW + i :=
      fun i j hi hj he => hex ⟨i, j, hi, hj, he⟩
    rw [resample_wcs_outside L inwcs inimg inW inH outwcs outW outH lorder _ overlap_grid idx
      hout]

/-! ## The block counts and the representative pixel -/

theorem lt_ceil_div (n B j : Nat) (hn : n < 2 ^ 24) (hB : 1 ≤ B) (h : j < ceil_div n B) :
    B * j < n := by
  rw [ceil_div_exact n B hn hB] at h
  have h1 : (j + 1) * B ≤ n + B - 1 := (Nat.le_div_iff_mul_le hB).1 h
  rw [Nat.add_mul, Nat.mul_comm j B] at h1
  omega

theorem ceil_div_cover (n B : Nat) (hn : n < 2 ^ 24) (hB : 1 ≤ B) : n ≤ ceil_div n B * B := by
  rw [ceil_div_exact n B hn hB]
  have h1 := Nat.div_add_mod (n + B - 1) B
  have h2 := Nat.mod_lt (n + B - 1) hB
  rw [Nat.mul_comm] at h1
  omega

theorem ceil_div_eq_ceil (n B : Nat) (hn : n < 2 ^ 24) (hB : 1 ≤ B) :
    ((ceil_div n B : Nat) : Int) = ⌈(n : ℚ) / (B : ℚ)⌉ := by
  symm
  rw [Int.ceil_eq_iff]
  have hBq : (0 : ℚ) < B := by exact_mod_cast hB
  have h1 : n ≤ ceil_div n B * B := ceil_div_cover n B hn hB
  have h2 : ceil_div n B * B < n + B := by
    rw [ceil_div_exact n B hn hB]
    have := Nat.div_mul_le_self (n + B - 1) B
    omega
  have h1q : (n : ℚ) ≤ (ceil_div n B : ℚ) * B := by exact_mod_cast h1
  have h2q : (ceil_div n B : ℚ) * B < n + B := by exact_mod_cast h2
  constructor
  · rw [lt_div_iff₀ hBq]
    push_cast
    linarith
  · rw [div_le_iff₀ hBq]
    push_cast
    exact h1q

/-- For rasters of fewer than `2^24` pixels a side, the block counts of
`find_overlap_grid` are the exact ceilings, every block (`i`, `j`) of the grid
has `B*i <= outH - 1` and `B*j <= outW - 1`, and its representative pixel is
(`B*j`, `B*i`), inside the destination raster. -/
theorem representative_unclamped (B outW outH : Nat) (outwcs inwcs : anwcs_t)
    (hW : outW < 2 ^ 24) (hH : outH < 2 ^ 24) (hB : 1 ≤ B) (i j : Nat)
    (hi : i < ceil_div outH B) (hj : j < ceil_div outW B) :
    (((ceil_div outW B : Nat) : Int) = ⌈(outW : ℚ) / (B : ℚ)⌉ ∧
      ((ceil_div outH B : Nat) : Int) = ⌈(outH : ℚ) / (B : ℚ)⌉) ∧
    (B * i ≤ outH - 1 ∧ B * j ≤ outW - 1) ∧
    (min ((outW : Int) - 1) ((B : Int) * j) = (B : Int) * j ∧
      min ((outH : Int) - 1) ((B : Int) * i) = (B : Int) * i) ∧
    (B * j < outW ∧ B * i < outH) ∧
    block_flag B outW outH outwcs inwcs i j
      = (match outwcs.pixelxy2radec ((((B : Int) * j + 1 : Int)) : ℚ)
            ((((B : Int) * i + 1 : Int)) : ℚ) with
        | none => false
        | some (ra, dec) => inwcs.radec_is_inside_image ra dec) := by
  have hjl := lt_ceil_div outW B j hW hB hj
  have hil := lt_ceil_div outH B i hH hB hi
  have hjI : (B : Int) * j < outW := by exact_mod_cast hjl
  have hiI : (B : Int) * i < outH := by exact_mod_cast hil
  have e1 : min ((outW : Int) - 1) ((B : Int) * j) = (B : Int) * j := by omega
  have e2 : min ((outH : Int) - 1) ((B : Int) * i) = (B : Int) * i := by omega
  refine ⟨⟨ceil_div_eq_ceil outW B hW hB, ceil_div_eq_ceil outH B hH hB⟩,
    ⟨by omega, by omega⟩, ⟨e1, e2⟩, ⟨hjl, hil⟩, ?_⟩
  unfold block_flag
  rw [e1, e2]

/-- For rasters of fewer than `2^24` pixels a side, the block of every
destination pixel is a block of the grid of `find_overlap_grid`. -/
theorem pixel_in_grid (outwcs inwcs : anwcs_t) (outW outH : Nat)
    (hW : outW < 2 ^ 24) (hH : outH < 2 ^ 24) (i j : Nat) (hi : i < outW) (hj : j < outH) :
    j / 20 < (find_overlap_grid 20 outW outH outwcs inwcs).2.2 ∧
      i / 20 < (find_overlap_grid 20 outW outH outwcs inwcs).2.1 :=
  ⟨block_lt 20 outH _ j hj (ceil_div_cover outH 20 hH (by decide)),
    block_lt 20 outW _ i hi (ceil_div_cover outW 20 hW (by decide))⟩

/-- For rasters of fewer than `2^24` pixels a side, the mask of
`find_overlap_grid` marks the block of every pixel when the source and
destination mappings are one mapping that sends every pixel to itself. -/
theorem find_overlap_grid_identity (w : anwcs_t) (W H : Nat) (h : identity_on w W H)
    (hW : W < 2 ^ 24) (hH : H < 2 ^ 24) (i j : Nat) (hi : i < W) (hj : j < H) :
    block_marked w w W H (j / 20) (i / 20) = true := by
  rw [block_marked_inside w w W H _ _ (pixel_in_grid w w W H hW hH i j hi hj)]
  show dilate (ceil_div W 20) (ceil_div H 20) _
    (((j / 20 : Nat) : Int) * (ceil_div W 20 : Nat) + ((i / 20 : Nat) : Int)) = true
  have hbj : j / 20 < ceil_div H 20 := block_lt 20 H _ j hj (ceil_div_cover H 20 hH (by decide))
  have hbi : i / 20 < ceil_div W 20 := block_lt 20 W _ i hi (ceil_div_cover W 20 hW (by decide))
  refine dilate_neighbour _ _ _ (j / 20) (i / 20) (j / 20) (i / 20) hbj hbi hbj hbi
    (by omega) (by omega) ?_
  rw [overlap_undilated_at 20 W H w w _ _ (j / 20) (i / 20) hbj hbi]
  rw [block_flag_rep 20 W H w w (j / 20) (i / 20) (20 * (i / 20)) (20 * (j / 20))
    (by push_cast; omega) (by push_cast; omega)]
  obtain ⟨ra, dec, h1, h2⟩ := (h (20 * (i / 20)) (20 * (j / 20)) (by omega) (by omega)).2
  rw [h1]
  exact h2

/-- For rasters of fewer than `2^24` pixels a side, `resample_wcs` with
`lorder = 0`, equal source and destination sizes and one mapping that sends
every pixel to itself copies the source raster, with and without the overlap
grid. -/
theorem identity_mapping_small {α : Type} (L : ℚ → ℚ → Buf α → Nat → Nat → Int → α)
    (w : anwcs_t) (inimg outimg : Buf α) (W H : Nat) (overlap_grid : Int)
    (h : identity_on w W H) (hW : W < 2 ^ 24) (hH : H < 2 ^ 24)
    (i j : Nat) (hi : i < W) (hj : j < H) :
    (resample_wcs L w inimg W H w outimg W H overlap_grid 0).2 ((j : Int) * W + i)
      = inimg ((j : Int) * W + i) := by
  rw [resample_wcs_at L w inimg W H w W H 0 outimg overlap_grid i j hi hj]
  have hs : block_survives w w W H overlap_grid i j = true := by
    unfold block_survives
    split
    · exact find_overlap_grid_identity w W H h hW hH i j hi hj
    · rfl
  rw [if_pos hs, resample_fetch_identity w W H h i j hi hj]
  rfl

/-- For rasters of fewer than `2^24` pixels a side, `resample_wcs_rgba` with
equal source and destination sizes and one mapping that sends every pixel to
itself gives an output whose every byte equals the byte of the source at the
same offset. -/
theorem rgba_identity_small {β : Type} (w : anwcs_t) (inimg outimg : Buf β) (W H : Nat)
    (h : identity_on w W H) (hW : W < 2 ^ 24) (hH : H < 2 ^ 24)
    (idx : Int) (h0 : 0 ≤ idx) (h4 : idx < 4 * ((W : Int) * H)) :
    (resample_wcs_rgba w inimg W H w outimg W H).2 idx = inimg idx := by
  have hWpos : 0 < W := by
    rcases Nat.eq_zero_or_pos W with h | h
    · subst h; simp at h4; omega
    · exact h
  obtain ⟨p, c, hp, hc0, hc4⟩ : ∃ p c : Int, idx = 4 * p + c ∧ 0 ≤ c ∧ c < 4 :=
    ⟨idx / 4, idx % 4, by omega, by omega, by omega⟩
  have hp0 : 0 ≤ p := by omega
  have hpl : p < (W : Int) * H := by omega
  lift p to Nat using hp0
  have hpl' : p < W * H := by exact_mod_cast hpl
  have hi : p % W < W := Nat.mod_lt p hWpos
  have hj : p / W < H := Nat.div_lt_of_lt_mul hpl'
  have hpe : (p : Int) = ((p / W : Nat) : Int) * W + ((p % W : Nat) : Int) := by
    have := Nat.div_add_mod p W
    rw [Nat.mul_comm] at this
    exact_mod_cast this.symm
  rw [hp, hpe,
    resample_wcs_rgba_at w inimg W H w W H outimg (p % W) (p / W) hi hj c hc0 hc4,
    if_pos (find_overlap_grid_identity w W H h hW hH (p % W) (p / W) hi hj),
    rgba_fetch_identity w W H h (p % W) (p / W) hi hj]
  rfl

/-- C20, failing input.  For a destination raster of 67108940 x 1 pixels and
`B = 20`, `find_overlap_grid` returns a grid of 3355448 x 1 blocks, one column
more than `ceil(67108940 / 20) = 3355447`.  Block (0, 3355447) is a block of
that grid with `B*j = 67108940 > outW - 1`: the clamp takes effect, the
representative pixel is pixel 67108939, the last pixel of block column
3355446, and with the plane mapping the flag of the block is computed true
from that pixel where the sky position of pixel `B*j` is outside the image. -/
theorem clamp_takes_effect_wide_raster :
    (find_overlap_grid 20 67108940 1 (plane_wcs 67108940 1 0 0)
        (plane_wcs 67108940 1 0 0)).2 = (3355448, 1) ∧
    (67108940 + 20 - 1) / 20 = 3355447 ∧
    (3355447 < (find_overlap_grid 20 67108940 1 (plane_wcs 67108940 1 0 0)
        (plane_wcs 67108940 1 0 0)).2.1 ∧
      0 < (find_overlap_grid 20 67108940 1 (plane_wcs 67108940 1 0 0)
        (plane_wcs 67108940 1 0 0)).2.2) ∧
    ¬ (20 * 3355447 ≤ 67108940 - 1) ∧
    min (((67108940 : Nat) : Int) - 1) (((20 : Nat) : Int) * ((3355447 : Nat) : Int))
      = 67108939 ∧
    overlap_undilated 20 67108940 1 (plane_wcs 67108940 1 0 0) (plane_wcs 67108940 1 0 0)
        3355448 1 (((0 : Nat) : Int) * (3355448 : Nat) + (3355447 : Nat)) = true ∧
    (match (plane_wcs 67108940 1 0 0).pixelxy2radec
          ((((20 : Nat) : Int) * ((3355447 : Nat) : Int) + 1 : Int) : ℚ)
          ((((20 : Nat) : Int) * ((0 : Nat) : Int) + 1 : Int) : ℚ) with
      | none => false
      | some (ra, dec) => (plane_wcs 67108940 1 0 0).radec_is_inside_image ra dec)
      = false := by
  refine ⟨by decide!, by decide, by decide!, by decide, by decide, ?_, by decide!⟩
  rw [overlap_undilated_at 20 67108940 1 (plane_wcs 67108940 1 0 0) (plane_wcs 67108940 1 0 0)
    3355448 1 0 3355447 (by decide) (by decide)]
  decide!

/-! ## The file wrapper -/

section Files

variable (R : anwcs_t → Buf ℚ → Nat → Nat → anwcs_t → Buf ℚ → Nat → Nat → Int → Int →
    Int × Buf ℚ)
  (S : fits_services) (infitsfn : String) (infitsext : Int)
  (inwcsfn : String) (inwcsext : Int) (outwcsfn : String) (outwcsext : Int)
  (outfitsfn : String) (lorder : Int)

/-- The wrapper after its four input steps have succeeded. -/
theorem resample_wcs_files_with_ok (inwcs outwcs : anwcs_t) (inW inH : Nat) (inimg : Buf ℚ)
    (h1 : S.anwcs_open inwcsfn inwcsext = some inwcs)
    (h2 : S.anwcs_open outwcsfn outwcsext = some outwcs)
    (h3 : S.qfitsloader_init infitsfn infitsext = some (inW, inH))
    (h4 : S.qfits_loadpix infitsfn infitsext = some inimg) :
    resample_wcs_files_with R S infitsfn infitsext inwcsfn inwcsext outwcsfn outwcsext
        outfitsfn lorder
      = resample_wcs_files_finish S outfitsfn outwcs (S.anwcs_imagew outwcs)
          (S.anwcs_imageh outwcs)
          (R inwcs inimg inW inH outwcs (fun _ => 0) (S.anwcs_imagew outwcs)
            (S.anwcs_imageh outwcs) 1 lorder) := by
  unfold resample_wcs_files_with
  rw [h1]
  dsimp only
  rw [h2]
  dsimp only
  rw [h3]
  dsimp only
  rw [h4]

/-- The wrapper's result once the resampler has returned 0. -/
theorem resample_wcs_files_finish_ok (outwcs : anwcs_t) (outW outH : Nat) (r : Int × Buf ℚ)
    (hr : r.1 = 0) :
    ∃ req : write_request,
      (resample_wcs_files_finish S outfitsfn outwcs outW outH r).2 = some req ∧
      req.filename = outfitsfn ∧ req.npix = outW * outH ∧ req.fbuf = r.2 ∧
      req.width = outW ∧
      (S.fits_write_header_and_image req ≠ 0 →
        (resample_wcs_files_finish S outfitsfn outwcs outW outH r).1 = -1) ∧
      (S.fits_write_header_and_image req = 0 →
        (resample_wcs_files_finish S outfitsfn outwcs outW outH r).1 = 0) := by
  unfold resample_wcs_files_finish
  rw [if_neg (by rw [hr]; exact fun h => h rfl)]
  dsimp only
  split
  · rename_i hw
    exact ⟨_, rfl, rfl, rfl, rfl, rfl, fun _ => rfl, fun h => absurd h hw⟩
  · rename_i hw
    exact ⟨_, rfl, rfl, rfl, rfl, rfl, fun h => absurd h hw, fun _ => rfl⟩

end Files

/-- C13. Structural failure in `resample_wcs_files`.  For every resampler the
wrapper could call: it returns -1 without invoking the output writer if
opening the source mapping fails, opening the destination mapping fails,
initialising the loader or loading the source raster fails, or the resampler
returns non-zero; when these steps succeed the writer is invoked once and the
wrapper returns -1 if the writer fails and 0 otherwise.  With `resample_wcs`,
the resampler of the source, the same holds and the resampler never
fails. -/
theorem files_structural_failure
    (R : anwcs_t → Buf ℚ → Nat → Nat → anwcs_t → Buf ℚ → Nat → Nat → Int → Int → Int × Buf ℚ)
    (L : ℚ → ℚ → Buf ℚ → Nat → Nat → Int → ℚ)
    (S : fits_services) (infitsfn : String) (infitsext : Int)
    (inwcsfn : String) (inwcsext : Int) (outwcsfn : String) (outwcsext : Int)
    (outfitsfn : String) (lorder : Int) :
    (S.anwcs_open inwcsfn inwcsext = none →
      resample_wcs_files_with R S infitsfn infitsext inwcsfn inwcsext outwcsfn outwcsext
        outfitsfn lorder = (-1, none)) ∧
    (∀ inwcs, S.anwcs_open inwcsfn inwcsext = some inwcs →
      S.anwcs_open outwcsfn outwcsext = none →
      resample_wcs_files_with R S infitsfn infitsext inwcsfn inwcsext outwcsfn outwcsext
        outfitsfn lorder = (-1, none)) ∧
    (∀ inwcs outwcs, S.anwcs_open inwcsfn inwcsext = some inwcs →
      S.anwcs_open outwcsfn outwcsext = some outwcs →
      S.qfitsloader_init infitsfn infitsext = none →
      resample_wcs_files_with R S infitsfn infitsext inwcsfn inwcsext outwcsfn outwcsext
        outfitsfn lorder = (-1, none)) ∧
    (∀ inwcs outwcs inW inH, S.anwcs_open inwcsfn inwcsext = some inwcs →
      S.anwcs_open outwcsfn outwcsext = some outwcs →
      S.qfitsloader_init infitsfn infitsext = some (inW, inH) →
      S.qfits_loadpix infitsfn infitsext = none →
      resample_wcs_files_with R S infitsfn infitsext inwcsfn inwcsext outwcsfn outwcsext
        outfitsfn lorder = (-1, none)) ∧
    (∀ inwcs outwcs inW inH inimg, S.anwcs_open inwcsfn inwcsext = some inwcs →
      S.anwcs_open outwcsfn outwcsext = some outwcs →
      S.qfitsloader_init infitsfn infitsext = some (inW, inH) →
      S.qfits_loadpix infitsfn infitsext = some inimg →
      ((R inwcs inimg inW inH outwcs (fun _ => 0) (S.anwcs_imagew outwcs)
          (S.anwcs_imageh outwcs) 1 lorder).1 ≠ 0 →
        resample_wcs_files_with R S infitsfn infitsext inwcsfn inwcsext outwcsfn outwcsext
          outfitsfn lorder = (-1, none)) ∧
      ((R inwcs inimg inW inH outwcs (fun _ => 0) (S.anwcs_imagew outwcs)
          (S.anwcs_imageh outwcs) 1 lorder).1 = 0 →
        ∃ req : write_request,
          (resample_wcs_files_with R S infitsfn infitsext inwcsfn inwcsext outwcsfn
            outwcsext outfitsfn lorder).2 = some req ∧
          (S.fits_write_header_and_image req ≠ 0 →
            (resample_wcs_files_with R S infitsfn infitsext inwcsfn inwcsext outwcsfn
              outwcsext outfitsfn lorder).1 = -1) ∧
          (S.fits_write_header_and_image req = 0 →
            (resample_wcs_files_with R S infitsfn infitsext inwcsfn inwcsext outwcsfn
              outwcsext outfitsfn lorder).1 = 0)) ∧
      ∃ req : write_request,
        (resample_wcs_files L S infitsfn infitsext inwcsfn inwcsext outwcsfn outwcsext
          outfitsfn lorder).2 = some req ∧
        (S.fits_write_header_and_image req ≠ 0 →
          (resample_wcs_files L S infitsfn infitsext inwcsfn inwcsext outwcsfn outwcsext
            outfitsfn lorder).1 = -1) ∧
        (S.fits_write_header_and_image req = 0 →
          (resample_wcs_files L S infitsfn infitsext inwcsfn inwcsext outwcsfn outwcsext
            outfitsfn lorder).1 = 0)) := by
  refine ⟨?_, ?_, ?_, ?_, ?_⟩
  · intro h1
    unfold resample_wcs_files_with
    rw [h1]
  · intro inwcs h1 h2
    unfold resample_wcs_files_with
    rw [h1]
    dsimp only
    rw [h2]
  · intro inwcs outwcs h1 h2 h3
    unfold resample_wcs_files_with
    rw [h1]
    dsimp only
    rw [h2]
    dsimp only
    rw [h3]
  · intro inwcs outwcs inW inH h1 h2 h3 h4
    unfold resample_wcs_files_with
    rw [h1]
    dsimp only
    rw [h2]
    dsimp only
    rw [h3]
    dsimp only
    rw [h4]
  · intro inwcs outwcs inW inH inimg h1 h2 h3 h4
    have hR := resample_wcs_files_with_ok R S infitsfn infitsext inwcsfn inwcsext outwcsfn
      outwcsext outfitsfn lorder inwcs outwcs inW inH inimg h1 h2 h3 h4
    have hL := resample_wcs_files_with_ok (resample_wcs L) S infitsfn infitsext inwcsfn
      inwcsext outwcsfn outwcsext outfitsfn lorder inwcs outwcs inW inH inimg h1 h2 h3 h4
    refine ⟨?_, ?_, ?_⟩
    · intro hne
      rw [hR]
      unfold resample_wcs_files_finish
      rw [if_pos hne]
    · intro h0
      rw [hR]
      obtain ⟨req, e1, _, _, _, _, e2, e3⟩ := resample_wcs_files_finish_ok S outfitsfn outwcs
        (S.anwcs_imagew outwcs) (S.anwcs_imageh outwcs) _ h0
      exact ⟨req, e1, e2, e3⟩
    · unfold resample_wcs_files
      rw [hL]
      obtain ⟨req, e1, _, _, _, _, e2, e3⟩ := resample_wcs_files_finish_ok S outfitsfn outwcs
        (S.anwcs_imagew outwcs) (S.anwcs_imageh outwcs) _
        (resample_wcs_ret L inwcs inimg inW inH outwcs (fun _ => 0) (S.anwcs_imagew outwcs)
          (S.anwcs_imageh outwcs) 1 lorder)
      exact ⟨req, e1, e2, e3⟩

/-- Witness for C13: with services whose destination mapping file cannot be
opened (the source mapping file `in.wcs` can), the wrapper returns -1 and
does not invoke the writer. -/
theorem files_structural_failure_witness :
    resample_wcs_files_with (resample_wcs lanczos_stub_q) no_out_services
        "in.fits" 0 "in.wcs" 0 "out.wcs" 0 "out.fits" 0
      = (-1, none) :=
  (files_structural_failure (resample_wcs lanczos_stub_q) lanczos_stub_q no_out_services
    "in.fits" 0 "in.wcs" 0 "out.wcs" 0 "out.fits" 0).2.1 (plane_wcs 2 2 0 0)
    (by simp [no_out_services]) (by simp [no_out_services])

/-- C14. In `resample_wcs_files`, once the mappings and the source raster are
loaded, the resampler is called with the loaded source mapping, raster and
size, with the destination mapping, with a destination raster whose width
and height are the destination mapping's declared image width and height
and whose samples are all zero, with the overlap grid enabled (1) and with
the caller's interpolation order; the raster passed to the writer is the one
the resampler produced from those arguments. -/
theorem files_destination_raster
    (L : ℚ → ℚ → Buf ℚ → Nat → Nat → Int → ℚ)
    (S : fits_services) (infitsfn : String) (infitsext : Int)
    (inwcsfn : String) (inwcsext : Int) (outwcsfn : String) (outwcsext : Int)
    (outfitsfn : String) (lorder : Int)
    (inwcs outwcs : anwcs_t) (inW inH : Nat) (inimg : Buf ℚ)
    (h1 : S.anwcs_open inwcsfn inwcsext = some inwcs)
    (h2 : S.anwcs_open outwcsfn outwcsext = some outwcs)
    (h3 : S.qfitsloader_init infitsfn infitsext = some (inW, inH))
    (h4 : S.qfits_loadpix infitsfn infitsext = some inimg) :
    (∀ R : anwcs_t → Buf ℚ → Nat → Nat → anwcs_t → Buf ℚ → Nat → Nat → Int → Int →
        Int × Buf ℚ,
      resample_wcs_files_with R S infitsfn infitsext inwcsfn inwcsext outwcsfn outwcsext
          outfitsfn lorder
        = resample_wcs_files_finish S outfitsfn outwcs (S.anwcs_imagew outwcs)
            (S.anwcs_imageh outwcs)
            (R inwcs inimg inW inH outwcs (fun _ => 0) (S.anwcs_imagew outwcs)
              (S.anwcs_imageh outwcs) 1 lorder)) ∧
    resample_wcs_files L S infitsfn infitsext inwcsfn inwcsext outwcsfn outwcsext
        outfitsfn lorder
      = resample_wcs_files_finish S outfitsfn outwcs (S.anwcs_imagew outwcs)
          (S.anwcs_imageh outwcs)
          (resample_wcs L inwcs inimg inW inH outwcs (fun _ => 0) (S.anwcs_imagew outwcs)
            (S.anwcs_imageh outwcs) 1 lorder) ∧
    ∃ req : write_request,
      (resample_wcs_files L S infitsfn infitsext inwcsfn inwcsext outwcsfn outwcsext
        outfitsfn lorder).2 = some req ∧
      req.npix = S.anwcs_imagew outwcs * S.anwcs_imageh outwcs ∧
      req.width = S.anwcs_imagew outwcs ∧
      req.fbuf = (resample_wcs L inwcs inimg inW inH outwcs (fun _ => 0)
        (S.anwcs_imagew outwcs) (S.anwcs_imageh outwcs) 1 lorder).2 := by
  have hL := resample_wcs_files_with_ok (resample_wcs L) S infitsfn infitsext inwcsfn
    inwcsext outwcsfn outwcsext outfitsfn lorder inwcs outwcs inW inH inimg h1 h2 h3 h4
  refine ⟨?_, hL, ?_⟩
  · intro R
    exact resample_wcs_files_with_ok R S infitsfn infitsext inwcsfn inwcsext outwcsfn
      outwcsext outfitsfn lorder inwcs outwcs inW inH inimg h1 h2 h3 h4
  · unfold resample_wcs_files
    rw [hL]
    obtain ⟨req, e1, _, e3, e4, e5, _, _⟩ := resample_wcs_files_finish_ok S outfitsfn outwcs
      (S.anwcs_imagew outwcs) (S.anwcs_imageh outwcs) _
      (resample_wcs_ret L inwcs inimg inW inH outwcs (fun _ => 0) (S.anwcs_imagew outwcs)
        (S.anwcs_imageh outwcs) 1 lorder)
    exact ⟨req, e1, e3, e5, e4⟩

/-- Witness for C14: with the example services the wrapper resamples the
loaded 2 x 2 raster into a zeroed 2 x 2 destination with the overlap grid
enabled. -/
theorem files_destination_raster_witness :
    resample_wcs_files lanczos_stub_q plane_services "in.fits" 0 "in.wcs" 0 "out.wcs" 0
        "out.fits" 0
      = resample_wcs_files_finish plane_services "out.fits" (plane_wcs 2 2 0 0) 2 2
          (resample_wcs lanczos_stub_q (plane_wcs 2 2 0 0) (fun n => (n : ℚ) + 10) 2 2
            (plane_wcs 2 2 0 0) (fun _ => 0) 2 2 1 0) :=
  (files_destination_raster lanczos_stub_q plane_services "in.fits" 0 "in.wcs" 0 "out.wcs" 0
    "out.fits" 0 (plane_wcs 2 2 0 0) (plane_wcs 2 2 0 0) 2 2 (fun n => (n : ℚ) + 10)
    rfl rfl rfl rfl).2.1

end WcsResample
